import Mathlib

/-!
# Keyset pagination of `advdv/scrud`: cursor codec, query plan builder, page reconciler

A shallow embedding of `scrud/v1/cursor.go` and `scrudruntime/inner_pagination.go`.

* Go values of static type `any` are the inductive `GoValue`; machine integers are
  mathematical integers together with the range predicate `GoValue.wf`, and every
  arithmetic step of the code that can overflow is wrapped explicitly (`wrapInt64`,
  `wrapInt32`).
* A Go function returning `(T, error)` that may also panic returns `Res T`.
* `map[string]any` rows are association lists (`RowMap`), `[]byte` is `Bytes`, and the
  `nil` byte slice is the empty list.
* The generated message type `Cursor` (file `cursor.pb.go`) and the protobuf wire codec
  are not part of the sources at hand: the message is modelled as a record of optional
  fields, the wire codec is a parameter (`ProtoCodec`).
-/

namespace Scrud

/-! ## Go runtime model -/

/-- Go `[]byte`; the nil slice and the empty slice are both `[]`. -/
abbrev Bytes := List (Fin 256)

/-- Two's complement reinterpretation of an integer as an `int64`. -/
def wrapInt64 (x : Int) : Int := (x + 2 ^ 63) % 2 ^ 64 - 2 ^ 63

/-- Two's complement reinterpretation of an integer as an `int32`. -/
def wrapInt32 (x : Int) : Int := (x + 2 ^ 31) % 2 ^ 32 - 2 ^ 31

/-- Range of `int32`. -/
def inInt32 (x : Int) : Prop := -2 ^ 31 ≤ x ∧ x < 2 ^ 31

/-- Range of `int64`. -/
def inInt64 (x : Int) : Prop := -2 ^ 63 ≤ x ∧ x < 2 ^ 63

instance (x : Int) : Decidable (inInt32 x) := by unfold inInt32; infer_instance

instance (x : Int) : Decidable (inInt64 x) := by unfold inInt64; infer_instance

/-- Go `time.Time` without a monotonic clock reading: `wall` holds the nanoseconds
within the second, `ext` the seconds since January 1 of year 1, and `utc` says that the
location pointer is the one of UTC (nil). -/
structure GoTime where
  wall : Nat
  ext : Int
  utc : Bool
deriving DecidableEq, Repr

/-- Go values of static type `any` that can reach the cursor code. Floats are carried
as their IEEE-754 bit patterns (the code only stores and returns them). `nil` is the nil
interface (an SQL NULL), `other` is a value of any further type, given by its `%v` and
`%T` renderings. -/
inductive GoValue where
  | str (val : String)
  | bytes (val : Bytes)
  | int32 (val : Int)
  | int64 (val : Int)
  | int (val : Int)
  | uint32 (val : Nat)
  | uint64 (val : Nat)
  | float32 (bits : Nat)
  | float64 (bits : Nat)
  | bool (val : Bool)
  | time (val : GoTime)
  | duration (val : Int)
  | nil
  | other (fmtV : String) (fmtT : String)
deriving DecidableEq, Repr

namespace GoValue

/-- The dynamic type is one of string, []byte, int32, int64, uint32, uint64, float32,
float64, bool, time.Time, time.Duration. -/
def isSupported : GoValue → Bool
  | .str _ | .bytes _ | .int32 _ | .int64 _ | .uint32 _ | .uint64 _
  | .float32 _ | .float64 _ | .bool _ | .time _ | .duration _ => true
  | .int _ | .nil | .other _ _ => false

/-- The carried number is a value of the Go type named by the constructor; a time is
in UTC with a nanosecond field below one second. -/
def wf : GoValue → Prop
  | .str _ | .bytes _ | .bool _ | .nil | .other _ _ => True
  | .int32 n => inInt32 n
  | .int64 n | .int n | .duration n => inInt64 n
  | .uint32 n | .float32 n => n < 2 ^ 32
  | .uint64 n | .float64 n => n < 2 ^ 64
  | .time t => t.utc = true ∧ t.wall < 10 ^ 9 ∧ inInt64 t.ext

instance (v : GoValue) : Decidable v.wf := by
  cases v <;> unfold wf <;> infer_instance

/-- Rendering with the `%T` verb. -/
def fmtType : GoValue → String
  | .str _ => "string"
  | .bytes _ => "[]uint8"
  | .int32 _ => "int32"
  | .int64 _ => "int64"
  | .int _ => "int"
  | .uint32 _ => "uint32"
  | .uint64 _ => "uint64"
  | .float32 _ => "float32"
  | .float64 _ => "float64"
  | .bool _ => "bool"
  | .time _ => "time.Time"
  | .duration _ => "time.Duration"
  | .nil => "<nil>"
  | .other _ t => t

end GoValue

/-- Status codes of `connect.NewError` used by the runtime. -/
inductive ConnectCode where
  | invalidArgument
  | notFound
deriving DecidableEq, Repr

/-- A Go `error`: its message and the connect status code found by unwrapping it. The
message is the text of the error without the status-code prefix that connect puts in
front of it. -/
structure GoError where
  code : Option ConnectCode
  msg : String
deriving DecidableEq, Repr

/-- The error of `fmt.Errorf(format, args...)` without a wrapped error. -/
def GoError.errorf (msg : String) : GoError := ⟨none, msg⟩

/-- The error of `fmt.Errorf(pre + "%w", e)`: the message is prefixed, the wrapped error
stays reachable so its status code is kept. -/
def GoError.wrap (pre : String) (e : GoError) : GoError := ⟨e.code, pre ++ e.msg⟩

/-- The error of `connect.NewError(code, e)`. -/
def GoError.connect (code : ConnectCode) (e : GoError) : GoError := ⟨some code, e.msg⟩

/-- Run-time panics of the modelled code. -/
inductive GoPanic where
  | typeAssertion (msg : String)
  | sliceBounds (msg : String)
  | explicit (msg : String)
deriving DecidableEq, Repr

/-- Outcome of a Go call: a value with nil error, a non-nil error (all other results
nil), or a panic. -/
inductive Res (α : Type) where
  | ok (val : α)
  | err (e : GoError)
  | panic (p : GoPanic)
deriving DecidableEq, Repr

/-- Sequencing of Go calls: an error or a panic ends the computation. -/
def Res.bind {α β : Type} (r : Res α) (f : α → Res β) : Res β :=
  match r with
  | .ok v => f v
  | .err e => .err e
  | .panic p => .panic p

/-- The idiom `if err != nil { return ..., fmt.Errorf(pre + "%w", err) }`. -/
def Res.wrapErr {α : Type} (pre : String) (r : Res α) : Res α :=
  match r with
  | .ok v => .ok v
  | .err e => .err (GoError.wrap pre e)
  | .panic p => .panic p

/-! ## `time`, `timestamppb`, `durationpb` -/

/-- Seconds from January 1 of year 1 to January 1 of 1970 (`unixToInternal`). -/
def unixToInternal : Int := (1969 * 365 + 1969 / 4 - 1969 / 100 + 1969 / 400) * 86400

/-- Go `internalToUnix`. -/
def internalToUnix : Int := -unixToInternal

/-- Go `Time.Unix()`. -/
def GoTime.Unix (t : GoTime) : Int := wrapInt64 (t.ext + internalToUnix)

/-- Go `Time.Nanosecond()`: the low 30 bits of the wall field. -/
def GoTime.Nanosecond (t : GoTime) : Int := Int.ofNat (t.wall % 2 ^ 30)

/-- Go `Time.UTC()`. -/
def GoTime.UTC (t : GoTime) : GoTime := { t with utc := true }

/-- Go `time.Unix(sec, nsec)`; the result is in the local location. -/
def timeUnix (sec nsec : Int) : GoTime :=
  if nsec < 0 ∨ nsec ≥ 10 ^ 9 then
    let n := Int.tdiv nsec (10 ^ 9)
    let sec1 := wrapInt64 (sec + n)
    let nsec1 := wrapInt64 (nsec - wrapInt64 (n * 10 ^ 9))
    if nsec1 < 0 then
      ⟨(wrapInt32 (nsec1 + 10 ^ 9)).toNat, wrapInt64 (wrapInt64 (sec1 - 1) + unixToInternal), false⟩
    else
      ⟨(wrapInt32 nsec1).toNat, wrapInt64 (sec1 + unixToInternal), false⟩
  else
    ⟨(wrapInt32 nsec).toNat, wrapInt64 (sec + unixToInternal), false⟩

/-- The message `google.protobuf.Timestamp`. -/
structure Timestamp where
  seconds : Int
  nanos : Int
deriving DecidableEq, Repr

/-- The message `google.protobuf.Duration`. -/
structure Duration where
  seconds : Int
  nanos : Int
deriving DecidableEq, Repr

/-- Go `timestamppb.New(t)`. -/
def timestamppbNew (t : GoTime) : Timestamp := ⟨t.Unix, wrapInt32 t.Nanosecond⟩

/-- Go `(*Timestamp).AsTime()`. -/
def Timestamp.AsTime (x : Timestamp) : GoTime := (timeUnix x.seconds x.nanos).UTC

/-- Go `durationpb.New(d)`. -/
def durationpbNew (d : Int) : Duration :=
  let nanos := d
  let secs := Int.tdiv nanos (10 ^ 9)
  let nanos1 := wrapInt64 (nanos - wrapInt64 (secs * 10 ^ 9))
  ⟨secs, wrapInt32 nanos1⟩

/-- Go `(*Duration).AsDuration()`, saturating on overflow. -/
def Duration.AsDuration (x : Duration) : Int :=
  let secs := x.seconds
  let nanos := x.nanos
  let d := wrapInt64 (secs * 10 ^ 9)
  let overflow := decide (Int.tdiv d (10 ^ 9) ≠ secs)
  let d1 := wrapInt64 (d + nanos)
  let overflow1 := overflow || (decide (secs < 0) && decide (nanos < 0) && decide (d1 > 0))
  let overflow2 := overflow1 || (decide (secs > 0) && decide (nanos > 0) && decide (d1 < 0))
  if overflow2 then
    if secs < 0 then -2 ^ 63
    else if secs > 0 then 2 ^ 63 - 1
    else d1
  else d1

/-- The carried number is a value of the Go type named by the constructor; a time has a
nanosecond field below one second, in any location. -/
def GoValue.inRange : GoValue → Prop
  | .str _ | .bytes _ | .bool _ | .nil | .other _ _ => True
  | .int32 n => inInt32 n
  | .int64 n | .int n | .duration n => inInt64 n
  | .uint32 n | .float32 n => n < 2 ^ 32
  | .uint64 n | .float64 n => n < 2 ^ 64
  | .time t => t.wall < 10 ^ 9 ∧ inInt64 t.ext

instance (v : GoValue) : Decidable v.inRange := by
  cases v <;> unfold GoValue.inRange <;> infer_instance

/-- The same value, a time being moved to the location UTC (the instant is kept). -/
def GoValue.toUTC : GoValue → GoValue
  | .time t => .time t.UTC
  | v => v

/-! ## The cursor message (`scrud/v1`) -/

/-- Modelled from the spec: the generated message `Cursor` of `cursor.pb.go`, which is
not among the sources. It carries a primary id, a direction flag and the order value
"as a message with multiple optional fields", one per supported kind; every field has
explicit presence. -/
structure Cursor where
  primaryId : Option String := none
  isBackwards : Option Bool := none
  orderString : Option String := none
  orderBytes : Option Bytes := none
  orderInt32 : Option Int := none
  orderInt64 : Option Int := none
  orderUint32 : Option Nat := none
  orderUint64 : Option Nat := none
  orderFloat : Option Nat := none
  orderDouble : Option Nat := none
  orderBool : Option Bool := none
  orderTimestamp : Option Timestamp := none
  orderDuration : Option Duration := none
deriving DecidableEq, Repr

/-- Modelled from the spec: the generated builder `Cursor_builder`; the code sets the
fields `PrimaryId` and `IsBackwards` only. -/
structure Cursor_builder where
  PrimaryId : Option String := none
  IsBackwards : Option Bool := none
deriving DecidableEq, Repr

/-- Modelled from the spec: generated `Cursor_builder.Build`. -/
def Cursor_builder.Build (b : Cursor_builder) : Cursor :=
  { primaryId := b.PrimaryId, isBackwards := b.IsBackwards }

namespace Cursor

/-- Modelled from the spec: generated getter, the empty string when unset. -/
def GetPrimaryId (x : Cursor) : String := x.primaryId.getD ""

/-- Modelled from the spec: generated getter, false when unset. -/
def GetIsBackwards (x : Cursor) : Bool := x.isBackwards.getD false

/-- Modelled from the spec: generated setter of the string variant. -/
def SetOrderString (x : Cursor) (v : String) : Cursor := { x with orderString := some v }

/-- Modelled from the spec: generated setter of the bytes variant. -/
def SetOrderBytes (x : Cursor) (v : Bytes) : Cursor := { x with orderBytes := some v }

/-- Modelled from the spec: generated setter of the int32 variant. -/
def SetOrderInt32 (x : Cursor) (v : Int) : Cursor := { x with orderInt32 := some v }

/-- Modelled from the spec: generated setter of the int64 variant. -/
def SetOrderInt64 (x : Cursor) (v : Int) : Cursor := { x with orderInt64 := some v }

/-- Modelled from the spec: generated setter of the uint32 variant. -/
def SetOrderUint32 (x : Cursor) (v : Nat) : Cursor := { x with orderUint32 := some v }

/-- Modelled from the spec: generated setter of the uint64 variant. -/
def SetOrderUint64 (x : Cursor) (v : Nat) : Cursor := { x with orderUint64 := some v }

/-- Modelled from the spec: generated setter of the float32 variant. -/
def SetOrderFloat (x : Cursor) (v : Nat) : Cursor := { x with orderFloat := some v }

/-- Modelled from the spec: generated setter of the float64 variant. -/
def SetOrderDouble (x : Cursor) (v : Nat) : Cursor := { x with orderDouble := some v }

/-- Modelled from the spec: generated setter of the bool variant. -/
def SetOrderBool (x : Cursor) (v : Bool) : Cursor := { x with orderBool := some v }

/-- Modelled from the spec: generated setter of the timestamp variant. -/
def SetOrderTimestamp (x : Cursor) (v : Timestamp) : Cursor :=
  { x with orderTimestamp := some v }

/-- Modelled from the spec: generated setter of the duration variant. -/
def SetOrderDuration (x : Cursor) (v : Duration) : Cursor :=
  { x with orderDuration := some v }

/-- Text rendering (`%v`) of a cursor none of whose order fields is set. -/
def fmtNoOrder (x : Cursor) : String :=
  let p := match x.primaryId with
    | some s => ["primary_id:\"" ++ s ++ "\""]
    | none => []
  let b := match x.isBackwards with
    | some v => ["is_backwards:" ++ toString v]
    | none => []
  " ".intercalate (p ++ b)

/-- `func (x *Cursor) OrderValue() any` of `cursor.go`: the first populated variant in
the order of the switch; a panic when none is populated. -/
def OrderValue (x : Cursor) : Res GoValue :=
  match x.orderString with
  | some v => .ok (.str v)
  | none =>
  match x.orderBytes with
  | some v => .ok (.bytes v)
  | none =>
  match x.orderInt32 with
  | some v => .ok (.int32 v)
  | none =>
  match x.orderInt64 with
  | some v => .ok (.int64 v)
  | none =>
  match x.orderUint32 with
  | some v => .ok (.uint32 v)
  | none =>
  match x.orderUint64 with
  | some v => .ok (.uint64 v)
  | none =>
  match x.orderFloat with
  | some v => .ok (.float32 v)
  | none =>
  match x.orderDouble with
  | some v => .ok (.float64 v)
  | none =>
  match x.orderBool with
  | some v => .ok (.bool v)
  | none =>
  match x.orderTimestamp with
  | some v => .ok (.time v.AsTime)
  | none =>
  match x.orderDuration with
  | some v => .ok (.duration v.AsDuration)
  | none => .panic (.explicit ("unsupported or unset order_value in cursor: " ++ x.fmtNoOrder))

/-- `func (x *Cursor) GetIsForwards() bool` of `cursor.go`. -/
def GetIsForwards (x : Cursor) : Bool := !x.GetIsBackwards

end Cursor

/-- `func NewCursor(primaryID string, orderValue any, backwards bool) (*Cursor, error)` of
`cursor.go`. In the case `int64, int` the variable keeps the static type `any`, so the
assertion `val.(int64)` panics for a dynamic `int`. -/
def NewCursor (primaryID : String) (orderValue : GoValue) (backwards : Bool) : Res Cursor :=
  let crs := Cursor_builder.Build { PrimaryId := some primaryID, IsBackwards := some backwards }
  match orderValue with
  | .str val => .ok (crs.SetOrderString val)
  | .bytes val => .ok (crs.SetOrderBytes val)
  | .int32 val => .ok (crs.SetOrderInt32 val)
  | .int64 val => .ok (crs.SetOrderInt64 val)
  | .int _ => .panic (.typeAssertion "interface conversion: interface \x7b\x7d is int, not int64")
  | .uint32 val => .ok (crs.SetOrderUint32 val)
  | .uint64 val => .ok (crs.SetOrderUint64 val)
  | .float32 val => .ok (crs.SetOrderFloat val)
  | .float64 val => .ok (crs.SetOrderDouble val)
  | .bool val => .ok (crs.SetOrderBool val)
  | .time val => .ok (crs.SetOrderTimestamp (timestamppbNew val))
  | .duration val => .ok (crs.SetOrderDuration (durationpbNew val))
  | .nil => .err (GoError.errorf "unsupported order value: <nil> (<nil>)")
  | .other fmtV fmtT => .err (GoError.errorf
      ("unsupported order value: " ++ fmtV ++ " (" ++ fmtT ++ ")"))


/-! ## Query plan builder and page reconciler (`scrudruntime/inner_pagination.go`) -/

/-- The protobuf wire codec used by the runtime on the cursor message: `proto.Marshal`
and `proto.Unmarshal` into a fresh message, each returning a value or an error. The
generated message descriptor is not among the sources, so the codec is a parameter of
the embedding. -/
structure ProtoCodec where
  Marshal : Cursor → Except GoError Bytes
  Unmarshal : Bytes → Except GoError Cursor

/-- The outcome of a library call that returns a value or an error and does not panic. -/
def Res.ofExcept {α : Type} (r : Except GoError α) : Res α :=
  match r with
  | .ok v => Res.ok v
  | .error e => Res.err e

/-- A row as scanned into `map[string]any`. -/
abbrev RowMap := List (String × GoValue)

/-- The request message of a list call, as seen through the eight methods of the type
parameter `I` of `PaginateSelectMods`. -/
structure ListInput where
  HasSortBy : Bool
  GetSortBy : String
  GetSortDesc : Bool
  HasPerPage : Bool
  GetPerPage : Int
  HasCursor : Bool
  GetCursor : Bytes
  GetShowArchived : Bool
deriving DecidableEq, Repr

/-- The query modifiers (`bob.Mod`) that `PaginateSelectMods` builds. `whereLT` and
`whereGT` compare the group of the two quoted columns `lhs` with the argument group
`rhs` (the cursor's order value and primary id). -/
inductive Mod where
  | columns (cols : List String)
  | orderBy (col : String) (desc : Bool)
  | limit (count : Int)
  | whereLT (lhs : String × String) (rhs : GoValue × String)
  | whereGT (lhs : String × String) (rhs : GoValue × String)
  | fromTable (table : String)
deriving DecidableEq, Repr

/-- What the reconciler returns next to a nil error: the ids, the next cursor and the
previous cursor (empty when absent). -/
structure PageResult where
  ids : List String
  nextCursor : Bytes
  prevCursor : Bytes
deriving DecidableEq, Repr

/-- `func getRowID(row map[string]any) (string, error)`. -/
def getRowID (row : RowMap) : Res String :=
  match row.lookup "id" with
  | some (.str v) => .ok v
  | some v => .err (GoError.errorf
      ("row map has no <string> value for 'id' column, got: " ++ v.fmtType))
  | none => .err (GoError.errorf
      "row map has no <string> value for 'id' column, got: <nil>")

/-- `func mapEncodeCursor(row map[string]any, sortCol string, backwards bool) ([]byte, error)`. -/
def mapEncodeCursor (pb : ProtoCodec) (row : RowMap) (sortCol : String) (backwards : Bool) :
    Res Bytes :=
  match row.lookup sortCol with
  | none => .err (GoError.errorf ("row map has no value for column: " ++ sortCol))
  | some val =>
    ((getRowID row).wrapErr "get row id: ").bind fun id =>
    ((NewCursor id val backwards).wrapErr "init cursor: ").bind fun c =>
    (Res.ofExcept (pb.Marshal c)).wrapErr "marshal cursor: "

/-- `func orderBy(col string, desc bool) bob.Mod[*dialect.SelectQuery]`. -/
def orderBy (col : String) (desc : Bool) : Mod :=
  if desc then .orderBy col true else .orderBy col false

/-- `func decodeCursor(buf []byte) (*scrudv1.Cursor, error)`. -/
def decodeCursor (pb : ProtoCodec) (buf : Bytes) : Res Cursor :=
  (Res.ofExcept (pb.Unmarshal buf)).wrapErr "unmarshal cursor: "

/-- The slice expression `rows[:pageSize]` where `pageSize` does not exceed the
length: it panics for a negative bound. -/
def sliceTo (rows : List RowMap) (pageSize : Int) : Res (List RowMap) :=
  if pageSize < 0 then Res.panic (.sliceBounds "slice bounds out of range")
  else Res.ok (rows.take pageSize.toNat)

/-- The final loop of the reconciler: the id of every row, stopping at the first row
without a string id. -/
def rowIDs : List RowMap → Res (List String)
  | [] => Res.ok []
  | r :: rest =>
    ((getRowID r).wrapErr "get final row ids: ").bind fun id =>
    (rowIDs rest).bind fun ids => Res.ok (id :: ids)

/-- The cursor part of the reconciler, on the rows left after the sentinel was dropped:
the next cursor, the previous cursor and the rows in client order. -/
def reconcileCursors (pb : ProtoCodec) (sortCol : String) (backwards hasCursor hasMore : Bool)
    (rows : List RowMap) : Res (Bytes × Bytes × List RowMap) :=
  let isFirstPage := !hasCursor
  match rows.head?, rows.getLast? with
  | some first, some last =>
    if backwards then
      ((mapEncodeCursor pb first sortCol false).wrapErr "encode next cursor: ").bind
        fun nextCursor =>
      (if hasMore then (mapEncodeCursor pb last sortCol true).wrapErr "encode prev cursor: "
        else Res.ok []).bind fun prevCursor =>
      Res.ok (nextCursor, prevCursor, rows.reverse)
    else
      (if hasMore then (mapEncodeCursor pb last sortCol false).wrapErr "encode next cursor: "
        else Res.ok []).bind fun nextCursor =>
      (if !isFirstPage then
          (mapEncodeCursor pb first sortCol true).wrapErr "encode prev cursor: "
        else Res.ok []).bind fun prevCursor =>
      Res.ok (nextCursor, prevCursor, rows)
  | _, _ => Res.ok ([], [], rows)

/-- The reconciler after the sentinel step: cursors, client order, ids. -/
def reconcileTail (pb : ProtoCodec) (sortCol : String) (backwards hasCursor hasMore : Bool)
    (rows : List RowMap) : Res PageResult :=
  (reconcileCursors pb sortCol backwards hasCursor hasMore rows).bind fun r =>
  (rowIDs r.2.2).bind fun ids =>
  Res.ok ⟨ids, r.1, r.2.1⟩

/-- The closure returned by `PaginateSelectMods`, with the variables it captures
(`pageSize`, `sortCol`, `backwards` and `inp.HasCursor()`) as parameters. -/
def reconcile (pb : ProtoCodec) (pageSize : Int) (sortCol : String) (backwards hasCursor : Bool)
    (rows : List RowMap) : Res PageResult :=
  let hasMore := decide ((rows.length : Int) > pageSize)
  (if hasMore then sliceTo rows pageSize else Res.ok rows).bind
    (reconcileTail pb sortCol backwards hasCursor hasMore)

/-- The sort column of the plan. -/
def planSortCol (inp : ListInput) : String :=
  if inp.HasSortBy then inp.GetSortBy else "created_at"

/-- The page size of the plan. -/
def planPageSize (inp : ListInput) : Int :=
  if inp.HasPerPage then inp.GetPerPage else 100

/-- `func PaginateSelectMods(inp I, baseTableName string)`: the query modifiers and the
reconciler, an invalid-argument error when the cursor does not decode, a panic when the
decoded cursor has no order value. -/
def PaginateSelectMods (pb : ProtoCodec) (inp : ListInput) (baseTableName : String) :
    Res (List Mod × (List RowMap → Res PageResult)) :=
  let sortCol := planSortCol inp
  let desc := inp.GetSortDesc
  let pageSize := planPageSize inp
  (if inp.HasCursor then
      match decodeCursor pb inp.GetCursor with
      | .err e => Res.err (GoError.connect .invalidArgument (GoError.wrap "decode cursor: " e))
      | .panic p => Res.panic p
      | .ok c =>
        c.OrderValue.bind fun sortValue =>
        let backwards := c.GetIsBackwards
        Res.ok (sortValue, c.GetPrimaryId, backwards, if backwards then !desc else desc)
    else Res.ok (GoValue.nil, "", false, desc)).bind fun st =>
  let sortValue := st.1
  let sortID := st.2.1
  let backwards := st.2.2.1
  let desc1 := st.2.2.2
  let mods : List Mod := [
    .columns ["id", sortCol],
    orderBy sortCol desc1,
    orderBy "id" desc1,
    .limit (wrapInt32 (pageSize + 1))]
  let mods1 :=
    if sortValue ≠ GoValue.nil then
      if desc1 then mods ++ [.whereLT (sortCol, "id") (sortValue, sortID)]
      else mods ++ [.whereGT (sortCol, "id") (sortValue, sortID)]
    else mods
  let mods2 :=
    if inp.GetShowArchived then mods1 ++ [.fromTable (baseTableName ++ "_archived")]
    else mods1 ++ [.fromTable (baseTableName ++ "_live")]
  Res.ok (mods2, reconcile pb pageSize sortCol backwards inp.HasCursor)


/-- Whether the request is a backward scan: it carries a cursor that decodes with
`is_backwards` set. -/
def scanBackwards (pb : ProtoCodec) (inp : ListInput) : Bool :=
  if inp.HasCursor then
    match decodeCursor pb inp.GetCursor with
    | .ok c => c.GetIsBackwards
    | _ => false
  else false

/-- A fetched row as the page reconciler takes it: it carries a string identifier and
a sort-column value of a supported type. -/
def FetchedRowOk (sortCol : String) (row : RowMap) : Prop :=
  (∃ id, row.lookup "id" = some (GoValue.str id)) ∧
  (∃ v, row.lookup sortCol = some v ∧ v.isSupported = true)

/-! ## Store model and page walks

The database is a list of rows; SQL comparison of two values is comparison of their
images under a function `rank` into a linear order. A query keeps the rows that pass
every `WHERE` modifier, sorts them by the `ORDER BY` modifiers in sequence, and takes
as many rows as the `LIMIT` modifier says (none for a negative limit, which a database
rejects). The column list and the row-set name do not change the outcome: the store is
the content of the selected row-set, and a fetched row carries all of its columns. -/

/-- The value of a column of a row, NULL when the row has no such column. -/
def cell (row : RowMap) (col : String) : GoValue := (row.lookup col).getD GoValue.nil

/-- The composite key of a row over a pair of columns, compared lexicographically. -/
def rowKey {R : Type} (rank : GoValue → R) (cols : String × String) (row : RowMap) : R ×ₗ R :=
  toLex (rank (cell row cols.1), rank (cell row cols.2))

/-- The composite key of the argument group of a keyset filter. -/
def anchorKey {R : Type} (rank : GoValue → R) (rhs : GoValue × String) : R ×ₗ R :=
  toLex (rank rhs.1, rank (GoValue.str rhs.2))

/-- Whether a row passes a modifier: a strict composite comparison for the two `WHERE`
forms, true for every other modifier. -/
def Mod.keeps {R : Type} [LinearOrder R] (rank : GoValue → R) (m : Mod) (row : RowMap) : Bool :=
  match m with
  | .whereLT lhs rhs => decide (rowKey rank lhs row < anchorKey rank rhs)
  | .whereGT lhs rhs => decide (anchorKey rank rhs < rowKey rank lhs row)
  | _ => true

/-- The `ORDER BY` items of a plan, in sequence. -/
def orderSpecs (mods : List Mod) : List (String × Bool) :=
  mods.filterMap fun m =>
    match m with
    | .orderBy col desc => some (col, desc)
    | _ => none

/-- Row `a` may come before row `b` under a sequence of `ORDER BY` items. -/
def orderLe {R : Type} [LinearOrder R] (rank : GoValue → R) :
    List (String × Bool) → RowMap → RowMap → Bool
  | [], _, _ => true
  | (col, desc) :: rest, a, b =>
    if rank (cell a col) = rank (cell b col) then orderLe rank rest a b
    else if desc then decide (rank (cell b col) < rank (cell a col))
    else decide (rank (cell a col) < rank (cell b col))

/-- The `LIMIT` of a plan. -/
def planLimit (mods : List Mod) : Option Int :=
  (mods.filterMap fun m =>
    match m with
    | .limit n => some n
    | _ => none).head?

/-- Execution of a plan on the store: filter, sort, limit. -/
def runQuery {R : Type} [LinearOrder R] (rank : GoValue → R) (store : List RowMap)
    (mods : List Mod) : List RowMap :=
  let kept := store.filter fun row => mods.all fun m => m.keeps rank row
  let sorted := kept.insertionSort (fun a b => orderLe rank (orderSpecs mods) a b = true)
  match planLimit mods with
  | some n => sorted.take n.toNat
  | none => sorted

/-- One list call: build the plan, run it on the store, reconcile the fetched rows. -/
def listPage {R : Type} [LinearOrder R] (pb : ProtoCodec) (rank : GoValue → R)
    (store : List RowMap) (baseTableName : String) (inp : ListInput) : Res PageResult :=
  (PaginateSelectMods pb inp baseTableName).bind fun plan =>
    plan.2 (runQuery rank store plan.1)

/-- The request of a walk step (`scrudtest.TestList`): the cursor is set only when it is
not empty. -/
def withCursor (inp : ListInput) (cur : Bytes) : ListInput :=
  if cur.length > 0 then { inp with HasCursor := true, GetCursor := cur } else inp

/-- The forward walk of `scrudtest.TestList`: request a page, stop at a page without a
next cursor, else go on with the next cursor; `fuel` bounds the number of pages. -/
def walkForward (list : ListInput → Res PageResult) (inp : ListInput) :
    Nat → Bytes → Res (List PageResult)
  | 0, _ => Res.err (GoError.errorf "too many paging iterations")
  | fuel + 1, cur =>
    (list (withCursor inp cur)).bind fun page =>
      if page.nextCursor.length < 1 then Res.ok [page]
      else (walkForward list inp fuel page.nextCursor).bind fun rest => Res.ok (page :: rest)

/-- The backward walk of `scrudtest.TestList`: request a page, stop at a page without a
previous cursor, else go on with the previous cursor. The pages are listed in the order
of the requests. -/
def walkBackward (list : ListInput → Res PageResult) (inp : ListInput) :
    Nat → Bytes → Res (List PageResult)
  | 0, _ => Res.err (GoError.errorf "too many paging iterations")
  | fuel + 1, cur =>
    (list (withCursor inp cur)).bind fun page =>
      if page.prevCursor.length < 1 then Res.ok [page]
      else (walkBackward list inp fuel page.prevCursor).bind fun rest => Res.ok (page :: rest)

/-- The ids of a sequence of pages, one page after the other. -/
def pageIds (pages : List PageResult) : List String :=
  (pages.map PageResult.ids).flatten

/-- The id of a store row, empty when it has no string id. -/
def rowIdOf (row : RowMap) : String :=
  match row.lookup "id" with
  | some (.str v) => v
  | _ => ""

/-- The rows of the store in ascending or descending order of (sort column, id). -/
def sortedStore {R : Type} [LinearOrder R] (rank : GoValue → R) (sortCol : String) (desc : Bool)
    (store : List RowMap) : List RowMap :=
  store.insertionSort (fun a b =>
    if desc then rowKey rank (sortCol, "id") b ≤ rowKey rank (sortCol, "id") a
    else rowKey rank (sortCol, "id") a ≤ rowKey rank (sortCol, "id") b)

/-- A row of the store model: a string id and, under the sort column, a value of a
supported type (a time in any location) within the range of its Go type. -/
def StoreRowOk (sortCol : String) (row : RowMap) : Prop :=
  (∃ id, row.lookup "id" = some (GoValue.str id)) ∧
  (∃ v, row.lookup sortCol = some v ∧ v.isSupported = true ∧ v.inRange)

/-- The wire codec returns what it was given: every cursor built by `NewCursor`
marshals without error to a non-empty byte string that unmarshals to the same cursor. -/
def ProtoCodec.Lawful (pb : ProtoCodec) : Prop :=
  ∀ id v b c, NewCursor id v b = Res.ok c →
    ∃ buf, pb.Marshal c = Except.ok buf ∧ buf ≠ [] ∧ pb.Unmarshal buf = Except.ok c


/-- The rows left by the sentinel step of the reconciler. -/
def stripSentinel (rows : List RowMap) (pageSize : Int) : List RowMap :=
  if (rows.length : Int) > pageSize then rows.take pageSize.toNat else rows

/-- Build the plan of a request and apply its reconciler to fetched rows. -/
def reconcileWith (pb : ProtoCodec) (inp : ListInput) (baseTableName : String)
    (rows : List RowMap) : Res PageResult :=
  (PaginateSelectMods pb inp baseTableName).bind fun plan => plan.2 rows

/-- Row `a` comes strictly before row `b` in the order of (sort column, id), ascending or
descending. -/
def keyLt {R : Type} [LinearOrder R] (rank : GoValue → R) (sortCol : String) (desc : Bool)
    (a b : RowMap) : Prop :=
  if desc then rowKey rank (sortCol, "id") b < rowKey rank (sortCol, "id") a
  else rowKey rank (sortCol, "id") a < rowKey rank (sortCol, "id") b

instance instDecidableKeyLt {R : Type} [LinearOrder R] (rank : GoValue → R) (sortCol : String)
    (desc : Bool) (a b : RowMap) : Decidable (keyLt rank sortCol desc a b) :=
  inferInstanceAs (Decidable (if desc then
    rowKey rank (sortCol, "id") b < rowKey rank (sortCol, "id") a
    else rowKey rank (sortCol, "id") a < rowKey rank (sortCol, "id") b))

/-- The store model: every row has a string id and a sort value of a supported type,
and the ids are distinct. -/
def StoreOk (sortCol : String) (store : List RowMap) : Prop :=
  (∀ r ∈ store, StoreRowOk sortCol r) ∧ (store.map rowIdOf).Nodup

/-- The bytes `mapEncodeCursor` returns for a row, empty when it fails. -/
def cursorOf (pb : ProtoCodec) (sortCol : String) (row : RowMap) (backwards : Bool) : Bytes :=
  match mapEncodeCursor pb row sortCol backwards with
  | .ok buf => buf
  | _ => []

/-- The cursor of a row that may be absent: no row, no cursor. -/
def cursorAt (pb : ProtoCodec) (sortCol : String) (row : Option RowMap) (backwards : Bool) :
    Bytes :=
  match row with
  | some r => cursorOf pb sortCol r backwards
  | none => []

/-- The ceiling of `n / p`. -/
def ceilDiv (n p : Nat) : Nat := (n + p - 1) / p

/-- The bound on the number of pages of a walk over `n` rows with page size `p`: the
ceiling of `n / p`, and at least the one request that is always made. -/
def pagesNeeded (n p : Nat) : Nat := max 1 (ceilDiv n p)

/-- The pages a forward walk is expected to return over the rows `post` that lie after
the current position: consecutive chunks of `p` rows, each page but the last with a next
cursor built from its last row, each page but the very first with a previous cursor
built from its first row. -/
def fwdPages (pb : ProtoCodec) (sortCol : String) (p : Nat) :
    Nat → Bool → List RowMap → List PageResult
  | 0, _, _ => []
  | fuel + 1, first, post =>
    let page : PageResult :=
      ⟨(post.take p).map rowIdOf,
        if p < post.length then cursorAt pb sortCol (post.take p).getLast? false else [],
        if first then [] else cursorAt pb sortCol post.head? true⟩
    if p < post.length then page :: fwdPages pb sortCol p fuel false (post.drop p) else [page]

/-- The pages a backward walk is expected to return over the rows `pre` that lie before
the anchor: chunks of `p` rows taken from the end, each with a next cursor built from
its last row, each but the final one with a previous cursor built from its first row. -/
def bwdPages (pb : ProtoCodec) (sortCol : String) (p : Nat) :
    Nat → List RowMap → List PageResult
  | 0, _ => []
  | fuel + 1, pre =>
    let page : PageResult :=
      ⟨(pre.drop (pre.length - p)).map rowIdOf,
        cursorAt pb sortCol pre.getLast? false,
        if p < pre.length then cursorAt pb sortCol (pre.get? (pre.length - p)) true else []⟩
    if p < pre.length then page :: bwdPages pb sortCol p fuel (pre.take (pre.length - p))
    else [page]

/-- The `LIMIT` of the plan of a request. -/
def requestLimit (pb : ProtoCodec) (inp : ListInput) (baseTableName : String) :
    Res (Option Int) :=
  (PaginateSelectMods pb inp baseTableName).bind fun plan => Res.ok (planLimit plan.1)

/-! ## Further notions for the plan and the cursor -/

/-- The keyset filters of a plan: its `WHERE` modifiers. -/
def keysetFilters (mods : List Mod) : List Mod :=
  mods.filter fun m =>
    match m with
    | .whereLT _ _ => true
    | .whereGT _ _ => true
    | _ => false

/-- Whether one of the eleven order-value variants of a cursor is populated. -/
def Cursor.hasOrderValue (x : Cursor) : Bool :=
  x.orderString.isSome || x.orderBytes.isSome || x.orderInt32.isSome || x.orderInt64.isSome ||
  x.orderUint32.isSome || x.orderUint64.isSome || x.orderFloat.isSome ||
  x.orderDouble.isSome || x.orderBool.isSome || x.orderTimestamp.isSome ||
  x.orderDuration.isSome

/-- The columns a plan selects. -/
def selectedColumns (mods : List Mod) : List String :=
  mods.flatMap fun m =>
    match m with
    | .columns cols => cols
    | _ => []

/-- The row-sets (tables or views) a plan selects from. -/
def fromTables (mods : List Mod) : List String :=
  mods.filterMap fun m =>
    match m with
    | .fromTable name => some name
    | _ => none

/-- The number of populated order-value variants of a cursor. -/
def Cursor.orderCount (x : Cursor) : Nat :=
  x.orderString.toList.length + x.orderBytes.toList.length + x.orderInt32.toList.length +
  x.orderInt64.toList.length + x.orderUint32.toList.length + x.orderUint64.toList.length +
  x.orderFloat.toList.length + x.orderDouble.toList.length + x.orderBool.toList.length +
  x.orderTimestamp.toList.length + x.orderDuration.toList.length

/-! ## Batch reconciler (`scrudruntime/sqlc.go`) -/

/-- Go `errors.Join(a, b)` on two errors that may be nil: nil when both are, else an
error whose message joins the messages of the non-nil ones with a newline and whose
status code is the first one found. -/
def errorsJoin (a b : Option GoError) : Option GoError :=
  match a, b with
  | none, none => none
  | some x, none => some x
  | none, some y => some y
  | some x, some y => some ⟨x.code <|> y.code, x.msg ++ "\n" ++ y.msg⟩

/-- `func IsOneNotFound(actualIDs, expectedIDs []string) error`; nil is `none`. -/
def IsOneNotFound (actualIDs expectedIDs : List String) : Option GoError :=
  if actualIDs.length ≠ expectedIDs.length then
    let notFoundIDs := expectedIDs.filter fun id => !actualIDs.contains id
    some (GoError.connect .notFound
      (GoError.errorf ("could not find id(s): " ++ ",".intercalate notFoundIDs)))
  else none

/-- The first loop of `RowsToItems`: the ids of the rows that count as found. A row
that is archived is skipped unless archived rows are considered. -/
def foundIDs {T : Type} (GetID : T → String) (GetArchivedAt : T → Option GoTime)
    (rows : List T) (considerArchived : Bool) : List String :=
  rows.filterMap fun row =>
    if (GetArchivedAt row).isSome && !considerArchived then none else some (GetID row)

/-- The inner loop of `RowsToItems` for one requested id: every row with that id is
mapped; a mapping error is joined to the error so far, a mapped item is appended. -/
def mapRowsOf {T IT : Type} (GetID : T → String) (mapf : T → Except GoError IT) (id : String)
    (rows : List T) (acc : List IT × Option GoError) : List IT × Option GoError :=
  rows.foldl (fun acc row =>
    if GetID row = id then
      match mapf row with
      | .error merr => (acc.1, errorsJoin acc.2 (some merr))
      | .ok mapped => (acc.1 ++ [mapped], acc.2)
    else acc) acc

/-- `func RowsToItems(ctx, tx, ids, rows, considerArchived, mapf) (items []IT, err error)`.
The row type is given by its two methods, the mapping function by its outcome on a
row; the result is the pair of both return values (a nil slice is `[]`, a nil error
`none`). -/
def RowsToItems {T IT : Type} (GetID : T → String) (GetArchivedAt : T → Option GoTime)
    (ids : List String) (rows : List T) (considerArchived : Bool)
    (mapf : T → Except GoError IT) : List IT × Option GoError :=
  let actualIDs := foundIDs GetID GetArchivedAt rows considerArchived
  match IsOneNotFound actualIDs ids with
  | some err => ([], some err)
  | none => ids.foldl (fun acc id => mapRowsOf GetID mapf id rows acc) ([], none)

/-- The rows the second loop of `RowsToItems` passes to the mapping function, in the
order of the calls: for each requested id in request order, the rows with that id in
fetch order. -/
def matchingRows {T : Type} (GetID : T → String) (ids : List String) (rows : List T) : List T :=
  ids.flatMap fun id => rows.filter fun r => GetID r = id

/-- The items of the rows whose mapping succeeds. -/
def mappedItems {T IT : Type} (mapf : T → Except GoError IT) (visited : List T) : List IT :=
  visited.filterMap fun r =>
    match mapf r with
    | .ok mapped => some mapped
    | .error _ => none

/-- The errors of the rows whose mapping fails. -/
def mappingErrors {T IT : Type} (mapf : T → Except GoError IT) (visited : List T) :
    List GoError :=
  visited.filterMap fun r =>
    match mapf r with
    | .ok _ => none
    | .error merr => some merr

/-- The error that results from joining a sequence of errors one after the other,
starting from nil. -/
def joinAll (errs : List GoError) : Option GoError :=
  errs.foldl (fun acc e => errorsJoin acc (some e)) none

/-! ## Per-item dispatch (`scrudruntime/outer.go`) -/

/-- The error a row-level function returns: whether `errors.Is` finds `pgx.ErrNoRows` or
`sql.ErrNoRows` in it, and the error itself. -/
structure OpError where
  isNoRows : Bool
  err : GoError
deriving DecidableEq, Repr

/-- `func appendErr(id string, err, opErr error) error`. -/
def appendErr (id : String) (err : Option GoError) (opErr : Option OpError) : Option GoError :=
  match opErr with
  | none => err
  | some o =>
    if o.isNoRows then
      errorsJoin err (some (GoError.connect .notFound
        (GoError.errorf ("item '" ++ id ++ "' does not exist"))))
    else errorsJoin err (some o.err)

/-- Rendering of a string slice with the `%v` verb. -/
def fmtStrings (l : List String) : String := "[" ++ " ".intercalate l ++ "]"

/-- The error reported for an item whose update mask is not valid for it. -/
def invalidMask (paths : List String) : OpError :=
  ⟨false, GoError.errorf ("invalid update mask: " ++ fmtStrings paths)⟩

/-- The closure returned by `ModifyPerItem`, on the items of the request. An item is
given by its id, the paths of its update mask and whether the mask is valid for it; the
row-level function acts on the state of the transaction. The result is the returned
error and the state it leaves (the returned message is always the empty output). -/
def ModifyPerItem {IIT σ : Type} (GetId : IIT → String) (GetPaths : IIT → List String)
    (IsValid : IIT → Bool) (f : IIT → σ → Option OpError × σ) (items : List IIT) (tx : σ) :
    Option GoError × σ :=
  items.foldl (fun st item =>
    if (GetPaths item).length < 1 then st
    else if !IsValid item then
      (appendErr (GetId item) st.1 (some (invalidMask (GetPaths item))), st.2)
    else
      let r := f item st.2
      (appendErr (GetId item) st.1 r.1, r.2)) (none, tx)

/-- The items of a batch that are processed, each with the error found for it (none
when the row-level function succeeds), and the state left: an item with an empty mask
is passed over, an item with an invalid mask gets the invalid-mask error, every other
item gets the outcome of the row-level function in the state reached. -/
def modifyTrace {IIT σ : Type} (GetPaths : IIT → List String) (IsValid : IIT → Bool)
    (f : IIT → σ → Option OpError × σ) : List IIT → σ → List (IIT × Option OpError) × σ
  | [], tx => ([], tx)
  | item :: rest, tx =>
    if (GetPaths item).length < 1 then modifyTrace GetPaths IsValid f rest tx
    else if !IsValid item then
      let r := modifyTrace GetPaths IsValid f rest tx
      ((item, some (invalidMask (GetPaths item))) :: r.1, r.2)
    else
      let o := f item tx
      let r := modifyTrace GetPaths IsValid f rest o.2
      ((item, o.1) :: r.1, r.2)

/-- The error joined for a processed item that failed: a not-found error naming the
item when the row-level function reports that there are no rows, the error itself
otherwise. -/
def itemError (id : String) (o : OpError) : GoError :=
  if o.isNoRows then
    GoError.connect .notFound (GoError.errorf ("item '" ++ id ++ "' does not exist"))
  else o.err

/-- The errors joined for the processed items, in order. -/
def reportedErrors {IIT : Type} (GetId : IIT → String) (trace : List (IIT × Option OpError)) :
    List GoError :=
  trace.filterMap fun p => p.2.map (itemError (GetId p.1))

/-! ## The rows a page reconciler takes its cursors from -/

/-- The rows of which the reconciler encodes a cursor, given the rows kept after the
sentinel step: on a backward scan the first row and, when there are more rows, the last;
on a forward scan the last row when there are more rows and the first when the request
carried a cursor. -/
def cursorRowsOf (backwards hasCursor hasMore : Bool) (kept : List RowMap) : List RowMap :=
  match kept.head?, kept.getLast? with
  | some first, some last =>
    if backwards then first :: (if hasMore then [last] else [])
    else (if hasMore then [last] else []) ++ (if hasCursor then [first] else [])
  | _, _ => []

/-- The rows of which the reconciler of a request encodes a cursor. -/
def cursorRows (pageSize : Int) (backwards hasCursor : Bool) (rows : List RowMap) :
    List RowMap :=
  cursorRowsOf backwards hasCursor (decide ((rows.length : Int) > pageSize))
    (stripSentinel rows pageSize)

/-! ## A reference wire codec -/

/-- The content of a cursor as a tuple of encodable components. -/
abbrev CursorTuple :=
  Option (List ℕ) × Option Bool × Option (List ℕ) × Option Bytes × Option ℤ × Option ℤ ×
    Option ℕ × Option ℕ × Option ℕ × Option ℕ × Option Bool × Option (ℤ × ℤ) × Option (ℤ × ℤ)

/-- The code points of a string. -/
def strCodes (s : String) : List ℕ := s.data.map Char.toNat

/-- The string of a list of code points. -/
def codesStr (l : List ℕ) : String := String.mk (l.map Char.ofNat)

/-- A cursor as a tuple. -/
def Cursor.toTuple (c : Cursor) : CursorTuple :=
  (c.primaryId.map strCodes, c.isBackwards, c.orderString.map strCodes, c.orderBytes,
    c.orderInt32, c.orderInt64, c.orderUint32, c.orderUint64, c.orderFloat, c.orderDouble,
    c.orderBool, c.orderTimestamp.map (fun t => (t.seconds, t.nanos)),
    c.orderDuration.map (fun t => (t.seconds, t.nanos)))

/-- The cursor of a tuple. -/
def Cursor.ofTuple (t : CursorTuple) : Cursor :=
  { primaryId := t.1.map codesStr
    isBackwards := t.2.1
    orderString := t.2.2.1.map codesStr
    orderBytes := t.2.2.2.1
    orderInt32 := t.2.2.2.2.1
    orderInt64 := t.2.2.2.2.2.1
    orderUint32 := t.2.2.2.2.2.2.1
    orderUint64 := t.2.2.2.2.2.2.2.1
    orderFloat := t.2.2.2.2.2.2.2.2.1
    orderDouble := t.2.2.2.2.2.2.2.2.2.1
    orderBool := t.2.2.2.2.2.2.2.2.2.2.1
    orderTimestamp := t.2.2.2.2.2.2.2.2.2.2.2.1.map (fun p => ⟨p.1, p.2⟩)
    orderDuration := t.2.2.2.2.2.2.2.2.2.2.2.2.map (fun p => ⟨p.1, p.2⟩) }

/-- A wire codec for the cursor message: a marker byte followed by the base-256 digits
of the code of the cursor's tuple. The empty input is the message with no field set. -/
def refCodec : ProtoCodec where
  Marshal c := Except.ok (1 :: (Nat.digits 256 (Encodable.encode c.toTuple)).map (Fin.ofNat))
  Unmarshal buf :=
    match buf with
    | [] => Except.ok {}
    | _ :: ds =>
      match (Encodable.decode (Nat.ofDigits 256 (ds.map Fin.val)) : Option CursorTuple) with
      | some t => Except.ok (Cursor.ofTuple t)
      | none => Except.error (GoError.errorf "proto: cannot parse invalid wire-format data")

/-- A ranking of values: strings in lexicographic order of their code points, 64-bit
integers in numeric order. -/
def refRank (v : GoValue) : ℤ ×ₗ List Char :=
  match v with
  | .str s => toLex (0, s.data)
  | .int64 n => toLex (n, [])
  | _ => toLex (0, [])


/-! ## Sample data -/

/-- A row with an id and a 64-bit `created_at` value. -/
def demoRow (id : String) (n : Int) : RowMap :=
  [("id", GoValue.str id), ("created_at", GoValue.int64 n)]

/-- A request without cursor, sorted by the default column. -/
def demoInput (perPage : Int) (desc : Bool) : ListInput :=
  ⟨false, "", desc, true, perPage, false, [], false⟩

/-- The bytes of the cursor of a sample row under the reference codec. -/
def demoCursor (id : String) (n : Int) (backwards : Bool) : Bytes :=
  1 :: (Nat.digits 256 (Encodable.encode
    ((Cursor_builder.Build { PrimaryId := some id, IsBackwards := some backwards }).SetOrderInt64
      n).toTuple)).map Fin.ofNat

/-- A request with the cursor of a sample row. -/
def demoInputAt (perPage : Int) (desc : Bool) (id : String) (n : Int) (backwards : Bool) :
    ListInput :=
  ⟨false, "", desc, true, perPage, true, demoCursor id n backwards, false⟩

/-- A store of five rows, three of which share a sort value. -/
def demoStore : List RowMap :=
  [demoRow "c" 2, demoRow "a" 1, demoRow "b" 2, demoRow "e" 0, demoRow "d" 2]

/-- A row of a table with an archive flag, for the batch reconciler. -/
structure DemoItemRow where
  id : String
  archivedAt : Option GoTime
  name : String
deriving DecidableEq, Repr

/-- A mapping function that succeeds on every row. -/
def demoMap (row : DemoItemRow) : Except GoError String := Except.ok ("item " ++ row.name)

/-- The bytes of a cursor that carries a primary id and nothing else, under the
reference codec. -/
def demoBareCursor (id : String) : Bytes :=
  1 :: (Nat.digits 256 (Encodable.encode
    (Cursor_builder.Build { PrimaryId := some id }).toTuple)).map Fin.ofNat

/-- A row whose `created_at` is a time outside the location UTC. -/
def demoLocalRow : RowMap :=
  [("id", GoValue.str "a"), ("created_at", GoValue.time ⟨0, 63888868800, false⟩)]

/-- Bytes that the reference codec does not parse. -/
def demoGarbage : Bytes := [1, 144]

/-- A request whose cursor is the given byte string. -/
def demoInputWith (perPage : Int) (desc : Bool) (cursor : Bytes) : ListInput :=
  ⟨false, "", desc, true, perPage, true, cursor, false⟩

/-- Three live rows of the sample table, in identifier order. -/
def demoItems : List DemoItemRow := [⟨"A", none, "a"⟩, ⟨"B", none, "b"⟩, ⟨"C", none, "c"⟩]

/-- A request with the given `sort_by` set, without a cursor. -/
def demoInputSortBy (sortBy : String) : ListInput :=
  ⟨true, sortBy, false, true, 2, false, [], false⟩

/-- A string of four hundred letters. -/
def demoLongString : String := String.mk (List.replicate 400 'x')

/-- The cursor `NewCursor` builds for an order value that is a string. -/
def stringCursor (id s : String) (backwards : Bool) : Cursor :=
  (Cursor_builder.Build { PrimaryId := some id, IsBackwards := some backwards }).SetOrderString s

/-- The bytes of the cursor of a string order value under the reference codec. -/
def stringCursorBytes (id s : String) (backwards : Bool) : Bytes :=
  1 :: (Nat.digits 256 (Encodable.encode (stringCursor id s backwards).toTuple)).map Fin.ofNat

/-- The bytes of the cursor with the order value of four hundred letters. -/
def demoLongCursor : Bytes := stringCursorBytes "foo_1" demoLongString false

/-- A mapping function that fails on the rows with id B or C. -/
def demoMapFailing (row : DemoItemRow) : Except GoError String :=
  if row.id = "B" ∨ row.id = "C" then Except.error (GoError.errorf ("bad row " ++ row.name))
  else Except.ok ("item " ++ row.name)

/-- An item of a modify request. -/
structure DemoModifyItem where
  id : String
  paths : List String
  valid : Bool
deriving DecidableEq, Repr

/-- A row-level function on a state that logs the ids it is called with: it reports that
there are no rows for the id "gone", fails otherwise for the id "bad", and succeeds for
every other id. -/
def demoModify (item : DemoModifyItem) (log : List String) : Option OpError × List String :=
  (if item.id = "gone" then some ⟨true, GoError.errorf "no rows in result set"⟩
    else if item.id = "bad" then some ⟨false, GoError.errorf "constraint violated"⟩
    else none, log ++ [item.id])

/-- A batch with an item without mask, an absent item, a failing item, an item with an
invalid mask and an item that is updated. -/
def demoBatch : List DemoModifyItem :=
  [⟨"a", [], true⟩, ⟨"gone", ["name"], true⟩, ⟨"bad", ["name"], true⟩,
    ⟨"c", ["nope", "x"], false⟩, ⟨"d", ["name"], true⟩]

/-- A fetched row whose sort value has Go's type int. -/
def demoIntRow (id : String) (n : Int) : RowMap :=
  [("id", GoValue.str id), ("created_at", GoValue.int n)]

/-- A fetched row without the sort column. -/
def demoBareRow (id : String) : RowMap := [("id", GoValue.str id)]

/-- Four fetched rows of which the second lacks the sort column. -/
def demoMixedRows : List RowMap :=
  [demoRow "a" 1, demoBareRow "b", demoRow "c" 3, demoRow "d" 4]

/-- A fetched row whose sort value is NULL. -/
def demoNullRow (id : String) : RowMap := [("id", GoValue.str id), ("created_at", GoValue.nil)]

/-- A store of three rows of which one has a NULL sort value. -/
def demoNullStore : List RowMap := [demoRow "a" 1, demoNullRow "b", demoRow "c" 3]

/-- A store of 2^31 rows: the row number i has the id of i letters a and the sort
value i. -/
def demoBigStore : List RowMap :=
  (List.range (2 ^ 31)).map fun i => demoRow (String.mk (List.replicate i 'a')) i

/-! ## Round trip of the order value -/

theorem tdiv_bounds (d : Int) :
    (0 ≤ d → 0 ≤ Int.tdiv d (10 ^ 9) ∧ Int.tdiv d (10 ^ 9) * 10 ^ 9 ≤ d ∧ d < Int.tdiv d (10 ^ 9) * 10 ^ 9 + 10 ^ 9) ∧
    (d < 0 → Int.tdiv d (10 ^ 9) ≤ 0 ∧ d ≤ Int.tdiv d (10 ^ 9) * 10 ^ 9 ∧ Int.tdiv d (10 ^ 9) * 10 ^ 9 - 10 ^ 9 < d) := by
  constructor
  · intro h
    rw [Int.tdiv_eq_ediv h (by norm_num)]
    omega
  · intro h
    have h1 : Int.tdiv d (10 ^ 9) = - ((-d) / (10 ^ 9)) := by
      have := Int.neg_tdiv (-d) (10 ^ 9)
      rw [neg_neg] at this
      rw [this, Int.tdiv_eq_ediv (by omega) (by norm_num)]
    rw [h1]
    omega

theorem time_roundtrip (t : GoTime) (hu : t.utc = true) (hw : t.wall < 10 ^ 9) (he : inInt64 t.ext) :
    (timestamppbNew t).AsTime = t := by
  obtain ⟨w, e, u⟩ := t
  simp only at hu hw
  subst hu
  unfold inInt64 at he
  simp only at he
  have hw30 : w % 2 ^ 30 = w := Nat.mod_eq_of_lt (by omega)
  simp only [timestamppbNew, Timestamp.AsTime, timeUnix, GoTime.Unix, GoTime.Nanosecond, GoTime.UTC,
    hw30, wrapInt32, wrapInt64, unixToInternal, internalToUnix]
  have h1 : ¬ (((Int.ofNat w + 2 ^ 31) % 2 ^ 32 - 2 ^ 31 < 0) ∨ ((Int.ofNat w + 2 ^ 31) % 2 ^ 32 - 2 ^ 31 ≥ 10 ^ 9)) := by
    simp only [Int.ofNat_eq_coe]
    omega
  rw [if_neg h1]
  simp only [GoTime.mk.injEq, and_true, Int.ofNat_eq_coe]
  constructor
  · omega
  · norm_num
    omega


theorem wrapInt64_of_in (x : Int) (h : inInt64 x) : wrapInt64 x = x := by
  unfold inInt64 at h
  unfold wrapInt64
  omega

theorem wrapInt32_of_in (x : Int) (h : inInt32 x) : wrapInt32 x = x := by
  unfold inInt32 at h
  unfold wrapInt32
  omega

theorem duration_roundtrip (d : Int) (hd : inInt64 d) : (durationpbNew d).AsDuration = d := by
  have hd0 := hd
  unfold inInt64 at hd
  have hb := tdiv_bounds d
  have hs : ∃ s, s = Int.tdiv d (10 ^ 9) := ⟨_, rfl⟩
  obtain ⟨s, hs⟩ := hs
  rw [← hs] at hb
  have h1 : wrapInt64 (s * 10 ^ 9) = s * 10 ^ 9 := wrapInt64_of_in _ (by unfold inInt64; omega)
  have h2 : wrapInt64 (d - s * 10 ^ 9) = d - s * 10 ^ 9 :=
    wrapInt64_of_in _ (by unfold inInt64; omega)
  have h3 : wrapInt32 (d - s * 10 ^ 9) = d - s * 10 ^ 9 :=
    wrapInt32_of_in _ (by unfold inInt32; omega)
  have h4 : wrapInt64 (s * 10 ^ 9 + (d - s * 10 ^ 9)) = d := by
    have : s * 10 ^ 9 + (d - s * 10 ^ 9) = d := by ring
    rw [this]
    exact wrapInt64_of_in _ hd0
  have h5 : Int.tdiv (s * 10 ^ 9) (10 ^ 9) = s := Int.mul_tdiv_cancel _ (by norm_num)
  simp only [durationpbNew, Duration.AsDuration, ← hs, h1, h2, h3, h4, h5]
  have h6 : ¬ (s < 0 ∧ d - s * 10 ^ 9 < 0 ∧ d > 0) := by omega
  have h7 : ¬ (s > 0 ∧ d - s * 10 ^ 9 > 0 ∧ d < 0) := by omega
  simp only [ne_eq, not_true_eq_false, decide_False, Bool.false_or, Bool.and_eq_true,
    decide_eq_true_eq, Bool.or_eq_true, ite_eq_right_iff]
  intro h
  rcases h with h | h
  · exact absurd ⟨h.1.1, h.1.2, h.2⟩ h6
  · exact absurd ⟨h.1.1, h.1.2, h.2⟩ h7

/-- On a value of a supported type `NewCursor` succeeds; the cursor carries the id and
the direction, has an order value, and that order value is the given one when the value
is well-formed. -/
theorem newCursor_supported (id : String) (v : GoValue) (dir : Bool)
    (hs : v.isSupported = true) :
    ∃ c, NewCursor id v dir = .ok c ∧ c.GetPrimaryId = id ∧ c.GetIsBackwards = dir ∧
      (∃ w, c.OrderValue = .ok w ∧ w ≠ GoValue.nil) ∧ (v.wf → c.OrderValue = .ok v) := by
  cases v with
  | time t =>
    refine ⟨_, rfl, rfl, rfl, ⟨_, rfl, by simp⟩, ?_⟩
    rintro ⟨hu, hwall, he⟩
    simp [Cursor.OrderValue, Cursor.SetOrderTimestamp, Cursor_builder.Build,
      time_roundtrip t hu hwall he]
  | duration d =>
    refine ⟨_, rfl, rfl, rfl, ⟨_, rfl, by simp⟩, ?_⟩
    intro hw
    simp [Cursor.OrderValue, Cursor.SetOrderDuration, Cursor_builder.Build,
      duration_roundtrip d hw]
  | int n => simp [GoValue.isSupported] at hs
  | nil => simp [GoValue.isSupported] at hs
  | other a b => simp [GoValue.isSupported] at hs
  | _ => exact ⟨_, rfl, rfl, rfl, ⟨_, rfl, by simp⟩, fun _ => rfl⟩

/-! ## The reference codec is lawful -/

theorem codesStr_strCodes (s : String) : codesStr (strCodes s) = s := by
  cases s with
  | mk l =>
    simp only [codesStr, strCodes, List.map_map]
    congr 1
    have : (Char.ofNat ∘ Char.toNat) = id := by
      funext c
      simp [Char.ofNat_toNat]
    rw [this, List.map_id]

theorem Cursor.ofTuple_toTuple (c : Cursor) : Cursor.ofTuple c.toTuple = c := by
  cases c
  simp [Cursor.ofTuple, Cursor.toTuple, Option.map_map, Function.comp_def, codesStr_strCodes]

theorem refCodec_roundtrip (c : Cursor) :
    ∃ buf, refCodec.Marshal c = Except.ok buf ∧ buf ≠ [] ∧
      refCodec.Unmarshal buf = Except.ok c := by
  refine ⟨_, rfl, by simp, ?_⟩
  simp only [refCodec]
  have h : List.map Fin.val ((Nat.digits 256 (Encodable.encode c.toTuple)).map
      (Fin.ofNat : ℕ → Fin 256)) = Nat.digits 256 (Encodable.encode c.toTuple) := by
    rw [List.map_map]
    conv_rhs => rw [← List.map_id (Nat.digits 256 (Encodable.encode c.toTuple))]
    apply List.map_congr_left
    intro d hd
    have := Nat.digits_lt_base (by norm_num : 1 < 256) hd
    simp [Fin.ofNat, Nat.mod_eq_of_lt this]
  rw [h, Nat.ofDigits_digits, Encodable.encodek]
  simp [Cursor.ofTuple_toTuple]

theorem refCodec_lawful : refCodec.Lawful := fun _ _ _ c _ => refCodec_roundtrip c


/-! ## The page reconciler -/

theorem getRowID_ok (row : RowMap) (id : String) (h : getRowID row = .ok id) :
    row.lookup "id" = some (GoValue.str id) ∧ rowIdOf row = id := by
  unfold getRowID at h
  unfold rowIdOf
  split at h <;> simp_all

theorem getRowID_of_lookup (row : RowMap) (id : String)
    (h : row.lookup "id" = some (GoValue.str id)) : getRowID row = .ok id := by
  unfold getRowID
  rw [h]

theorem getRowID_not_panic (row : RowMap) (p : GoPanic) : getRowID row ≠ .panic p := by
  unfold getRowID
  split <;> simp

theorem rowIDs_eq (rows : List RowMap) (ids : List String) (h : rowIDs rows = .ok ids) :
    ids = rows.map rowIdOf := by
  induction rows generalizing ids with
  | nil =>
    simp only [rowIDs, Res.ok.injEq] at h
    simp [← h]
  | cons r rest ih =>
    simp only [rowIDs] at h
    cases hr : getRowID r with
    | ok id =>
      rw [hr] at h
      simp only [Res.wrapErr, Res.bind] at h
      cases hrest : rowIDs rest with
      | ok ids1 =>
        rw [hrest] at h
        simp only [Res.ok.injEq] at h
        rw [← h, ih ids1 hrest, List.map_cons, (getRowID_ok r id hr).2]
      | err e => rw [hrest] at h; simp at h
      | panic p => rw [hrest] at h; simp at h
    | err e => rw [hr] at h; simp [Res.wrapErr, Res.bind] at h
    | panic p => rw [hr] at h; simp [Res.wrapErr, Res.bind] at h

theorem rowIDs_ok (rows : List RowMap)
    (h : ∀ r ∈ rows, ∃ id, r.lookup "id" = some (GoValue.str id)) :
    rowIDs rows = .ok (rows.map rowIdOf) := by
  induction rows with
  | nil => rfl
  | cons r rest ih =>
    obtain ⟨id, hid⟩ := h r (List.mem_cons_self _ _)
    have hrest := ih (fun x hx => h x (List.mem_cons_of_mem _ hx))
    have hg := getRowID_of_lookup r id hid
    simp only [rowIDs, hg, hrest, Res.wrapErr, Res.bind, List.map_cons,
      (getRowID_ok r id hg).2]

theorem rowIDs_not_panic (rows : List RowMap) (p : GoPanic) : rowIDs rows ≠ .panic p := by
  induction rows generalizing p with
  | nil => simp [rowIDs]
  | cons r rest ih =>
    simp only [rowIDs]
    cases hr : getRowID r with
    | ok id =>
      simp only [Res.wrapErr, Res.bind]
      cases hrest : rowIDs rest with
      | ok ids1 => simp
      | err e => simp
      | panic q => exact absurd hrest (ih q)
    | err e => simp [Res.wrapErr, Res.bind]
    | panic q => exact absurd hr (getRowID_not_panic r q)

/-- What a successful `mapEncodeCursor` did: it read the sort value and the id of the
row, built the cursor with `NewCursor` and marshalled it. -/
theorem mapEncodeCursor_ok_inv (pb : ProtoCodec) (row : RowMap) (sortCol : String) (b : Bool)
    (buf : Bytes) (h : mapEncodeCursor pb row sortCol b = .ok buf) :
    ∃ id v c, row.lookup "id" = some (GoValue.str id) ∧ row.lookup sortCol = some v ∧
      NewCursor id v b = .ok c ∧ pb.Marshal c = .ok buf := by
  unfold mapEncodeCursor at h
  cases hv : row.lookup sortCol with
  | none => rw [hv] at h; simp at h
  | some v =>
    rw [hv] at h
    simp only at h
    cases hid : getRowID row with
    | err e => rw [hid] at h; simp [Res.wrapErr, Res.bind] at h
    | panic p => rw [hid] at h; simp [Res.wrapErr, Res.bind] at h
    | ok id =>
      rw [hid] at h
      simp only [Res.wrapErr, Res.bind] at h
      cases hc : NewCursor id v b with
      | err e => rw [hc] at h; simp at h
      | panic p => rw [hc] at h; simp at h
      | ok c =>
        rw [hc] at h
        simp only at h
        cases hm : pb.Marshal c with
        | error e => rw [hm] at h; simp [Res.ofExcept] at h
        | ok buf1 =>
          rw [hm] at h
          simp only [Res.ofExcept, Res.ok.injEq] at h
          exact ⟨id, v, c, (getRowID_ok row id hid).1, rfl, hc, h ▸ hm⟩

/-- With a lawful codec a cursor that was emitted is not empty and decodes to the cursor
built from the row: its primary id is the row's id, its direction the given one, and
its order value the row's sort value when that value is well-formed. -/
theorem mapEncodeCursor_ok_decode (pb : ProtoCodec) (hpb : pb.Lawful) (row : RowMap)
    (sortCol : String) (b : Bool) (buf : Bytes)
    (h : mapEncodeCursor pb row sortCol b = .ok buf) :
    buf ≠ [] ∧ ∃ c, decodeCursor pb buf = .ok c ∧ c.GetPrimaryId = rowIdOf row ∧
      c.GetIsBackwards = b ∧ (∃ w, c.OrderValue = .ok w ∧ w ≠ GoValue.nil) ∧
      ((cell row sortCol).wf → c.OrderValue = .ok (cell row sortCol)) := by
  obtain ⟨id, v, c, hid, hv, hc, hm⟩ := mapEncodeCursor_ok_inv pb row sortCol b buf h
  obtain ⟨buf1, hm1, hne, hun⟩ := hpb id v b c hc
  rw [hm] at hm1
  simp only [Except.ok.injEq] at hm1
  subst hm1
  have hsup : v.isSupported = true := by
    cases v <;> simp_all [NewCursor, GoValue.isSupported]
  obtain ⟨c1, hc1, h1, h2, h3, h4⟩ := newCursor_supported id v b hsup
  rw [hc] at hc1
  simp only [Res.ok.injEq] at hc1
  subst hc1
  refine ⟨hne, c, ?_, ?_, h2, h3, ?_⟩
  · simp [decodeCursor, hun, Res.wrapErr, Res.ofExcept]
  · rw [h1, (getRowID_ok row id (getRowID_of_lookup row id hid)).2]
  · simp only [cell, hv, Option.getD_some]
    exact h4

/-- On a row with a string id and a supported sort value, with a lawful codec,
`mapEncodeCursor` succeeds. -/
theorem mapEncodeCursor_ok (pb : ProtoCodec) (hpb : pb.Lawful) (row : RowMap) (sortCol : String)
    (b : Bool) (hrow : FetchedRowOk sortCol row) :
    ∃ buf, mapEncodeCursor pb row sortCol b = .ok buf := by
  obtain ⟨⟨id, hid⟩, v, hv, hsup⟩ := hrow
  obtain ⟨c, hc, -⟩ := newCursor_supported id v b hsup
  obtain ⟨buf, hm, -, -⟩ := hpb id v b c hc
  refine ⟨buf, ?_⟩
  simp [mapEncodeCursor, hv, getRowID_of_lookup row id hid, hc, hm, Res.wrapErr, Res.bind,
    Res.ofExcept]

theorem Res.bind_eq_ok {α β : Type} (r : Res α) (f : α → Res β) (b : β) :
    r.bind f = .ok b ↔ ∃ a, r = .ok a ∧ f a = .ok b := by
  cases r <;> simp [Res.bind]

theorem Res.wrapErr_eq_ok {α : Type} (r : Res α) (pre : String) (a : α) :
    r.wrapErr pre = .ok a ↔ r = .ok a := by
  cases r <;> simp [Res.wrapErr]

/-- The cursor step of the reconciler, read backwards from a successful outcome. -/
theorem reconcileCursors_inv (pb : ProtoCodec) (sortCol : String) (bw hc hm : Bool)
    (kept : List RowMap) (n p : Bytes) (rs : List RowMap)
    (h : reconcileCursors pb sortCol bw hc hm kept = .ok (n, p, rs)) :
    rs = (if bw then kept.reverse else kept) ∧
    (kept = [] → n = [] ∧ p = []) ∧
    (∀ first last, kept.head? = some first → kept.getLast? = some last →
      (bw = true → mapEncodeCursor pb first sortCol false = .ok n ∧
        (hm = true → mapEncodeCursor pb last sortCol true = .ok p) ∧
        (hm = false → p = [])) ∧
      (bw = false → (hm = true → mapEncodeCursor pb last sortCol false = .ok n) ∧
        (hm = false → n = []) ∧
        (hc = true → mapEncodeCursor pb first sortCol true = .ok p) ∧
        (hc = false → p = []))) := by
  unfold reconcileCursors at h
  cases kept with
  | nil =>
    simp only [List.head?_nil, List.getLast?_nil, Res.ok.injEq, Prod.mk.injEq] at h
    obtain ⟨h1, h2, h3⟩ := h
    subst h1 h2 h3
    simp
  | cons a t =>
    have hl : ∃ l, (a :: t).getLast? = some l := by
      cases hx : (a :: t).getLast? with
      | none => simp [List.getLast?_eq_none_iff] at hx
      | some l => exact ⟨l, rfl⟩
    obtain ⟨l, hl⟩ := hl
    rw [hl] at h
    simp only [List.head?_cons] at h
    refine ⟨?_, by simp, ?_⟩
    · cases bw <;> cases hm <;> cases hc <;>
        simp [Res.bind_eq_ok, Res.wrapErr_eq_ok] at h ⊢ <;> aesop
    · intro first last hf hlast
      simp only [List.head?_cons, Option.some.injEq] at hf
      subst hf
      rw [hl] at hlast
      simp only [Option.some.injEq] at hlast
      subst hlast
      cases bw <;> cases hm <;> cases hc <;>
        simp [Res.bind_eq_ok, Res.wrapErr_eq_ok] at h ⊢ <;> aesop

/-- The reconciler after the sentinel step, read backwards from a successful outcome. -/
theorem reconcileTail_inv (pb : ProtoCodec) (sortCol : String) (bw hc hm : Bool)
    (kept : List RowMap) (page : PageResult)
    (h : reconcileTail pb sortCol bw hc hm kept = .ok page) :
    page.ids = (if bw then kept.reverse else kept).map rowIdOf ∧
    reconcileCursors pb sortCol bw hc hm kept =
      .ok (page.nextCursor, page.prevCursor, if bw then kept.reverse else kept) := by
  unfold reconcileTail at h
  rw [Res.bind_eq_ok] at h
  obtain ⟨⟨n, p, rs⟩, h1, h2⟩ := h
  rw [Res.bind_eq_ok] at h2
  obtain ⟨ids, h3, h4⟩ := h2
  simp only [Res.ok.injEq] at h4
  subst h4
  have hrs := (reconcileCursors_inv pb sortCol bw hc hm kept n p rs h1).1
  simp only at h3
  subst hrs
  exact ⟨rowIDs_eq _ _ h3, h1⟩

theorem reconcile_eq_tail (pb : ProtoCodec) (ps : Int) (sortCol : String) (bw hc : Bool)
    (rows : List RowMap) (hps : 0 ≤ ps) :
    reconcile pb ps sortCol bw hc rows =
      reconcileTail pb sortCol bw hc (decide ((rows.length : Int) > ps))
        (rows.take ps.toNat) := by
  unfold reconcile
  by_cases hm : (rows.length : Int) > ps
  · simp only [hm, decide_True, if_true, sliceTo, not_lt.mpr hps, if_false, Res.bind]
  · have : rows.take ps.toNat = rows := by
      apply List.take_of_length_le
      omega
    simp only [hm, decide_False, if_false, Res.bind, this, Bool.false_eq_true]

/-- With a lawful codec the reconciler succeeds on rows that carry a string id and a
supported sort value. -/
theorem reconcileTail_ok (pb : ProtoCodec) (hpb : pb.Lawful) (sortCol : String) (bw hc hm : Bool)
    (kept : List RowMap) (hrows : ∀ r ∈ kept, FetchedRowOk sortCol r) :
    ∃ page, reconcileTail pb sortCol bw hc hm kept = .ok page := by
  have hids : ∀ rs : List RowMap, (∀ r ∈ rs, r ∈ kept) → rowIDs rs = .ok (rs.map rowIdOf) :=
    fun rs hsub => rowIDs_ok rs (fun r hr => (hrows r (hsub r hr)).1)
  unfold reconcileTail reconcileCursors
  cases kept with
  | nil => simp [Res.bind, rowIDs]
  | cons a t =>
    have hl : ∃ l, (a :: t).getLast? = some l := by
      cases hx : (a :: t).getLast? with
      | none => simp [List.getLast?_eq_none_iff] at hx
      | some l => exact ⟨l, rfl⟩
    obtain ⟨l, hl⟩ := hl
    have hlmem : l ∈ a :: t := List.mem_of_getLast?_eq_some hl
    obtain ⟨b1, hb1⟩ := mapEncodeCursor_ok pb hpb a sortCol false (hrows a (List.mem_cons_self _ _))
    obtain ⟨b2, hb2⟩ := mapEncodeCursor_ok pb hpb a sortCol true (hrows a (List.mem_cons_self _ _))
    obtain ⟨b3, hb3⟩ := mapEncodeCursor_ok pb hpb l sortCol false (hrows l hlmem)
    obtain ⟨b4, hb4⟩ := mapEncodeCursor_ok pb hpb l sortCol true (hrows l hlmem)
    have hr1 := hids (a :: t) (fun r hr => hr)
    have hr2 := hids (a :: t).reverse (fun r hr => List.mem_reverse.mp hr)
    simp only [List.reverse_cons] at hr2
    rw [hl]
    simp only [List.head?_cons]
    cases bw <;> cases hm <;> cases hc <;>
      simp [Res.bind, Res.wrapErr, hb1, hb2, hb3, hb4, hr1, hr2]

/-- The reconciler of a plan is the closure over the plan's page size and sort column,
the scan direction of the decoded cursor and the presence of a cursor. -/
theorem paginate_reconciler (pb : ProtoCodec) (inp : ListInput) (t : String)
    (plan : List Mod × (List RowMap → Res PageResult))
    (h : PaginateSelectMods pb inp t = .ok plan) :
    plan.2 = reconcile pb (planPageSize inp) (planSortCol inp) (scanBackwards pb inp)
      inp.HasCursor := by
  unfold PaginateSelectMods at h
  unfold scanBackwards
  cases hc : inp.HasCursor with
  | false =>
    simp only [hc, Bool.false_eq_true, if_false, Res.bind, Res.ok.injEq] at h
    rw [← h]
    simp
  | true =>
    simp only [hc, if_true] at h
    cases hd : decodeCursor pb inp.GetCursor with
    | err e => rw [hd] at h; simp [Res.bind] at h
    | panic p => rw [hd] at h; simp [Res.bind] at h
    | ok c =>
      rw [hd] at h
      simp only at h
      cases hv : c.OrderValue with
      | err e => rw [hv] at h; simp [Res.bind] at h
      | panic p => rw [hv] at h; simp [Res.bind] at h
      | ok v =>
        rw [hv] at h
        simp only [Res.bind, Res.ok.injEq] at h
        rw [← h]
        simp

/-- Without a cursor the plan builder succeeds. -/
theorem paginate_no_cursor (pb : ProtoCodec) (inp : ListInput) (t : String)
    (hc : inp.HasCursor = false) : ∃ plan, PaginateSelectMods pb inp t = .ok plan := by
  unfold PaginateSelectMods
  simp only [hc, Bool.false_eq_true, if_false, Res.bind]
  exact ⟨_, rfl⟩

theorem scanBackwards_no_cursor (pb : ProtoCodec) (inp : ListInput)
    (hc : inp.HasCursor = false) : scanBackwards pb inp = false := by
  simp [scanBackwards, hc]

/-- A successful reconciler call had a page size of at least zero. -/
theorem reconcile_ok_nonneg (pb : ProtoCodec) (ps : Int) (sortCol : String) (bw hc : Bool)
    (rows : List RowMap) (page : PageResult) (h : reconcile pb ps sortCol bw hc rows = .ok page) :
    0 ≤ ps := by
  by_contra hneg
  have hlt : ps < 0 := by omega
  have hm : (rows.length : Int) > ps := by omega
  simp [reconcile, hm, sliceTo, hlt, Res.bind] at h

theorem take_getLast? (rows : List RowMap) (n : Nat) (h1 : 1 ≤ n) (h2 : n ≤ rows.length) :
    (rows.take n).getLast? = rows.get? (n - 1) := by
  rw [List.getLast?_eq_getElem?, List.length_take, Nat.min_eq_left h2,
    List.getElem?_take_of_lt (by omega), List.get?_eq_getElem?]

/-! ## Facts about every page the reconciler returns -/

theorem reconcileWith_eq (pb : ProtoCodec) (inp : ListInput) (t : String) (rows : List RowMap)
    (page : PageResult) (h : reconcileWith pb inp t rows = .ok page) :
    reconcile pb (planPageSize inp) (planSortCol inp) (scanBackwards pb inp) inp.HasCursor rows =
      .ok page := by
  unfold reconcileWith at h
  rw [Res.bind_eq_ok] at h
  obtain ⟨plan, h1, h2⟩ := h
  rw [← paginate_reconciler pb inp t plan h1]
  exact h2

theorem reconcileWith_of_plan (pb : ProtoCodec) (inp : ListInput) (t : String)
    (rows : List RowMap) (hplan : ∃ plan, PaginateSelectMods pb inp t = .ok plan) :
    reconcileWith pb inp t rows =
      reconcile pb (planPageSize inp) (planSortCol inp) (scanBackwards pb inp) inp.HasCursor
        rows := by
  obtain ⟨plan, h1⟩ := hplan
  unfold reconcileWith
  rw [h1]
  simp only [Res.bind]
  rw [paginate_reconciler pb inp t plan h1]

theorem stripSentinel_eq (rows : List RowMap) (ps : Int) (hps : 0 ≤ ps) :
    stripSentinel rows ps = rows.take ps.toNat := by
  unfold stripSentinel
  split
  · rfl
  · symm
    apply List.take_of_length_le
    omega

/-- The shape of every page the reconciler returns. -/
theorem reconcile_shape (pb : ProtoCodec) (ps : Int) (sortCol : String) (bw hc : Bool)
    (rows : List RowMap) (page : PageResult)
    (h : reconcile pb ps sortCol bw hc rows = .ok page) :
    0 ≤ ps ∧
    page.ids = (if bw then (rows.take ps.toNat).reverse else rows.take ps.toNat).map rowIdOf ∧
    reconcileCursors pb sortCol bw hc (decide ((rows.length : Int) > ps)) (rows.take ps.toNat) =
      .ok (page.nextCursor, page.prevCursor,
        if bw then (rows.take ps.toNat).reverse else rows.take ps.toNat) := by
  have hps := reconcile_ok_nonneg pb ps sortCol bw hc rows page h
  rw [reconcile_eq_tail pb ps sortCol bw hc rows hps] at h
  exact ⟨hps, reconcileTail_inv pb sortCol bw hc _ _ page h⟩

theorem demo_decode (id : String) (n : Int) (b : Bool) :
    decodeCursor refCodec (demoCursor id n b) =
      .ok ((Cursor_builder.Build { PrimaryId := some id, IsBackwards := some b }).SetOrderInt64
        n) := by
  obtain ⟨buf, h1, -, h3⟩ := refCodec_roundtrip
    ((Cursor_builder.Build { PrimaryId := some id, IsBackwards := some b }).SetOrderInt64 n)
  have : buf = demoCursor id n b := by
    simp only [refCodec, Except.ok.injEq] at h1
    rw [← h1]
    rfl
  subst this
  simp [decodeCursor, h3, Res.wrapErr, Res.ofExcept]

theorem demo_scan (p : Int) (d : Bool) (id : String) (n : Int) (b : Bool) :
    scanBackwards refCodec (demoInputAt p d id n b) = b := by
  simp [scanBackwards, demoInputAt, demo_decode, Cursor.GetIsBackwards, Cursor_builder.Build,
    Cursor.SetOrderInt64]

theorem demo_plan (p : Int) (d : Bool) (id : String) (n : Int) (b : Bool) :
    ∃ plan, PaginateSelectMods refCodec (demoInputAt p d id n b) "t" = .ok plan := by
  unfold PaginateSelectMods
  simp only [demoInputAt, demo_decode, if_true, Res.bind, Cursor.OrderValue, Cursor_builder.Build,
    Cursor.SetOrderInt64]
  exact ⟨_, rfl⟩

theorem demo_rows_ok (rows : List (String × Int)) :
    ∀ r ∈ rows.map (fun x => demoRow x.1 x.2), FetchedRowOk "created_at" r := by
  intro r hr
  simp only [List.mem_map] at hr
  obtain ⟨x, -, rfl⟩ := hr
  refine ⟨⟨x.1, ?_⟩, ⟨GoValue.int64 x.2, ?_, rfl⟩⟩
  · simp [demoRow, List.lookup]
  · simp [demoRow, List.lookup]

/-! ## Order of the store -/

theorem orderBy_eq (col : String) (desc : Bool) : orderBy col desc = Mod.orderBy col desc := by
  cases desc <;> rfl

/-- The two `ORDER BY` items of a plan order rows by the composite key, in the plan's
direction. -/
theorem orderLe_plan {R : Type} [LinearOrder R] (rank : GoValue → R) (sortCol : String)
    (e : Bool) (a b : RowMap) :
    orderLe rank [(sortCol, e), ("id", e)] a b = true ↔
      (if e then rowKey rank (sortCol, "id") b ≤ rowKey rank (sortCol, "id") a
        else rowKey rank (sortCol, "id") a ≤ rowKey rank (sortCol, "id") b) := by
  simp only [orderLe, rowKey, Prod.Lex.le_iff]
  cases e
  · by_cases h1 : rank (cell a sortCol) = rank (cell b sortCol)
    · by_cases h2 : rank (cell a "id") = rank (cell b "id")
      · simp [h1, h2]
      · simp [h1, h2, le_iff_lt_or_eq]
    · simp [h1]
  · by_cases h1 : rank (cell a sortCol) = rank (cell b sortCol)
    · by_cases h2 : rank (cell a "id") = rank (cell b "id")
      · simp [h1, h2]
      · have h2' : ¬ rank (cell b "id") = rank (cell a "id") := fun h => h2 h.symm
        simp [h1, h2, h2', le_iff_lt_or_eq]
    · have h1' : ¬ rank (cell b sortCol) = rank (cell a sortCol) := fun h => h1 h.symm
      simp [h1, h1']

theorem insertionSort_congr {α : Type} (r s : α → α → Prop) [DecidableRel r] [DecidableRel s]
    (h : ∀ a b, r a b ↔ s a b) (l : List α) : l.insertionSort r = l.insertionSort s := by
  have hins : ∀ (a : α) (l : List α), l.orderedInsert r a = l.orderedInsert s a := by
    intro a l
    induction l with
    | nil => rfl
    | cons b t ih =>
      simp only [List.orderedInsert]
      by_cases hab : r a b
      · rw [if_pos hab, if_pos ((h a b).mp hab)]
      · rw [if_neg hab, if_neg (fun hs => hab ((h a b).mpr hs)), ih]
  induction l with
  | nil => rfl
  | cons a t ih => simp only [List.insertionSort, ih, hins]

/-- Sorting by the `ORDER BY` items of a plan is sorting by the composite key. -/
theorem sort_plan {R : Type} [LinearOrder R] (rank : GoValue → R) (sortCol : String)
    (e : Bool) (l : List RowMap) :
    l.insertionSort (fun a b => orderLe rank [(sortCol, e), ("id", e)] a b = true) =
      sortedStore rank sortCol e l :=
  insertionSort_congr _ _ (orderLe_plan rank sortCol e) l

theorem sortedStore_perm {R : Type} [LinearOrder R] (rank : GoValue → R) (sortCol : String)
    (e : Bool) (l : List RowMap) : (sortedStore rank sortCol e l).Perm l :=
  List.perm_insertionSort _ l

theorem keyLt_trans {R : Type} [LinearOrder R] (rank : GoValue → R) (sortCol : String)
    (e : Bool) (a b c : RowMap) (h1 : keyLt rank sortCol e a b) (h2 : keyLt rank sortCol e b c) :
    keyLt rank sortCol e a c := by
  unfold keyLt at *
  cases e
  · simp only [Bool.false_eq_true, if_false] at *
    exact lt_trans h1 h2
  · simp only [if_true] at *
    exact lt_trans h2 h1

theorem keyLt_asymm {R : Type} [LinearOrder R] (rank : GoValue → R) (sortCol : String)
    (e : Bool) (a b : RowMap) (h1 : keyLt rank sortCol e a b) : ¬ keyLt rank sortCol e b a := by
  unfold keyLt at *
  cases e
  · simp only [Bool.false_eq_true, if_false] at *
    exact lt_asymm h1
  · simp only [if_true] at *
    exact lt_asymm h1

theorem keyLt_flip {R : Type} [LinearOrder R] (rank : GoValue → R) (sortCol : String)
    (e : Bool) (a b : RowMap) : keyLt rank sortCol (!e) a b ↔ keyLt rank sortCol e b a := by
  unfold keyLt
  cases e <;> simp

/-- Rows of a store with distinct ids have distinct composite keys. -/
theorem rowKey_inj {R : Type} [LinearOrder R] (rank : GoValue → R)
    (hinj : ∀ a b : String, rank (GoValue.str a) = rank (GoValue.str b) → a = b)
    (sortCol : String) (store : List RowMap) (hstore : StoreOk sortCol store)
    (a b : RowMap) (ha : a ∈ store) (hb : b ∈ store)
    (h : rowKey rank (sortCol, "id") a = rowKey rank (sortCol, "id") b) : a = b := by
  obtain ⟨⟨ida, hida⟩, -⟩ := hstore.1 a ha
  obtain ⟨⟨idb, hidb⟩, -⟩ := hstore.1 b hb
  have hk : rank (cell a "id") = rank (cell b "id") := by
    have := congrArg (fun k => (ofLex k).2) h
    simpa [rowKey] using this
  simp only [cell, hida, hidb, Option.getD_some] at hk
  have hid := hinj ida idb hk
  have h1 : rowIdOf a = ida := by simp [rowIdOf, hida]
  have h2 : rowIdOf b = idb := by simp [rowIdOf, hidb]
  exact List.inj_on_of_nodup_map hstore.2 ha hb (by rw [h1, h2, hid])

/-- A list of store rows sorted by the composite key is strictly sorted. -/
theorem sortedStore_pairwise {R : Type} [LinearOrder R] (rank : GoValue → R)
    (hinj : ∀ a b : String, rank (GoValue.str a) = rank (GoValue.str b) → a = b)
    (sortCol : String) (store : List RowMap) (hstore : StoreOk sortCol store) (e : Bool)
    (l : List RowMap) (hsub : ∀ r ∈ l, r ∈ store) (hnd : l.Nodup) :
    (sortedStore rank sortCol e l).Pairwise (keyLt rank sortCol e) := by
  let rel : RowMap → RowMap → Prop := fun a b =>
    if e then rowKey rank (sortCol, "id") b ≤ rowKey rank (sortCol, "id") a
    else rowKey rank (sortCol, "id") a ≤ rowKey rank (sortCol, "id") b
  haveI : IsTotal RowMap rel := ⟨fun a b => by
    simp only [rel]
    cases e
    · simp only [Bool.false_eq_true, if_false]; exact le_total _ _
    · simp only [if_true]; exact le_total _ _⟩
  haveI : IsTrans RowMap rel := ⟨fun a b c h1 h2 => by
    simp only [rel] at *
    cases e
    · simp only [Bool.false_eq_true, if_false] at *; exact le_trans h1 h2
    · simp only [if_true] at *; exact le_trans h2 h1⟩
  have hs : (sortedStore rank sortCol e l).Sorted rel := List.sorted_insertionSort rel l
  have hperm := sortedStore_perm rank sortCol e l
  have hnd2 : (sortedStore rank sortCol e l).Nodup := hperm.nodup_iff.mpr hnd
  have hboth := List.Pairwise.and hs hnd2
  refine hboth.imp_of_mem ?_
  intro a b ha hb hab
  obtain ⟨hle, hne⟩ := hab
  have hne2 : rowKey rank (sortCol, "id") a ≠ rowKey rank (sortCol, "id") b := fun h =>
    hne (rowKey_inj rank hinj sortCol store hstore a b (hsub a (hperm.subset ha))
      (hsub b (hperm.subset hb)) h)
  simp only [rel] at hle
  unfold keyLt
  cases e
  · simp only [Bool.false_eq_true, if_false] at *
    exact lt_of_le_of_ne hle hne2
  · simp only [if_true] at *
    exact lt_of_le_of_ne hle (fun h => hne2 h.symm)

/-- Two strictly sorted lists with the same elements are equal. -/
theorem keyLt_sorted_unique {R : Type} [LinearOrder R] (rank : GoValue → R) (sortCol : String)
    (e : Bool) (l₁ l₂ : List RowMap) (hp : l₁.Perm l₂)
    (h1 : l₁.Pairwise (keyLt rank sortCol e)) (h2 : l₂.Pairwise (keyLt rank sortCol e)) :
    l₁ = l₂ := by
  haveI : IsAntisymm RowMap (keyLt rank sortCol e) :=
    ⟨fun a b hab hba => absurd hba (keyLt_asymm rank sortCol e a b hab)⟩
  exact List.eq_of_perm_of_sorted hp h1 h2

theorem storeOk_nodup (sortCol : String) (store : List RowMap) (hstore : StoreOk sortCol store) :
    store.Nodup := List.Nodup.of_map _ hstore.2

/-- Sorting the rows that pass a filter gives the sorted store, filtered. -/
theorem sortedStore_filter {R : Type} [LinearOrder R] (rank : GoValue → R)
    (hinj : ∀ a b : String, rank (GoValue.str a) = rank (GoValue.str b) → a = b)
    (sortCol : String) (store : List RowMap) (hstore : StoreOk sortCol store) (e : Bool)
    (f : RowMap → Bool) :
    sortedStore rank sortCol e (store.filter f) = (sortedStore rank sortCol e store).filter f := by
  have hnd := storeOk_nodup sortCol store hstore
  apply keyLt_sorted_unique rank sortCol e
  · exact (sortedStore_perm rank sortCol e _).trans
      ((sortedStore_perm rank sortCol e store).filter f).symm
  · exact sortedStore_pairwise rank hinj sortCol store hstore e _
      (fun r hr => List.mem_of_mem_filter hr) (hnd.filter f)
  · exact (sortedStore_pairwise rank hinj sortCol store hstore e store (fun r hr => hr)
      hnd).filter f

/-- Sorting in the opposite direction gives the reversed list. -/
theorem sortedStore_not {R : Type} [LinearOrder R] (rank : GoValue → R)
    (hinj : ∀ a b : String, rank (GoValue.str a) = rank (GoValue.str b) → a = b)
    (sortCol : String) (store : List RowMap) (hstore : StoreOk sortCol store) (e : Bool) :
    sortedStore rank sortCol (!e) store = (sortedStore rank sortCol e store).reverse := by
  have hnd := storeOk_nodup sortCol store hstore
  apply keyLt_sorted_unique rank sortCol (!e)
  · exact (sortedStore_perm rank sortCol (!e) store).trans
      ((List.reverse_perm _).trans (sortedStore_perm rank sortCol e store)).symm
  · exact sortedStore_pairwise rank hinj sortCol store hstore (!e) store (fun r hr => hr) hnd
  · rw [List.pairwise_reverse]
    refine (sortedStore_pairwise rank hinj sortCol store hstore e store (fun r hr => hr)
      hnd).imp ?_
    intro a b hab
    exact (keyLt_flip rank sortCol e b a).mpr hab

/-- In a strictly sorted list the rows after a row are the rows behind it. -/
theorem filter_after {R : Type} [LinearOrder R] (rank : GoValue → R) (sortCol : String)
    (e : Bool) (pre post : List RowMap) (a : RowMap)
    (h : (pre ++ a :: post).Pairwise (keyLt rank sortCol e)) (f : RowMap → Bool)
    (hf : ∀ r, f r = true ↔ keyLt rank sortCol e a r) :
    (pre ++ a :: post).filter f = post := by
  rw [List.pairwise_append] at h
  obtain ⟨-, h2, h3⟩ := h
  rw [List.pairwise_cons] at h2
  have hpre : pre.filter f = [] := by
    rw [List.filter_eq_nil_iff]
    intro r hr hfr
    exact keyLt_asymm rank sortCol e a r ((hf r).mp hfr) (h3 r hr a (List.mem_cons_self _ _))
  have ha : f a = false := by
    cases hfa : f a with
    | false => rfl
    | true => exact absurd ((hf a).mp hfa) (fun h => keyLt_asymm rank sortCol e a a h h)
  have hpost : post.filter f = post := by
    rw [List.filter_eq_self]
    intro r hr
    exact (hf r).mpr (h2.1 r hr)
  rw [List.filter_append, hpre, List.filter_cons, ha, hpost]
  simp

/-- In a strictly sorted list the rows before a row are the rows in front of it. -/
theorem filter_before {R : Type} [LinearOrder R] (rank : GoValue → R) (sortCol : String)
    (e : Bool) (pre post : List RowMap) (a : RowMap)
    (h : (pre ++ a :: post).Pairwise (keyLt rank sortCol e)) (f : RowMap → Bool)
    (hf : ∀ r, f r = true ↔ keyLt rank sortCol e r a) :
    (pre ++ a :: post).filter f = pre := by
  rw [List.pairwise_append] at h
  obtain ⟨-, h2, h3⟩ := h
  rw [List.pairwise_cons] at h2
  have hpre : pre.filter f = pre := by
    rw [List.filter_eq_self]
    intro r hr
    exact (hf r).mpr (h3 r hr a (List.mem_cons_self _ _))
  have ha : f a = false := by
    cases hfa : f a with
    | false => rfl
    | true => exact absurd ((hf a).mp hfa) (fun h => keyLt_asymm rank sortCol e a a h h)
  have hpost : post.filter f = [] := by
    rw [List.filter_eq_nil_iff]
    intro r hr hfr
    exact keyLt_asymm rank sortCol e a r (h2.1 r hr) ((hf r).mp hfr)
  rw [List.filter_append, hpre, List.filter_cons, ha, hpost]
  simp

/-! ## The query of a plan on the store -/

theorem wrapInt32_limit (ps : Int) (h1 : 0 ≤ ps) (h2 : ps < 2 ^ 31 - 1) :
    (wrapInt32 (ps + 1)).toNat = ps.toNat + 1 := by
  rw [wrapInt32_of_in _ (by unfold inInt32; omega)]
  omega

/-- The query of a plan without keyset filter returns the first rows of the sorted
store. -/
theorem runQuery_no_anchor {R : Type} [LinearOrder R] (rank : GoValue → R) (sortCol : String)
    (e : Bool) (n : Int) (tb : String) (store : List RowMap) :
    runQuery rank store [Mod.columns ["id", sortCol], orderBy sortCol e, orderBy "id" e,
        Mod.limit n, Mod.fromTable tb] =
      (sortedStore rank sortCol e store).take n.toNat := by
  simp only [runQuery, orderBy_eq, orderSpecs, planLimit, List.filterMap_cons,
    List.filterMap_nil, List.head?_cons, List.all_cons, List.all_nil, Mod.keeps, Bool.and_self,
    List.filter_true]
  rw [sort_plan]

/-- The query of a plan with a keyset filter returns the first of the sorted rows that
pass the filter. -/
theorem runQuery_anchor {R : Type} [LinearOrder R] (rank : GoValue → R)
    (hinj : ∀ a b : String, rank (GoValue.str a) = rank (GoValue.str b) → a = b)
    (sortCol : String) (e : Bool) (n : Int) (tb : String) (store : List RowMap)
    (hstore : StoreOk sortCol store) (w : Mod) (hw : ∀ c d, w ≠ Mod.orderBy c d)
    (hw2 : ∀ k, w ≠ Mod.limit k) :
    runQuery rank store [Mod.columns ["id", sortCol], orderBy sortCol e, orderBy "id" e,
        Mod.limit n, w, Mod.fromTable tb] =
      ((sortedStore rank sortCol e store).filter (fun row => w.keeps rank row)).take n.toNat := by
  have h1 : orderSpecs [Mod.columns ["id", sortCol], orderBy sortCol e, orderBy "id" e,
      Mod.limit n, w, Mod.fromTable tb] = [(sortCol, e), ("id", e)] := by
    cases w <;>
      simp_all [orderSpecs, orderBy_eq, List.filterMap_cons, List.filterMap_nil]
  have h2 : planLimit [Mod.columns ["id", sortCol], orderBy sortCol e, orderBy "id" e,
      Mod.limit n, w, Mod.fromTable tb] = some n := by
    simp [planLimit, orderBy_eq]
  have h3 : (fun row => [Mod.columns ["id", sortCol], orderBy sortCol e, orderBy "id" e,
      Mod.limit n, w, Mod.fromTable tb].all fun m => m.keeps rank row) =
      fun row => w.keeps rank row := by
    funext row
    simp [orderBy_eq, Mod.keeps]
  simp only [runQuery, h1, h2, h3]
  rw [sort_plan, sortedStore_filter rank hinj sortCol store hstore]

theorem Cursor.OrderValue_ne_nil (c : Cursor) (v : GoValue) (h : c.OrderValue = .ok v) :
    v ≠ GoValue.nil := by
  unfold Cursor.OrderValue at h
  intro hv
  subst hv
  iterate 11 (split at h <;> try simp at h)

/-! ## Values through the cursor, times outside UTC included -/

theorem time_roundtrip_utc (t : GoTime) (hw : t.wall < 10 ^ 9) (he : inInt64 t.ext) :
    (timestamppbNew t).AsTime = t.UTC :=
  time_roundtrip t.UTC rfl hw he

theorem GoValue.toUTC_of_wf (v : GoValue) (h : v.wf) : v.toUTC = v := by
  cases v <;> try rfl
  obtain ⟨hu, -, -⟩ := h
  simp [GoValue.toUTC, GoTime.UTC, ← hu]

theorem newCursor_toUTC (id : String) (v : GoValue) (dir : Bool) (hs : v.isSupported = true)
    (hr : v.inRange) :
    ∃ c, NewCursor id v dir = .ok c ∧ c.OrderValue = .ok v.toUTC := by
  obtain ⟨c, hc, -, -, -, hwf⟩ := newCursor_supported id v dir hs
  refine ⟨c, hc, ?_⟩
  cases v with
  | time t =>
    simp only [NewCursor, Res.ok.injEq] at hc
    rw [← hc]
    simp [Cursor.OrderValue, Cursor.SetOrderTimestamp, Cursor_builder.Build,
      time_roundtrip_utc t hr.1 hr.2, GoValue.toUTC]
  | _ => exact hwf hr

/-- With a lawful codec, a row with a string id and a supported sort value gives a
cursor that decodes to the id, the direction and the sort value moved to UTC. -/
theorem mapEncodeCursor_decode_toUTC (pb : ProtoCodec) (hpb : pb.Lawful) (row : RowMap)
    (sortCol : String) (b : Bool) (id : String) (v : GoValue)
    (hid : row.lookup "id" = some (GoValue.str id)) (hv : row.lookup sortCol = some v)
    (hs : v.isSupported = true) (hr : v.inRange) :
    ∃ buf c, mapEncodeCursor pb row sortCol b = .ok buf ∧ decodeCursor pb buf = .ok c ∧
      c.GetPrimaryId = id ∧ c.GetIsBackwards = b ∧ c.OrderValue = .ok v.toUTC := by
  obtain ⟨buf, hbuf⟩ := mapEncodeCursor_ok pb hpb row sortCol b ⟨⟨id, hid⟩, v, hv, hs⟩
  obtain ⟨id1, v1, c, hid1, hv1, hc, hm⟩ := mapEncodeCursor_ok_inv pb row sortCol b buf hbuf
  rw [hid] at hid1
  rw [hv] at hv1
  simp only [Option.some.injEq, GoValue.str.injEq] at hid1 hv1
  subst hid1
  subst hv1
  obtain ⟨buf1, hm1, -, hun⟩ := hpb id v b c hc
  rw [hm] at hm1
  simp only [Except.ok.injEq] at hm1
  subst hm1
  obtain ⟨c1, hc1, h1, h2, -⟩ := newCursor_supported id v b hs
  obtain ⟨c2, hc2, h3⟩ := newCursor_toUTC id v b hs hr
  rw [hc] at hc1 hc2
  simp only [Res.ok.injEq] at hc1 hc2
  subst hc1
  subst hc2
  exact ⟨buf, c, hbuf, by simp [decodeCursor, hun, Res.wrapErr, Res.ofExcept], h1, h2, h3⟩

/-- With a lawful codec an emitted cursor is not empty and decodes to the id of its row,
the direction it was built with and, for a value within the range of its Go type, the
row's sort value moved to UTC: the value itself unless it is a time outside UTC. -/
theorem mapEncodeCursor_ok_decode_utc (pb : ProtoCodec) (hpb : pb.Lawful) (row : RowMap)
    (sortCol : String) (b : Bool) (buf : Bytes)
    (h : mapEncodeCursor pb row sortCol b = .ok buf) :
    buf ≠ [] ∧ ∃ c, decodeCursor pb buf = .ok c ∧ c.GetPrimaryId = rowIdOf row ∧
      c.GetIsBackwards = b ∧
      ((cell row sortCol).inRange → c.OrderValue = .ok (cell row sortCol).toUTC) ∧
      ((cell row sortCol).inRange →
        (∀ tm, cell row sortCol = GoValue.time tm → tm.utc = true) →
        c.OrderValue = .ok (cell row sortCol)) := by
  obtain ⟨hne, c, hd, hid, hb, -, -⟩ := mapEncodeCursor_ok_decode pb hpb row sortCol b buf h
  obtain ⟨id, v, c1, hlid, hlv, hc1, -⟩ := mapEncodeCursor_ok_inv pb row sortCol b buf h
  have hsup : v.isSupported = true := by
    cases v <;> simp_all [NewCursor, GoValue.isSupported]
  have hcell : cell row sortCol = v := by simp [cell, hlv]
  have hutc : (cell row sortCol).inRange → c.OrderValue = .ok (cell row sortCol).toUTC := by
    intro hin
    rw [hcell] at hin ⊢
    obtain ⟨buf1, c2, hb1, hd1, -, -, hv1⟩ :=
      mapEncodeCursor_decode_toUTC pb hpb row sortCol b id v hlid hlv hsup hin
    rw [h] at hb1
    simp only [Res.ok.injEq] at hb1
    subst hb1
    rw [hd] at hd1
    simp only [Res.ok.injEq] at hd1
    subst hd1
    exact hv1
  refine ⟨hne, c, hd, hid, hb, hutc, ?_⟩
  intro hin hu
  rw [hutc hin]
  cases hv : cell row sortCol with
  | time tm =>
    have := hu tm hv
    simp [GoValue.toUTC, GoTime.UTC, ← this]
  | _ => rfl

/-! ## Pages of the store -/

theorem storeRow_fetched (sortCol : String) (r : RowMap) (h : StoreRowOk sortCol r) :
    FetchedRowOk sortCol r := by
  obtain ⟨h1, v, hv, hs, -⟩ := h
  exact ⟨h1, v, hv, hs⟩

theorem cursorOf_eq (pb : ProtoCodec) (sortCol : String) (r : RowMap) (b : Bool) (buf : Bytes)
    (h : mapEncodeCursor pb r sortCol b = .ok buf) : cursorOf pb sortCol r b = buf := by
  simp [cursorOf, h]

/-- The cursor of a store row is not empty and decodes to the row's id, the row's sort
value and the direction it was built with. -/
theorem cursorOf_spec (pb : ProtoCodec) (hpb : pb.Lawful) (sortCol : String) (r : RowMap)
    (b : Bool) (hr : StoreRowOk sortCol r) :
    mapEncodeCursor pb r sortCol b = .ok (cursorOf pb sortCol r b) ∧
    cursorOf pb sortCol r b ≠ [] ∧
    ∃ c, decodeCursor pb (cursorOf pb sortCol r b) = .ok c ∧ c.GetPrimaryId = rowIdOf r ∧
      c.GetIsBackwards = b ∧ c.OrderValue = .ok (cell r sortCol).toUTC ∧
      (cell r sortCol).toUTC ≠ GoValue.nil ∧ cell r "id" = GoValue.str (rowIdOf r) := by
  obtain ⟨buf, hbuf⟩ := mapEncodeCursor_ok pb hpb r sortCol b (storeRow_fetched sortCol r hr)
  rw [cursorOf_eq pb sortCol r b buf hbuf]
  obtain ⟨hne, c, h1, h2, h3, -, -⟩ := mapEncodeCursor_ok_decode pb hpb r sortCol b buf hbuf
  obtain ⟨⟨id, hid⟩, v, hv, hs, hin⟩ := hr
  have hcell : cell r sortCol = v := by simp [cell, hv]
  obtain ⟨buf1, c1, hb1, hd1, -, -, hv1⟩ :=
    mapEncodeCursor_decode_toUTC pb hpb r sortCol b id v hid hv hs hin
  rw [hbuf] at hb1
  simp only [Res.ok.injEq] at hb1
  subst hb1
  rw [h1] at hd1
  simp only [Res.ok.injEq] at hd1
  subst hd1
  refine ⟨hbuf, hne, c, h1, h2, h3, by rw [hcell]; exact hv1, ?_, ?_⟩
  · rw [hcell]
    exact Cursor.OrderValue_ne_nil c _ hv1
  · simp [cell, hid, rowIdOf]

/-- The page the reconciler returns on rows that carry a string id and a supported sort
value. -/
theorem reconcile_ok_page (pb : ProtoCodec) (hpb : pb.Lawful) (ps : Int) (hps : 0 ≤ ps)
    (sortCol : String) (bw hc : Bool) (rows : List RowMap)
    (hrows : ∀ r ∈ rows, FetchedRowOk sortCol r) :
    reconcile pb ps sortCol bw hc rows = .ok
      ⟨(if bw then (rows.take ps.toNat).reverse else rows.take ps.toNat).map rowIdOf,
        if bw then cursorAt pb sortCol (rows.take ps.toNat).head? false
          else if ps.toNat < rows.length
            then cursorAt pb sortCol (rows.take ps.toNat).getLast? false else [],
        if bw then
            if ps.toNat < rows.length
              then cursorAt pb sortCol (rows.take ps.toNat).getLast? true else []
          else if hc then cursorAt pb sortCol (rows.take ps.toNat).head? true else []⟩ := by
  have hm : decide ((rows.length : Int) > ps) = decide (ps.toNat < rows.length) := by
    apply decide_eq_decide.mpr
    omega
  obtain ⟨page, hpage⟩ := reconcileTail_ok pb hpb sortCol bw hc (decide ((rows.length : Int) > ps))
    (rows.take ps.toNat) (fun r hr => hrows r (List.mem_of_mem_take hr))
  rw [reconcile_eq_tail pb ps sortCol bw hc rows hps, hpage]
  obtain ⟨hids, hcur⟩ := reconcileTail_inv pb sortCol bw hc _ _ page hpage
  obtain ⟨-, h5, h6⟩ := reconcileCursors_inv pb _ _ _ _ _ _ _ _ hcur
  rw [hm] at h6
  obtain ⟨ids, nx, pv⟩ := page
  simp only at hids h5 h6
  simp only [Res.ok.injEq, PageResult.mk.injEq]
  refine ⟨hids, ?_, ?_⟩
  · cases hk : rows.take ps.toNat with
    | nil =>
      rw [hk] at h5
      simp [(h5 rfl).1, cursorAt]
    | cons a l =>
      rw [hk] at h6
      have hl : ∃ x, (a :: l).getLast? = some x := by
        cases hx : (a :: l).getLast? with
        | none => simp [List.getLast?_eq_none_iff] at hx
        | some x => exact ⟨x, rfl⟩
      obtain ⟨x, hx⟩ := hl
      have h := h6 a x rfl hx
      rw [hx]
      cases bw
      · by_cases hlt : ps.toNat < rows.length
        · simp [hlt, cursorAt, cursorOf_eq pb _ _ _ _ ((h.2 rfl).1 (by simp [hlt]))]
        · simp [hlt, (h.2 rfl).2.1 (by simp [hlt])]
      · simp [cursorAt, cursorOf_eq pb _ _ _ _ (h.1 rfl).1]
  · cases hk : rows.take ps.toNat with
    | nil =>
      rw [hk] at h5
      simp [(h5 rfl).2, cursorAt]
    | cons a l =>
      rw [hk] at h6
      have hl : ∃ x, (a :: l).getLast? = some x := by
        cases hx : (a :: l).getLast? with
        | none => simp [List.getLast?_eq_none_iff] at hx
        | some x => exact ⟨x, rfl⟩
      obtain ⟨x, hx⟩ := hl
      have h := h6 a x rfl hx
      rw [hx]
      cases bw
      · cases hc
        · simp [(h.2 rfl).2.2.2 rfl]
        · simp [cursorAt, cursorOf_eq pb _ _ _ _ ((h.2 rfl).2.2.1 rfl)]
      · by_cases hlt : ps.toNat < rows.length
        · simp [hlt, cursorAt, cursorOf_eq pb _ _ _ _ ((h.1 rfl).2.1 (by simp [hlt]))]
        · simp [hlt, (h.1 rfl).2.2 (by simp [hlt])]

/-- A list call without cursor reconciles the first rows of the sorted store. -/
theorem listPage_first {R : Type} [LinearOrder R] (pb : ProtoCodec) (rank : GoValue → R)
    (store : List RowMap) (t : String) (inp : ListInput) (hc : inp.HasCursor = false)
    (h1 : 0 ≤ planPageSize inp) (h2 : planPageSize inp < 2 ^ 31 - 1) :
    listPage pb rank store t inp =
      reconcile pb (planPageSize inp) (planSortCol inp) false false
        ((sortedStore rank (planSortCol inp) inp.GetSortDesc store).take
          ((planPageSize inp).toNat + 1)) := by
  unfold listPage PaginateSelectMods
  simp only [hc, Bool.false_eq_true, if_false, Res.bind, ne_eq, not_true_eq_false]
  cases inp.GetShowArchived <;>
    simp only [Bool.false_eq_true, if_false, if_true, List.cons_append, List.nil_append,
      runQuery_no_anchor, wrapInt32_limit _ h1 h2]

/-- A list call with the cursor of a store row reconciles the first rows that lie
strictly behind that row in the effective direction. -/
theorem listPage_cursor {R : Type} [LinearOrder R] (pb : ProtoCodec) (hpb : pb.Lawful)
    (rank : GoValue → R)
    (hinj : ∀ a b : String, rank (GoValue.str a) = rank (GoValue.str b) → a = b)
    (hutc : ∀ v : GoValue, rank v.toUTC = rank v)
    (store : List RowMap) (t : String) (inp : ListInput)
    (hstore : StoreOk (planSortCol inp) store) (a : RowMap) (ha : a ∈ store) (b : Bool)
    (hc : inp.HasCursor = true) (hg : inp.GetCursor = cursorOf pb (planSortCol inp) a b)
    (h1 : 0 ≤ planPageSize inp) (h2 : planPageSize inp < 2 ^ 31 - 1) :
    listPage pb rank store t inp =
      reconcile pb (planPageSize inp) (planSortCol inp) b true
        (((sortedStore rank (planSortCol inp) (if b then !inp.GetSortDesc else inp.GetSortDesc)
            store).filter
          (fun r => decide (keyLt rank (planSortCol inp)
            (if b then !inp.GetSortDesc else inp.GetSortDesc) a r))).take
          ((planPageSize inp).toNat + 1)) := by
  obtain ⟨-, -, c, hd, hid, hb, hv, hnil, hcid⟩ :=
    cursorOf_spec pb hpb (planSortCol inp) a b (hstore.1 a ha)
  have hkey : anchorKey rank ((cell a (planSortCol inp)).toUTC, rowIdOf a) =
      rowKey rank (planSortCol inp, "id") a := by
    simp [anchorKey, rowKey, hcid, hutc]
  unfold listPage PaginateSelectMods
  simp only [hc, if_true, hg, hd, hv, Res.bind, hb, hid, ne_eq, hnil, not_false_eq_true]
  generalize (if b then !inp.GetSortDesc else inp.GetSortDesc) = e
  cases inp.GetShowArchived <;> cases e <;>
    simp only [Bool.false_eq_true, if_false, if_true, List.cons_append, List.nil_append] <;>
    rw [runQuery_anchor rank hinj _ _ _ _ store hstore _ (by simp) (by simp),
      wrapInt32_limit _ h1 h2] <;>
    congr 3 <;> funext r <;> simp [Mod.keeps, keyLt, hkey]

theorem withCursor_nonempty (inp : ListInput) (cur : Bytes) (h : cur ≠ []) :
    withCursor inp cur = { inp with HasCursor := true, GetCursor := cur } := by
  unfold withCursor
  rw [if_pos (List.length_pos.mpr h)]

theorem withCursor_nil (inp : ListInput) : withCursor inp [] = inp := by
  simp [withCursor]

theorem take_succ_take (l : List RowMap) (p : Nat) : (l.take (p + 1)).take p = l.take p := by
  rw [List.take_take, Nat.min_eq_left (Nat.le_succ p)]

theorem lt_length_take_succ (l : List RowMap) (p : Nat) :
    p < (l.take (p + 1)).length ↔ p < l.length := by
  rw [List.length_take]
  omega

theorem head?_take_pos (l : List RowMap) (p : Nat) (hp : 1 ≤ p) : (l.take p).head? = l.head? := by
  cases l with
  | nil => simp
  | cons a t =>
    obtain ⟨n, rfl⟩ : ∃ n, p = n + 1 := ⟨p - 1, by omega⟩
    simp

/-- The first page of a walk. -/
theorem page_first {R : Type} [LinearOrder R] (pb : ProtoCodec) (hpb : pb.Lawful)
    (rank : GoValue → R) (store : List RowMap) (t : String) (inp : ListInput)
    (hstore : StoreOk (planSortCol inp) store) (hc : inp.HasCursor = false)
    (h1 : 1 ≤ planPageSize inp) (h2 : planPageSize inp < 2 ^ 31 - 1) (L : List RowMap)
    (hL : L = sortedStore rank (planSortCol inp) inp.GetSortDesc store) :
    listPage pb rank store t inp = .ok
      ⟨(L.take (planPageSize inp).toNat).map rowIdOf,
        if (planPageSize inp).toNat < L.length
          then cursorAt pb (planSortCol inp) (L.take (planPageSize inp).toNat).getLast? false
          else [],
        []⟩ := by
  have hrows : ∀ r ∈ L.take ((planPageSize inp).toNat + 1),
      FetchedRowOk (planSortCol inp) r := by
    intro r hr
    have hmem : r ∈ store := by
      have := List.mem_of_mem_take hr
      rw [hL] at this
      exact (sortedStore_perm rank _ _ store).subset this
    exact storeRow_fetched _ r (hstore.1 r hmem)
  rw [listPage_first pb rank store t inp hc (by omega) h2, ← hL,
    reconcile_ok_page pb hpb _ (by omega) _ false false _ hrows]
  simp only [Bool.false_eq_true, if_false, take_succ_take, lt_length_take_succ]

/-- A page requested with the forward cursor of the row `a` of the sorted store. -/
theorem page_forward {R : Type} [LinearOrder R] (pb : ProtoCodec) (hpb : pb.Lawful)
    (rank : GoValue → R)
    (hinj : ∀ a b : String, rank (GoValue.str a) = rank (GoValue.str b) → a = b)
    (hutc : ∀ v : GoValue, rank v.toUTC = rank v)
    (store : List RowMap) (t : String) (inp : ListInput)
    (hstore : StoreOk (planSortCol inp) store)
    (h1 : 1 ≤ planPageSize inp) (h2 : planPageSize inp < 2 ^ 31 - 1)
    (pre post : List RowMap) (a : RowMap)
    (hL : pre ++ a :: post = sortedStore rank (planSortCol inp) inp.GetSortDesc store) :
    listPage pb rank store t (withCursor inp (cursorOf pb (planSortCol inp) a false)) = .ok
      ⟨(post.take (planPageSize inp).toNat).map rowIdOf,
        if (planPageSize inp).toNat < post.length
          then cursorAt pb (planSortCol inp) (post.take (planPageSize inp).toNat).getLast? false
          else [],
        cursorAt pb (planSortCol inp) post.head? true⟩ := by
  have hperm := sortedStore_perm rank (planSortCol inp) inp.GetSortDesc store
  have hsub : ∀ r ∈ pre ++ a :: post, r ∈ store := fun r hr => hperm.subset (hL ▸ hr)
  have ha : a ∈ store := hsub a (by simp)
  have hne := (cursorOf_spec pb hpb (planSortCol inp) a false (hstore.1 a ha)).2.1
  have hpw := sortedStore_pairwise rank hinj (planSortCol inp) store hstore inp.GetSortDesc store
    (fun r hr => hr) (storeOk_nodup _ store hstore)
  rw [← hL] at hpw
  rw [withCursor_nonempty inp _ hne]
  have hrows : ∀ r ∈ post.take ((planPageSize inp).toNat + 1),
      FetchedRowOk (planSortCol inp) r := fun r hr =>
    storeRow_fetched _ r (hstore.1 r (hsub r (by
      have := List.mem_of_mem_take hr
      simp [this])))
  have key := listPage_cursor pb hpb rank hinj hutc store t
    { inp with HasCursor := true, GetCursor := cursorOf pb (planSortCol inp) a false }
    hstore a ha false rfl rfl (by
      show 0 ≤ planPageSize inp
      omega) h2
  rw [key]
  show reconcile pb (planPageSize inp) (planSortCol inp) false true
    (List.take ((planPageSize inp).toNat + 1) (List.filter
      (fun r => decide (keyLt rank (planSortCol inp) inp.GetSortDesc a r))
      (sortedStore rank (planSortCol inp) inp.GetSortDesc store))) = _
  rw [← hL, filter_after rank (planSortCol inp) inp.GetSortDesc pre post a hpw _ (by simp),
    reconcile_ok_page pb hpb _ (by omega) _ false true _ hrows]
  simp only [Bool.false_eq_true, if_false, if_true, take_succ_take, lt_length_take_succ,
    head?_take_pos post _ (by omega : 1 ≤ (planPageSize inp).toNat)]

/-- A page requested with the backward cursor of the row `a` of the sorted store. -/
theorem page_backward {R : Type} [LinearOrder R] (pb : ProtoCodec) (hpb : pb.Lawful)
    (rank : GoValue → R)
    (hinj : ∀ a b : String, rank (GoValue.str a) = rank (GoValue.str b) → a = b)
    (hutc : ∀ v : GoValue, rank v.toUTC = rank v)
    (store : List RowMap) (t : String) (inp : ListInput)
    (hstore : StoreOk (planSortCol inp) store)
    (h1 : 1 ≤ planPageSize inp) (h2 : planPageSize inp < 2 ^ 31 - 1)
    (pre post : List RowMap) (a : RowMap)
    (hL : pre ++ a :: post = sortedStore rank (planSortCol inp) inp.GetSortDesc store) :
    listPage pb rank store t (withCursor inp (cursorOf pb (planSortCol inp) a true)) = .ok
      ⟨(pre.drop (pre.length - (planPageSize inp).toNat)).map rowIdOf,
        cursorAt pb (planSortCol inp) pre.getLast? false,
        if (planPageSize inp).toNat < pre.length
          then cursorAt pb (planSortCol inp) (pre.get? (pre.length - (planPageSize inp).toNat))
            true
          else []⟩ := by
  have hperm := sortedStore_perm rank (planSortCol inp) inp.GetSortDesc store
  have hsub : ∀ r ∈ pre ++ a :: post, r ∈ store := fun r hr => hperm.subset (hL ▸ hr)
  have ha : a ∈ store := hsub a (by simp)
  have hne := (cursorOf_spec pb hpb (planSortCol inp) a true (hstore.1 a ha)).2.1
  have hpw := sortedStore_pairwise rank hinj (planSortCol inp) store hstore (!inp.GetSortDesc)
    store (fun r hr => hr) (storeOk_nodup _ store hstore)
  rw [sortedStore_not rank hinj _ store hstore, ← hL] at hpw
  have hrev : (pre ++ a :: post).reverse = post.reverse ++ a :: pre.reverse := by simp
  rw [hrev] at hpw
  rw [withCursor_nonempty inp _ hne]
  have hp1 : 1 ≤ (planPageSize inp).toNat := by omega
  have hrows : ∀ r ∈ pre.reverse.take ((planPageSize inp).toNat + 1),
      FetchedRowOk (planSortCol inp) r := fun r hr =>
    storeRow_fetched _ r (hstore.1 r (hsub r (by
      have := List.mem_reverse.mp (List.mem_of_mem_take hr)
      simp [this])))
  have key := listPage_cursor pb hpb rank hinj hutc store t
    { inp with HasCursor := true, GetCursor := cursorOf pb (planSortCol inp) a true }
    hstore a ha true rfl rfl (by
      show 0 ≤ planPageSize inp
      omega) h2
  rw [key]
  show reconcile pb (planPageSize inp) (planSortCol inp) true true
    (List.take ((planPageSize inp).toNat + 1) (List.filter
      (fun r => decide (keyLt rank (planSortCol inp) (!inp.GetSortDesc) a r))
      (sortedStore rank (planSortCol inp) (!inp.GetSortDesc) store))) = _
  rw [sortedStore_not rank hinj _ store hstore, ← hL, hrev,
    filter_after rank (planSortCol inp) (!inp.GetSortDesc) post.reverse pre.reverse a hpw _
      (by simp),
    reconcile_ok_page pb hpb _ (by omega) _ true true _ hrows]
  simp only [if_true, take_succ_take, lt_length_take_succ, List.length_reverse,
    head?_take_pos pre.reverse _ hp1, List.head?_reverse, Res.ok.injEq, PageResult.mk.injEq]
  refine ⟨?_, trivial, ?_⟩
  · rw [List.reverse_take, List.reverse_reverse, List.length_reverse]
  · by_cases hlt : (planPageSize inp).toNat < pre.length
    · simp only [hlt, if_true]
      congr 1
      rw [List.getLast?_eq_getElem?, List.length_take, List.length_reverse,
        Nat.min_eq_left (by omega), List.getElem?_take_of_lt (by omega),
        List.getElem?_reverse (by omega), List.get?_eq_getElem?]
      congr 1
      omega
    · simp only [hlt, if_false]

/-! ## Walks over the store -/

theorem pagesNeeded_pos (n p : Nat) : 1 ≤ pagesNeeded n p := by
  unfold pagesNeeded ceilDiv
  exact Nat.le_max_left _ _

theorem pagesNeeded_le (n p : Nat) (hp : 1 ≤ p) (h : n ≤ p) : pagesNeeded n p = 1 := by
  unfold pagesNeeded ceilDiv
  have : (n + p - 1) / p ≤ 1 := by
    rw [Nat.div_le_iff_le_mul_add_pred (by omega)]
    omega
  omega

theorem pagesNeeded_step (n p : Nat) (hp : 1 ≤ p) (h : p < n) :
    pagesNeeded n p = pagesNeeded (n - p) p + 1 := by
  unfold pagesNeeded ceilDiv
  have h1 : n + p - 1 = (n - p + p - 1) + p := by omega
  have h2 : 1 ≤ (n - p + p - 1) / p := by
    rw [Nat.le_div_iff_mul_le (by omega)]
    omega
  rw [h1, Nat.add_div_right _ (by omega : 0 < p)]
  omega

theorem getLast?_take_isSome (l : List RowMap) (p : Nat) (hp : 1 ≤ p) (hl : l ≠ []) :
    ∃ a, (l.take p).getLast? = some a ∧ a ∈ l := by
  cases hx : (l.take p).getLast? with
  | none =>
    rw [List.getLast?_eq_none_iff] at hx
    have := congrArg List.length hx
    have hlen := List.length_pos.mpr hl
    simp only [List.length_take, List.length_nil] at this
    omega
  | some a => exact ⟨a, rfl, List.mem_of_mem_take (List.mem_of_getLast?_eq_some hx)⟩

/-- The forward walk returns the expected pages. -/
theorem walkForward_pages {R : Type} [LinearOrder R] (pb : ProtoCodec) (hpb : pb.Lawful)
    (rank : GoValue → R)
    (hinj : ∀ a b : String, rank (GoValue.str a) = rank (GoValue.str b) → a = b)
    (hutc : ∀ v : GoValue, rank v.toUTC = rank v)
    (store : List RowMap) (t : String) (inp : ListInput)
    (hstore : StoreOk (planSortCol inp) store) (hc : inp.HasCursor = false)
    (h1 : 1 ≤ planPageSize inp) (h2 : planPageSize inp < 2 ^ 31 - 1) (fuel : Nat) :
    ∀ (pre post : List RowMap) (first : Bool) (cur : Bytes),
      pre ++ post = sortedStore rank (planSortCol inp) inp.GetSortDesc store →
      pagesNeeded post.length (planPageSize inp).toNat ≤ fuel →
      ((first = true ∧ pre = [] ∧ cur = []) ∨
        (first = false ∧ ∃ a, pre.getLast? = some a ∧
          cur = cursorOf pb (planSortCol inp) a false)) →
      walkForward (listPage pb rank store t) inp fuel cur =
        .ok (fwdPages pb (planSortCol inp) (planPageSize inp).toNat fuel first post) := by
  have hp1 : 1 ≤ (planPageSize inp).toNat := by omega
  induction fuel with
  | zero =>
    intro pre post first cur _ hfuel _
    have := pagesNeeded_pos post.length (planPageSize inp).toNat
    omega
  | succ k ih =>
    intro pre post first cur hL hfuel hstate
    have hperm := sortedStore_perm rank (planSortCol inp) inp.GetSortDesc store
    -- the page of this step
    have hpage : listPage pb rank store t (withCursor inp cur) = .ok
        ⟨(post.take (planPageSize inp).toNat).map rowIdOf,
          if (planPageSize inp).toNat < post.length
            then cursorAt pb (planSortCol inp)
              (post.take (planPageSize inp).toNat).getLast? false
            else [],
          if first then [] else cursorAt pb (planSortCol inp) post.head? true⟩ := by
      rcases hstate with ⟨hf, hpre, hcur⟩ | ⟨hf, a, ha, hcur⟩
      · subst hf hpre hcur
        rw [withCursor_nil]
        simp only [List.nil_append] at hL
        rw [page_first pb hpb rank store t inp hstore hc h1 h2 post hL]
        simp
      · subst hf hcur
        obtain ⟨pre', rfl⟩ : ∃ pre', pre = pre' ++ [a] := by
          obtain ⟨hne, hlast⟩ := List.getLast?_eq_some_iff.mp ha
          exact ⟨_, hlast⟩
        rw [List.append_assoc, List.singleton_append] at hL
        rw [page_forward pb hpb rank hinj hutc store t inp hstore h1 h2 pre' post a hL]
        simp
    simp only [walkForward, hpage, Res.bind, fwdPages]
    by_cases hlt : (planPageSize inp).toNat < post.length
    · have hpne : post ≠ [] := by
        intro h
        rw [h] at hlt
        simp at hlt
      obtain ⟨a', ha', hmem⟩ := getLast?_take_isSome post _ hp1 hpne
      have ha'store : a' ∈ store := hperm.subset (hL ▸ List.mem_append_right pre hmem)
      have hne := (cursorOf_spec pb hpb (planSortCol inp) a' false (hstore.1 a' ha'store)).2.1
      have hnext : ¬ (cursorOf pb (planSortCol inp) a' false).length < 1 := by
        have := List.length_pos.mpr hne
        omega
      simp only [hlt, if_true, ha', cursorAt, hnext, if_false]
      have hsplit : (pre ++ post.take (planPageSize inp).toNat) ++
          post.drop (planPageSize inp).toNat =
          sortedStore rank (planSortCol inp) inp.GetSortDesc store := by
        rw [List.append_assoc, List.take_append_drop]
        exact hL
      have hfuel' : pagesNeeded (post.drop (planPageSize inp).toNat).length
          (planPageSize inp).toNat ≤ k := by
        rw [List.length_drop]
        have := pagesNeeded_step post.length _ hp1 hlt
        omega
      rw [ih (pre ++ post.take (planPageSize inp).toNat) (post.drop (planPageSize inp).toNat)
        false (cursorOf pb (planSortCol inp) a' false) hsplit hfuel'
        (Or.inr ⟨rfl, a', by
          rw [List.getLast?_append, ha']
          rfl, rfl⟩)]
    · simp only [hlt, if_false, List.length_nil, Nat.lt_one_iff, if_true]

/-- The backward walk returns the expected pages. -/
theorem walkBackward_pages {R : Type} [LinearOrder R] (pb : ProtoCodec) (hpb : pb.Lawful)
    (rank : GoValue → R)
    (hinj : ∀ a b : String, rank (GoValue.str a) = rank (GoValue.str b) → a = b)
    (hutc : ∀ v : GoValue, rank v.toUTC = rank v)
    (store : List RowMap) (t : String) (inp : ListInput)
    (hstore : StoreOk (planSortCol inp) store)
    (h1 : 1 ≤ planPageSize inp) (h2 : planPageSize inp < 2 ^ 31 - 1) (fuel : Nat) :
    ∀ (pre post : List RowMap) (a : RowMap),
      pre ++ a :: post = sortedStore rank (planSortCol inp) inp.GetSortDesc store →
      pagesNeeded pre.length (planPageSize inp).toNat ≤ fuel →
      walkBackward (listPage pb rank store t) inp fuel (cursorOf pb (planSortCol inp) a true) =
        .ok (bwdPages pb (planSortCol inp) (planPageSize inp).toNat fuel pre) := by
  have hp1 : 1 ≤ (planPageSize inp).toNat := by omega
  induction fuel with
  | zero =>
    intro pre post a _ hfuel
    have := pagesNeeded_pos pre.length (planPageSize inp).toNat
    omega
  | succ k ih =>
    intro pre post a hL hfuel
    have hperm := sortedStore_perm rank (planSortCol inp) inp.GetSortDesc store
    simp only [walkBackward, page_backward pb hpb rank hinj hutc store t inp hstore h1 h2 pre post a hL,
      Res.bind, bwdPages]
    by_cases hlt : (planPageSize inp).toNat < pre.length
    · have hidx : pre.length - (planPageSize inp).toNat < pre.length := by omega
      have hget : pre.get? (pre.length - (planPageSize inp).toNat) =
          some (pre[pre.length - (planPageSize inp).toNat]) := by
        rw [List.get?_eq_getElem?]
        exact List.getElem?_eq_getElem hidx
      have hmem : pre[pre.length - (planPageSize inp).toNat] ∈ store :=
        hperm.subset (hL ▸ List.mem_append_left _ (List.getElem_mem _))
      have hne := (cursorOf_spec pb hpb (planSortCol inp) _ true (hstore.1 _ hmem)).2.1
      have hprev : ¬ (cursorOf pb (planSortCol inp)
          pre[pre.length - (planPageSize inp).toNat] true).length < 1 := by
        have := List.length_pos.mpr hne
        omega
      simp only [hlt, if_true, hget, cursorAt, hprev, if_false]
      have hsplit : pre.take (pre.length - (planPageSize inp).toNat) ++
          pre[pre.length - (planPageSize inp).toNat] ::
            (pre.drop (pre.length - (planPageSize inp).toNat + 1) ++ a :: post) =
          sortedStore rank (planSortCol inp) inp.GetSortDesc store := by
        have hd : pre.drop (pre.length - (planPageSize inp).toNat) =
            pre[pre.length - (planPageSize inp).toNat] ::
              pre.drop (pre.length - (planPageSize inp).toNat + 1) :=
          List.drop_eq_getElem_cons hidx
        rw [← hL, ← List.cons_append, ← hd, ← List.append_assoc, List.take_append_drop]
      have hfuel' : pagesNeeded (pre.take (pre.length - (planPageSize inp).toNat)).length
          (planPageSize inp).toNat ≤ k := by
        rw [List.length_take, Nat.min_eq_left (by omega)]
        have := pagesNeeded_step pre.length _ hp1 hlt
        omega
      rw [ih _ _ _ hsplit hfuel']
    · simp only [hlt, if_false, List.length_nil, Nat.lt_one_iff, if_true]

theorem pagesNeeded_mono (m n p : Nat) (h : m ≤ n) : pagesNeeded m p ≤ pagesNeeded n p := by
  unfold pagesNeeded ceilDiv
  have : (m + p - 1) / p ≤ (n + p - 1) / p := Nat.div_le_div_right (by omega)
  omega

theorem pageIds_cons (pg : PageResult) (pages : List PageResult) :
    pageIds (pg :: pages) = pg.ids ++ pageIds pages := by
  simp [pageIds]

theorem pageIds_append (xs ys : List PageResult) :
    pageIds (xs ++ ys) = pageIds xs ++ pageIds ys := by
  simp [pageIds]

/-- The expected forward pages carry the ids of all rows, in order. -/
theorem fwdPages_ids (pb : ProtoCodec) (sortCol : String) (p : Nat) (hp : 1 ≤ p) (fuel : Nat) :
    ∀ (first : Bool) (post : List RowMap), pagesNeeded post.length p ≤ fuel →
      pageIds (fwdPages pb sortCol p fuel first post) = post.map rowIdOf := by
  induction fuel with
  | zero =>
    intro first post h
    have := pagesNeeded_pos post.length p
    omega
  | succ k ih =>
    intro first post h
    simp only [fwdPages]
    by_cases hlt : p < post.length
    · have hk : pagesNeeded (post.drop p).length p ≤ k := by
        rw [List.length_drop]
        have := pagesNeeded_step post.length p hp hlt
        omega
      simp only [hlt, if_true, pageIds_cons, ih false (post.drop p) hk]
      rw [← List.map_append, List.take_append_drop]
    · simp only [hlt, if_false, pageIds_cons]
      rw [List.take_of_length_le (by omega)]
      simp [pageIds]

/-- The number of expected forward pages is the ceiling of rows over page size, and at
least one. -/
theorem fwdPages_length (pb : ProtoCodec) (sortCol : String) (p : Nat) (hp : 1 ≤ p)
    (fuel : Nat) :
    ∀ (first : Bool) (post : List RowMap), pagesNeeded post.length p ≤ fuel →
      (fwdPages pb sortCol p fuel first post).length = pagesNeeded post.length p := by
  induction fuel with
  | zero =>
    intro first post h
    have := pagesNeeded_pos post.length p
    omega
  | succ k ih =>
    intro first post h
    simp only [fwdPages]
    by_cases hlt : p < post.length
    · have hstep := pagesNeeded_step post.length p hp hlt
      have hk : pagesNeeded (post.drop p).length p ≤ k := by
        rw [List.length_drop]
        omega
      simp only [hlt, if_true, List.length_cons, ih false (post.drop p) hk, List.length_drop]
      omega
    · simp only [hlt, if_false, List.length_singleton]
      exact (pagesNeeded_le _ _ hp (by omega)).symm

/-- The last expected forward page has no next cursor. -/
theorem fwdPages_last (pb : ProtoCodec) (sortCol : String) (p : Nat) (hp : 1 ≤ p) (fuel : Nat) :
    ∀ (first : Bool) (post : List RowMap), pagesNeeded post.length p ≤ fuel →
      ∃ last, (fwdPages pb sortCol p fuel first post).getLast? = some last ∧
        last.nextCursor = [] := by
  induction fuel with
  | zero =>
    intro first post h
    have := pagesNeeded_pos post.length p
    omega
  | succ k ih =>
    intro first post h
    simp only [fwdPages]
    by_cases hlt : p < post.length
    · have hk : pagesNeeded (post.drop p).length p ≤ k := by
        rw [List.length_drop]
        have := pagesNeeded_step post.length p hp hlt
        omega
      obtain ⟨last, hl1, hl2⟩ := ih false (post.drop p) hk
      refine ⟨last, ?_, hl2⟩
      simp only [hlt, if_true]
      rw [List.getLast?_cons, hl1]
      rfl
    · simp only [hlt, if_false, List.getLast?_singleton]
      exact ⟨_, rfl, rfl⟩

/-- The first expected forward page. -/
theorem fwdPages_head (pb : ProtoCodec) (sortCol : String) (p : Nat) (fuel : Nat)
    (post : List RowMap) :
    ∃ first, (fwdPages pb sortCol p (fuel + 1) true post).head? = some first ∧
      first.ids = (post.take p).map rowIdOf := by
  simp only [fwdPages]
  split <;> exact ⟨_, rfl, rfl⟩

/-- The last two expected forward pages when the rows span more than one page: the
last page starts at a row index `m` that is a positive multiple of the page size. -/
theorem fwdPages_last_two (pb : ProtoCodec) (sortCol : String) (p : Nat) (hp : 1 ≤ p)
    (fuel : Nat) :
    ∀ (first : Bool) (post : List RowMap), pagesNeeded post.length p ≤ fuel → p < post.length →
      ∃ init pen last m, fwdPages pb sortCol p fuel first post = init ++ [pen, last] ∧
        p ≤ m ∧ p ∣ m ∧ m < post.length ∧ post.length ≤ m + p ∧
        pen.nextCursor = cursorAt pb sortCol (post.get? (m - 1)) false ∧
        last.prevCursor = cursorAt pb sortCol (post.get? m) true ∧
        last.ids = (post.drop m).map rowIdOf ∧ last.nextCursor = [] := by
  induction fuel with
  | zero =>
    intro first post h
    have := pagesNeeded_pos post.length p
    omega
  | succ k ih =>
    intro first post h hlt
    have hstep := pagesNeeded_step post.length p hp hlt
    have hk : pagesNeeded (post.drop p).length p ≤ k := by
      rw [List.length_drop]
      omega
    simp only [fwdPages, hlt, if_true]
    by_cases hlt2 : p < (post.drop p).length
    · obtain ⟨init, pen, last, m, h1, h2, h3, h4, h5, h6, h7, h8, h9⟩ :=
        ih false (post.drop p) hk hlt2
      rw [List.length_drop] at h4 h5
      rw [h1]
      refine ⟨_, pen, last, m + p, (List.cons_append _ init [pen, last]).symm, by omega,
        (Nat.dvd_add_right h3).mpr (dvd_refl p), by omega, by omega, ?_, ?_, ?_, h9⟩
      · rw [h6, List.get?_eq_getElem?, List.get?_eq_getElem?, List.getElem?_drop]
        congr 2
        omega
      · rw [h7, List.get?_eq_getElem?, List.get?_eq_getElem?, List.getElem?_drop]
        congr 2
        omega
      · rw [h8, List.drop_drop]
        congr 2
        omega
    · have hk1 : ∃ j, k = j + 1 := by
        have := pagesNeeded_pos (post.drop p).length p
        exact ⟨k - 1, by omega⟩
      obtain ⟨j, rfl⟩ := hk1
      rw [List.length_drop] at hlt2
      have hlen : ¬ p < (post.drop p).length := by
        rw [List.length_drop]
        exact hlt2
      simp only [fwdPages, hlen, if_false]
      refine ⟨[], _, _, p, rfl, le_refl p, dvd_refl p, hlt, by omega, ?_, ?_, ?_, rfl⟩
      · simp only
        rw [take_getLast? post p hp (by omega)]
      · simp only [Bool.false_eq_true, if_false]
        rw [List.head?_drop, List.get?_eq_getElem?]
      · simp only
        rw [List.take_of_length_le (by rw [List.length_drop]; omega)]

/-- The expected backward pages, put back in order, carry the ids of all rows before
the anchor. -/
theorem bwdPages_ids (pb : ProtoCodec) (sortCol : String) (p : Nat) (hp : 1 ≤ p) (fuel : Nat) :
    ∀ (pre : List RowMap), pagesNeeded pre.length p ≤ fuel →
      pageIds (bwdPages pb sortCol p fuel pre).reverse = pre.map rowIdOf := by
  induction fuel with
  | zero =>
    intro pre h
    have := pagesNeeded_pos pre.length p
    omega
  | succ k ih =>
    intro pre h
    simp only [bwdPages]
    by_cases hlt : p < pre.length
    · have hk : pagesNeeded (pre.take (pre.length - p)).length p ≤ k := by
        rw [List.length_take, Nat.min_eq_left (by omega)]
        have := pagesNeeded_step pre.length p hp hlt
        omega
      simp only [hlt, if_true, List.reverse_cons, pageIds_append, ih _ hk]
      simp only [pageIds, List.map_cons, List.map_nil, List.flatten_cons, List.flatten_nil,
        List.append_nil]
      rw [← List.map_append, List.take_append_drop]
    · simp only [hlt, if_false, List.reverse_singleton]
      have : pre.length - p = 0 := by omega
      simp [pageIds, this]

/-- Every expected backward page has at most `p` ids, and a next cursor when there are
rows before the anchor. -/
theorem bwdPages_each (pb : ProtoCodec) (sortCol : String) (p : Nat) (hp : 1 ≤ p) (fuel : Nat) :
    ∀ (pre : List RowMap), pre ≠ [] →
      (∀ r ∈ pre, cursorOf pb sortCol r false ≠ []) →
      ∀ pg ∈ bwdPages pb sortCol p fuel pre, pg.nextCursor ≠ [] ∧ pg.ids.length ≤ p := by
  induction fuel with
  | zero =>
    intro pre _ _ pg hpg
    simp [bwdPages] at hpg
  | succ k ih =>
    intro pre hne hcur pg hpg
    obtain ⟨a, ha⟩ : ∃ a, pre.getLast? = some a := by
      cases hx : pre.getLast? with
      | none => exact absurd (List.getLast?_eq_none_iff.mp hx) hne
      | some a => exact ⟨a, rfl⟩
    have hpage : (cursorAt pb sortCol pre.getLast? false ≠ []) ∧
        ((pre.drop (pre.length - p)).map rowIdOf).length ≤ p := by
      constructor
      · rw [ha]
        exact hcur a (List.mem_of_getLast?_eq_some ha)
      · rw [List.length_map, List.length_drop]
        omega
    simp only [bwdPages] at hpg
    by_cases hlt : p < pre.length
    · simp only [hlt, if_true, List.mem_cons] at hpg
      rcases hpg with rfl | hpg
      · exact hpage
      · refine ih (pre.take (pre.length - p)) ?_ ?_ pg hpg
        · intro h
          have := congrArg List.length h
          rw [List.length_take] at this
          simp only [List.length_nil] at this
          omega
        · intro r hr
          exact hcur r (List.mem_of_mem_take hr)
    · simp only [hlt, if_false, List.mem_singleton] at hpg
      subst hpg
      exact hpage

/-- The final expected backward page has no previous cursor; when the number of rows
before the anchor is a positive multiple of the page size it holds the first `p` rows. -/
theorem bwdPages_last (pb : ProtoCodec) (sortCol : String) (p : Nat) (hp : 1 ≤ p) (fuel : Nat) :
    ∀ (pre : List RowMap), pagesNeeded pre.length p ≤ fuel →
      ∃ last, (bwdPages pb sortCol p fuel pre).getLast? = some last ∧ last.prevCursor = [] ∧
        (p ∣ pre.length → pre ≠ [] → last.ids = (pre.take p).map rowIdOf) := by
  induction fuel with
  | zero =>
    intro pre h
    have := pagesNeeded_pos pre.length p
    omega
  | succ k ih =>
    intro pre h
    simp only [bwdPages]
    by_cases hlt : p < pre.length
    · have hk : pagesNeeded (pre.take (pre.length - p)).length p ≤ k := by
        rw [List.length_take, Nat.min_eq_left (by omega)]
        have := pagesNeeded_step pre.length p hp hlt
        omega
      obtain ⟨last, hl1, hl2, hl3⟩ := ih _ hk
      refine ⟨last, ?_, hl2, ?_⟩
      · simp only [hlt, if_true]
        rw [List.getLast?_cons, hl1]
        rfl
      · intro hdvd hne
        have hlen : (pre.take (pre.length - p)).length = pre.length - p := by
          rw [List.length_take, Nat.min_eq_left (by omega)]
        have hdvd' : p ∣ (pre.take (pre.length - p)).length := by
          rw [hlen]
          exact Nat.dvd_sub' hdvd (dvd_refl p)
        have hne' : pre.take (pre.length - p) ≠ [] := by
          intro h0
          have := congrArg List.length h0
          rw [hlen] at this
          simp only [List.length_nil] at this
          omega
        rw [hl3 hdvd' hne', List.take_take]
        have hple : p ≤ pre.length - p := by
          obtain ⟨c, hc⟩ := hdvd
          have hc2 : 2 ≤ c := by
            by_contra hcon
            have : c = 0 ∨ c = 1 := by omega
            rcases this with rfl | rfl <;> omega
          have : p * 2 ≤ p * c := Nat.mul_le_mul_left p hc2
          omega
        rw [Nat.min_eq_left hple]
    · simp only [hlt, if_false, List.getLast?_singleton]
      refine ⟨_, rfl, rfl, ?_⟩
      intro hdvd hne
      have hpos : 0 < pre.length := List.length_pos.mpr hne
      have hle := Nat.le_of_dvd hpos hdvd
      have heq : pre.length = p := by omega
      simp only
      rw [heq, Nat.sub_self, List.drop_zero, List.take_of_length_le (by omega)]

/-! ## The sample store -/

theorem refRank_inj (a b : String) (h : refRank (GoValue.str a) = refRank (GoValue.str b)) :
    a = b := by
  have h1 := congrArg (fun k => (ofLex k).2) h
  simp only [refRank, ofLex_toLex] at h1
  cases a
  cases b
  simp_all

theorem refRank_utc (v : GoValue) : refRank v.toUTC = refRank v := by
  cases v <;> rfl

theorem demoStore_ok : StoreOk "created_at" demoStore := by
  constructor
  · intro r hr
    simp only [demoStore, List.mem_cons, List.mem_singleton, List.not_mem_nil, or_false] at hr
    rcases hr with rfl | rfl | rfl | rfl | rfl <;>
      exact ⟨⟨_, rfl⟩, _, rfl, rfl, by decide⟩
  · decide


/-! ## Panics of the reconciler -/

theorem Res.bind_eq_panic {α β : Type} (r : Res α) (f : α → Res β) (p : GoPanic) :
    r.bind f = .panic p ↔ r = .panic p ∨ ∃ a, r = .ok a ∧ f a = .panic p := by
  cases r <;> simp [Res.bind]

theorem Res.wrapErr_eq_panic {α : Type} (r : Res α) (pre : String) (p : GoPanic) :
    r.wrapErr pre = .panic p ↔ r = .panic p := by
  cases r <;> simp [Res.wrapErr]

theorem NewCursor_panic (id : String) (v : GoValue) (b : Bool) (p : GoPanic)
    (h : NewCursor id v b = .panic p) : ∃ m, p = GoPanic.typeAssertion m := by
  cases v <;> simp [NewCursor] at h
  exact ⟨_, h.symm⟩

/-- The only panic of `mapEncodeCursor` is the failed type assertion of `NewCursor`. -/
theorem mapEncodeCursor_panic (pb : ProtoCodec) (row : RowMap) (sortCol : String) (b : Bool)
    (p : GoPanic) (h : mapEncodeCursor pb row sortCol b = .panic p) :
    ∃ m, p = GoPanic.typeAssertion m := by
  unfold mapEncodeCursor at h
  cases hv : row.lookup sortCol with
  | none => rw [hv] at h; simp at h
  | some v =>
    rw [hv] at h
    simp only [Res.bind_eq_panic, Res.wrapErr_eq_panic, Res.wrapErr_eq_ok] at h
    rcases h with h | ⟨id, -, h | ⟨c, -, h⟩⟩
    · exact absurd h (getRowID_not_panic row p)
    · exact NewCursor_panic id v b p h
    · cases hm : pb.Marshal c <;> simp [hm, Res.ofExcept] at h

theorem reconcileTail_panic (pb : ProtoCodec) (sortCol : String) (bw hc hm : Bool)
    (kept : List RowMap) (p : GoPanic) (h : reconcileTail pb sortCol bw hc hm kept = .panic p) :
    ∃ m, p = GoPanic.typeAssertion m := by
  unfold reconcileTail at h
  rw [Res.bind_eq_panic] at h
  rcases h with h | ⟨r, -, h⟩
  · unfold reconcileCursors at h
    split at h
    · have key : ∀ r b, mapEncodeCursor pb r sortCol b = .panic p →
          ∃ m, p = GoPanic.typeAssertion m := fun r b => mapEncodeCursor_panic pb r sortCol b p
      cases bw <;> cases hm <;> cases hc <;>
        simp [Res.bind_eq_panic, Res.wrapErr_eq_panic] at h <;>
        first
        | exact key _ _ h
        | exact key _ _ h.2
        | (rcases h with h | h
           · exact key _ _ h
           · exact key _ _ h.2)
    · simp at h
  · rw [Res.bind_eq_panic] at h
    rcases h with h | ⟨ids, -, h⟩
    · exact absurd h (rowIDs_not_panic _ p)
    · simp at h

/-- With a page size that is not negative the reconciler never panics on a slice
bound. -/
theorem reconcile_no_slice_panic (pb : ProtoCodec) (ps : Int) (hps : 0 ≤ ps) (sortCol : String)
    (bw hc : Bool) (rows : List RowMap) (m : String) :
    reconcile pb ps sortCol bw hc rows ≠ .panic (GoPanic.sliceBounds m) := by
  intro h
  rw [reconcile_eq_tail pb ps sortCol bw hc rows hps] at h
  obtain ⟨m', hm'⟩ := reconcileTail_panic pb sortCol bw hc _ _ _ h
  simp at hm'

/-! ## The shape of the plan -/

/-- The modifiers of a plan: without a cursor the columns, the two `ORDER BY` items in
the requested direction, the limit and the table; with a cursor the same in the
effective direction and with one keyset filter before the table. -/
theorem paginate_mods (pb : ProtoCodec) (inp : ListInput) (t : String)
    (plan : List Mod × (List RowMap → Res PageResult))
    (h : PaginateSelectMods pb inp t = .ok plan) :
    (inp.HasCursor = false ∧
      plan.1 = [.columns ["id", planSortCol inp], .orderBy (planSortCol inp) inp.GetSortDesc,
        .orderBy "id" inp.GetSortDesc, .limit (wrapInt32 (planPageSize inp + 1)),
        .fromTable (t ++ if inp.GetShowArchived then "_archived" else "_live")]) ∨
    (inp.HasCursor = true ∧ ∃ c v, decodeCursor pb inp.GetCursor = .ok c ∧
      c.OrderValue = .ok v ∧
      plan.1 = [.columns ["id", planSortCol inp],
        .orderBy (planSortCol inp) (xor inp.GetSortDesc c.GetIsBackwards),
        .orderBy "id" (xor inp.GetSortDesc c.GetIsBackwards),
        .limit (wrapInt32 (planPageSize inp + 1)),
        (if xor inp.GetSortDesc c.GetIsBackwards
          then .whereLT (planSortCol inp, "id") (v, c.GetPrimaryId)
          else .whereGT (planSortCol inp, "id") (v, c.GetPrimaryId)),
        .fromTable (t ++ if inp.GetShowArchived then "_archived" else "_live")]) := by
  unfold PaginateSelectMods at h
  cases hc : inp.HasCursor with
  | false =>
    left
    simp only [hc, Bool.false_eq_true, if_false, Res.bind, Res.ok.injEq] at h
    rw [← h]
    cases inp.GetShowArchived <;> simp [orderBy_eq]
  | true =>
    right
    simp only [hc, if_true] at h
    cases hd : decodeCursor pb inp.GetCursor with
    | err e => rw [hd] at h; simp [Res.bind] at h
    | panic p => rw [hd] at h; simp [Res.bind] at h
    | ok c =>
      rw [hd] at h
      simp only at h
      cases hv : c.OrderValue with
      | err e => rw [hv] at h; simp [Res.bind] at h
      | panic p => rw [hv] at h; simp [Res.bind] at h
      | ok v =>
        rw [hv] at h
        have hne := Cursor.OrderValue_ne_nil c v hv
        simp only [Res.bind, Res.ok.injEq] at h
        rw [← h]
        refine ⟨rfl, c, v, rfl, hv, ?_⟩
        cases inp.GetShowArchived <;> cases inp.GetSortDesc <;> cases c.GetIsBackwards <;>
          simp [orderBy_eq, hne]

/-- The meaning of the two keyset filters on a row: a strict lexicographic comparison
of the pair (sort value, id) with the pair of the anchor. -/
theorem keeps_where {R : Type} [LinearOrder R] (rank : GoValue → R) (lhs : String × String)
    (rhs : GoValue × String) (row : RowMap) :
    ((Mod.whereGT lhs rhs).keeps rank row = true ↔
      (rank rhs.1 < rank (cell row lhs.1) ∨
        (rank rhs.1 = rank (cell row lhs.1) ∧
          rank (GoValue.str rhs.2) < rank (cell row lhs.2)))) ∧
    ((Mod.whereLT lhs rhs).keeps rank row = true ↔
      (rank (cell row lhs.1) < rank rhs.1 ∨
        (rank (cell row lhs.1) = rank rhs.1 ∧
          rank (cell row lhs.2) < rank (GoValue.str rhs.2)))) := by
  simp [Mod.keeps, rowKey, anchorKey, Prod.Lex.lt_iff]

theorem refCodec_garbage :
    refCodec.Unmarshal demoGarbage =
      Except.error (GoError.errorf "proto: cannot parse invalid wire-format data") := by
  have h : Nat.unpair 144 = (0, 12) := by
    have : (144 : ℕ) = Nat.pair 0 12 := by decide
    rw [this, Nat.unpair_pair]
  have h2 : Nat.unpair 12 = (3, 0) := by
    have : (12 : ℕ) = Nat.pair 3 0 := by decide
    rw [this, Nat.unpair_pair]
  have hb : (Encodable.decode 3 : Option (Option Bool)) = none := by
    rw [show (3 : ℕ) = Nat.succ 2 from rfl, Encodable.decode_option_succ,
      Encodable.decode_ge_two 2 (le_refl 2)]
    rfl
  have hd : (Encodable.decode 144 : Option CursorTuple) = none := by
    unfold CursorTuple
    rw [Encodable.decode_prod_val, h]
    simp only [Encodable.decode_option_zero, Option.bind_eq_bind, Option.some_bind]
    rw [Encodable.decode_prod_val, h2]
    simp only [hb, Option.none_bind, Option.map_none', Option.bind_eq_bind]
  have hn : Nat.ofDigits 256 (List.map Fin.val ([144] : List (Fin 256))) = 144 := by
    simp [Nat.ofDigits]
    rfl
  simp only [demoGarbage, refCodec, hn, hd]

/-- The reference codec parses the bytes of a cursor with only a primary id. -/
theorem demo_bare_decode (id : String) :
    decodeCursor refCodec (demoBareCursor id) =
      .ok (Cursor_builder.Build { PrimaryId := some id }) := by
  obtain ⟨buf, h1, -, h3⟩ := refCodec_roundtrip (Cursor_builder.Build { PrimaryId := some id })
  have : buf = demoBareCursor id := by
    simp only [refCodec, Except.ok.injEq] at h1
    rw [← h1]
    rfl
  subst this
  simp [decodeCursor, h3, Res.wrapErr, Res.ofExcept]

/-- A cursor that decodes without an order value makes the plan builder panic. -/
theorem paginate_panic (pb : ProtoCodec) (inp : ListInput) (t : String) (c : Cursor)
    (hc : inp.HasCursor = true) (hd : decodeCursor pb inp.GetCursor = .ok c)
    (hv : c.hasOrderValue = false) :
    PaginateSelectMods pb inp t =
      .panic (.explicit ("unsupported or unset order_value in cursor: " ++ c.fmtNoOrder)) := by
  have hp : c.OrderValue =
      .panic (.explicit ("unsupported or unset order_value in cursor: " ++ c.fmtNoOrder)) := by
    have e : ∀ {α : Type} (o : Option α), o.isSome = false → o = none := by
      intro α o h
      cases o <;> simp_all
    simp only [Cursor.hasOrderValue, Bool.or_eq_false_iff] at hv
    obtain ⟨⟨⟨⟨⟨⟨⟨⟨⟨⟨h1, h2⟩, h3⟩, h4⟩, h5⟩, h6⟩, h7⟩, h8⟩, h9⟩, h10⟩, h11⟩ := hv
    simp [Cursor.OrderValue, e _ h1, e _ h2, e _ h3, e _ h4, e _ h5, e _ h6, e _ h7, e _ h8,
      e _ h9, e _ h10, e _ h11]
  unfold PaginateSelectMods
  simp [hc, hd, hp, Res.bind]

/-! ## The batch reconciler -/

theorem IsOneNotFound_of_ne (actual expected : List String)
    (h : actual.length ≠ expected.length) :
    IsOneNotFound actual expected =
      some ⟨some ConnectCode.notFound, "could not find id(s): " ++
        ",".intercalate (expected.filter fun id => !actual.contains id)⟩ := by
  simp [IsOneNotFound, h, GoError.connect, GoError.errorf]

theorem IsOneNotFound_of_eq (actual expected : List String)
    (h : actual.length = expected.length) : IsOneNotFound actual expected = none := by
  simp [IsOneNotFound, h]

/-- The found ids are the ids of the rows that are not archived, or of all rows when
archived rows are considered. -/
theorem foundIDs_eq {T : Type} (GetID : T → String) (GetArchivedAt : T → Option GoTime)
    (rows : List T) (ca : Bool) :
    foundIDs GetID GetArchivedAt rows ca =
      (rows.filter fun r => (GetArchivedAt r).isNone || ca).map GetID := by
  induction rows with
  | nil => rfl
  | cons r rs ih =>
    unfold foundIDs at ih ⊢
    cases h : GetArchivedAt r <;> cases ca <;>
      simp_all [List.filterMap_cons, List.filter_cons]

/-- Distinct found ids that are all requested and miss a requested id are fewer than
the requested ids. -/
theorem length_ne_of_missing (found ids : List String) (hnd : found.Nodup)
    (hsub : ∀ id ∈ found, id ∈ ids) (hmiss : ∃ id ∈ ids, id ∉ found) :
    found.length ≠ ids.length := by
  intro h
  have hsp : found.Subperm ids := List.subperm_of_subset hnd hsub
  have hp : found.Perm ids := hsp.perm_of_length_le (le_of_eq h.symm)
  obtain ⟨id, hid, hn⟩ := hmiss
  exact hn (hp.mem_iff.mpr hid)

theorem RowsToItems_not_found {T IT : Type} (GetID : T → String)
    (GetArchivedAt : T → Option GoTime) (ids : List String) (rows : List T) (ca : Bool)
    (mapf : T → Except GoError IT)
    (h : (foundIDs GetID GetArchivedAt rows ca).length ≠ ids.length) :
    RowsToItems GetID GetArchivedAt ids rows ca mapf =
      ([], some ⟨some ConnectCode.notFound, "could not find id(s): " ++
        ",".intercalate
          (ids.filter fun id => !(foundIDs GetID GetArchivedAt rows ca).contains id)⟩) := by
  simp only [RowsToItems, IsOneNotFound_of_ne _ _ h]

theorem mapRowsOf_ok {T IT : Type} (GetID : T → String) (mapf : T → Except GoError IT)
    (f : T → IT) (id : String) (rows : List T) (hmap : ∀ r ∈ rows, mapf r = .ok (f r))
    (acc : List IT × Option GoError) :
    mapRowsOf GetID mapf id rows acc =
      (acc.1 ++ (rows.filter fun r => GetID r = id).map f, acc.2) := by
  unfold mapRowsOf
  induction rows generalizing acc with
  | nil => simp
  | cons r rs ih =>
    rw [List.foldl_cons, ih (fun x hx => hmap x (List.mem_cons_of_mem _ hx))]
    by_cases hr : GetID r = id
    · simp [hr, hmap r (List.mem_cons_self _ _)]
    · simp [hr]

theorem RowsToItems_ok {T IT : Type} (GetID : T → String) (GetArchivedAt : T → Option GoTime)
    (ids : List String) (rows : List T) (ca : Bool) (mapf : T → Except GoError IT) (f : T → IT)
    (hmap : ∀ r ∈ rows, mapf r = .ok (f r))
    (h : (foundIDs GetID GetArchivedAt rows ca).length = ids.length) :
    RowsToItems GetID GetArchivedAt ids rows ca mapf =
      (ids.flatMap fun id => (rows.filter fun r => GetID r = id).map f, none) := by
  simp only [RowsToItems, IsOneNotFound_of_eq _ _ h]
  have key : ∀ (l : List String) (acc : List IT × Option GoError),
      l.foldl (fun acc id => mapRowsOf GetID mapf id rows acc) acc =
        (acc.1 ++ l.flatMap fun id => (rows.filter fun r => GetID r = id).map f, acc.2) := by
    intro l
    induction l with
    | nil => simp
    | cons a l ih =>
      intro acc
      rw [List.foldl_cons, mapRowsOf_ok GetID mapf f a rows hmap, ih]
      simp [List.flatMap_cons]
  rw [key]
  simp

/-- Among rows with distinct ids, the rows with the id of a given row are that row. -/
theorem filter_unique {T : Type} (GetID : T → String) (rows : List T)
    (hnd : (rows.map GetID).Nodup) (r : T) (hr : r ∈ rows) :
    (rows.filter fun x => GetID x = GetID r) = [r] := by
  induction rows with
  | nil => cases hr
  | cons a l ih =>
    simp only [List.map_cons, List.nodup_cons, List.mem_map, not_exists, not_and] at hnd
    rcases List.mem_cons.mp hr with rfl | hl
    · have : (l.filter fun x => GetID x = GetID r) = [] := by
        rw [List.filter_eq_nil_iff]
        intro x hx
        simpa using hnd.1 x hx
      simp [List.filter_cons, this]
    · have hne : GetID a ≠ GetID r := fun h => hnd.1 r hl h.symm
      simp [List.filter_cons, hne, ih hnd.2 hl]

/-- The rows picked for the requested ids, in request order. -/
theorem select_rows {T : Type} (GetID : T → String) (rows : List T)
    (hnd : (rows.map GetID).Nodup) (l : List String) (hl : ∀ id ∈ l, id ∈ rows.map GetID) :
    (l.flatMap fun id => rows.filter fun r => GetID r = id).map GetID = l ∧
    ∀ r ∈ (l.flatMap fun id => rows.filter fun r => GetID r = id), r ∈ rows := by
  constructor
  · induction l with
    | nil => rfl
    | cons a l ih =>
      obtain ⟨r, hr, hra⟩ := List.mem_map.mp (hl a (List.mem_cons_self _ _))
      have h1 := filter_unique GetID rows hnd r hr
      rw [hra] at h1
      rw [List.flatMap_cons, List.map_append, h1, ih fun id hid => hl id (List.mem_cons_of_mem _ hid)]
      simp [hra]
  · intro r hr
    obtain ⟨id, -, hrid⟩ := List.mem_flatMap.mp hr
    exact List.mem_of_mem_filter hrid

/-- Rows with distinct ids give the same selection in any order. -/
theorem select_rows_perm {T : Type} (GetID : T → String) (rows rows2 : List T)
    (hnd : (rows.map GetID).Nodup) (hp : rows2.Perm rows) (l : List String)
    (hl : ∀ id ∈ l, id ∈ rows.map GetID) :
    (l.flatMap fun id => rows2.filter fun r => GetID r = id) =
      l.flatMap fun id => rows.filter fun r => GetID r = id := by
  induction l with
  | nil => rfl
  | cons a l ih =>
    obtain ⟨r, hr, hra⟩ := List.mem_map.mp (hl a (List.mem_cons_self _ _))
    have h1 := filter_unique GetID rows hnd r hr
    rw [hra] at h1
    have h2 : (rows2.filter fun x => GetID x = a) = [r] := by
      have := hp.filter (fun x => decide (GetID x = a))
      rw [h1] at this
      exact List.perm_singleton.mp this
    rw [List.flatMap_cons, List.flatMap_cons, h1, h2,
      ih fun id hid => hl id (List.mem_cons_of_mem _ hid)]

theorem foundIDs_all {T : Type} (GetID : T → String) (GetArchivedAt : T → Option GoTime)
    (rows : List T) (ca : Bool) (hfound : ∀ r ∈ rows, GetArchivedAt r = none ∨ ca = true) :
    foundIDs GetID GetArchivedAt rows ca = rows.map GetID := by
  rw [foundIDs_eq]
  congr 1
  rw [List.filter_eq_self]
  intro r hr
  rcases hfound r hr with h | h <;> simp [h]

theorem intercalate_singleton (s a : String) : s.intercalate [a] = a := by
  simp [String.intercalate, String.intercalate.go]

/-! ## Further facts on the plan -/

/-- With a cursor that decodes and carries an order value the plan builder succeeds. -/
theorem paginate_of_cursor (pb : ProtoCodec) (inp : ListInput) (t : String) (c : Cursor)
    (v : GoValue) (hc : inp.HasCursor = true) (hd : decodeCursor pb inp.GetCursor = .ok c)
    (hv : c.OrderValue = .ok v) : ∃ plan, PaginateSelectMods pb inp t = .ok plan := by
  unfold PaginateSelectMods
  simp only [hc, hd, hv, if_true, Res.bind]
  exact ⟨_, rfl⟩

/-- The columns, limit and table of a plan. -/
theorem paginate_parts (pb : ProtoCodec) (inp : ListInput) (t : String)
    (plan : List Mod × (List RowMap → Res PageResult))
    (h : PaginateSelectMods pb inp t = .ok plan) :
    selectedColumns plan.1 = ["id", planSortCol inp] ∧
    (orderSpecs plan.1).map Prod.fst = [planSortCol inp, "id"] ∧
    planLimit plan.1 = some (wrapInt32 (planPageSize inp + 1)) ∧
    fromTables plan.1 = [t ++ if inp.GetShowArchived then "_archived" else "_live"] := by
  rcases paginate_mods pb inp t plan h with ⟨-, hm⟩ | ⟨-, c, v, -, -, hm⟩
  · rw [hm]
    simp [selectedColumns, orderSpecs, planLimit, fromTables]
  · rw [hm]
    cases xor inp.GetSortDesc c.GetIsBackwards <;>
      simp [selectedColumns, orderSpecs, planLimit, fromTables]

theorem wrapInt32_small (x : Int) (h1 : -2 ^ 31 ≤ x) (h2 : x < 2 ^ 31) : wrapInt32 x = x :=
  wrapInt32_of_in x ⟨h1, h2⟩

/-! ## Cursors of a page carry one order value -/

theorem newCursor_orderCount (id : String) (v : GoValue) (b : Bool) (c : Cursor)
    (h : NewCursor id v b = .ok c) : c.orderCount = 1 ∧ c.hasOrderValue = true := by
  cases v <;> simp only [NewCursor, Res.ok.injEq] at h <;> first
    | (subst h; exact ⟨rfl, rfl⟩)
    | cases h

/-- With a lawful codec an emitted cursor decodes to a cursor with exactly one order
value and the id of its row. -/
theorem mapEncodeCursor_decode_count (pb : ProtoCodec) (hpb : pb.Lawful) (row : RowMap)
    (sortCol : String) (b : Bool) (buf : Bytes)
    (h : mapEncodeCursor pb row sortCol b = .ok buf) :
    buf ≠ [] ∧ ∃ c, decodeCursor pb buf = .ok c ∧ c.orderCount = 1 ∧
      c.hasOrderValue = true ∧ (∃ v, c.OrderValue = .ok v) ∧ c.GetPrimaryId = rowIdOf row := by
  obtain ⟨hne, c, hd, hid, -, ⟨w, hw, -⟩, -⟩ :=
    mapEncodeCursor_ok_decode pb hpb row sortCol b buf h
  obtain ⟨id, v, c1, -, -, hc1, hm⟩ := mapEncodeCursor_ok_inv pb row sortCol b buf h
  obtain ⟨buf1, hm1, -, hun⟩ := hpb id v b c1 hc1
  rw [hm] at hm1
  simp only [Except.ok.injEq] at hm1
  subst hm1
  have hcc : c = c1 := by
    simp only [decodeCursor, hun, Res.ofExcept, Res.wrapErr, Res.ok.injEq] at hd
    exact hd.symm
  subst hcc
  obtain ⟨h1, h2⟩ := newCursor_orderCount id v b c hc1
  exact ⟨hne, c, hd, h1, h2, ⟨w, hw⟩, hid⟩

/-- The rows a non-empty cursor of a page was built from: a row that is kept. -/
theorem reconcileCursors_source (pb : ProtoCodec) (sortCol : String) (bw hc hm : Bool)
    (kept : List RowMap) (n p : Bytes) (rs : List RowMap)
    (h : reconcileCursors pb sortCol bw hc hm kept = .ok (n, p, rs)) :
    (n ≠ [] → ∃ row ∈ kept, mapEncodeCursor pb row sortCol false = .ok n) ∧
    (p ≠ [] → ∃ row ∈ kept, mapEncodeCursor pb row sortCol true = .ok p) := by
  obtain ⟨-, hnil, hcur⟩ := reconcileCursors_inv pb sortCol bw hc hm kept n p rs h
  cases kept with
  | nil =>
    obtain ⟨h1, h2⟩ := hnil rfl
    exact ⟨fun hn => absurd h1 hn, fun hp => absurd h2 hp⟩
  | cons a l =>
    have hl : ∃ x, (a :: l).getLast? = some x := by
      cases hx : (a :: l).getLast? with
      | none => simp [List.getLast?_eq_none_iff] at hx
      | some x => exact ⟨x, rfl⟩
    obtain ⟨x, hx⟩ := hl
    have hxm : x ∈ a :: l := List.mem_of_getLast?_eq_some hx
    obtain ⟨hb, hf⟩ := hcur a x rfl hx
    cases bw with
    | true =>
      obtain ⟨h1, h2, h3⟩ := hb rfl
      refine ⟨fun _ => ⟨a, List.mem_cons_self _ _, h1⟩, fun hp => ?_⟩
      cases hm with
      | true => exact ⟨x, hxm, h2 rfl⟩
      | false => exact absurd (h3 rfl) hp
    | false =>
      obtain ⟨h1, h2, h3, h4⟩ := hf rfl
      constructor
      · intro hn
        cases hm with
        | true => exact ⟨x, hxm, h1 rfl⟩
        | false => exact absurd (h2 rfl) hn
      · intro hp
        cases hc with
        | true => exact ⟨a, List.mem_cons_self _ _, h3 rfl⟩
        | false => exact absurd (h4 rfl) hp

/-! ## Mapping errors of the batch reconciler -/

theorem errorsJoin_some (a : Option GoError) (e : GoError) :
    ∃ x, errorsJoin a (some e) = some x := by
  cases a <;> exact ⟨_, rfl⟩

theorem foldl_join_some (errs : List GoError) (a : GoError) :
    ∃ x, errs.foldl (fun acc e => errorsJoin acc (some e)) (some a) = some x := by
  induction errs generalizing a with
  | nil => exact ⟨a, rfl⟩
  | cons e l ih =>
    obtain ⟨x, hx⟩ := errorsJoin_some (some a) e
    rw [List.foldl_cons, hx]
    exact ih x

theorem joinAll_eq_none (errs : List GoError) : joinAll errs = none ↔ errs = [] := by
  cases errs with
  | nil => simp [joinAll]
  | cons e l =>
    obtain ⟨x, hx⟩ := errorsJoin_some none e
    obtain ⟨y, hy⟩ := foldl_join_some l x
    simp [joinAll, List.foldl_cons, hx, hy]

/-- The inner loop of `RowsToItems`: the items of the matching rows are appended and
their errors joined, in fetch order. -/
theorem mapRowsOf_eq {T IT : Type} (GetID : T → String) (mapf : T → Except GoError IT)
    (id : String) (rows : List T) (acc : List IT × Option GoError) :
    mapRowsOf GetID mapf id rows acc =
      (acc.1 ++ mappedItems mapf (rows.filter fun r => GetID r = id),
        (mappingErrors mapf (rows.filter fun r => GetID r = id)).foldl
          (fun acc e => errorsJoin acc (some e)) acc.2) := by
  unfold mapRowsOf
  induction rows generalizing acc with
  | nil => simp [mappedItems, mappingErrors]
  | cons r rs ih =>
    rw [List.foldl_cons, ih]
    by_cases hr : GetID r = id
    · cases hm : mapf r <;>
        simp [hr, hm, mappedItems, mappingErrors, List.filter_cons, List.filterMap_cons]
    · simp [hr, List.filter_cons]

/-- The outcome of `RowsToItems` when the not-found check passes. -/
theorem RowsToItems_pass {T IT : Type} (GetID : T → String) (GetArchivedAt : T → Option GoTime)
    (ids : List String) (rows : List T) (ca : Bool) (mapf : T → Except GoError IT)
    (h : IsOneNotFound (foundIDs GetID GetArchivedAt rows ca) ids = none) :
    RowsToItems GetID GetArchivedAt ids rows ca mapf =
      (mappedItems mapf (matchingRows GetID ids rows),
        joinAll (mappingErrors mapf (matchingRows GetID ids rows))) := by
  simp only [RowsToItems, h]
  have key : ∀ (l : List String) (acc : List IT × Option GoError),
      l.foldl (fun acc id => mapRowsOf GetID mapf id rows acc) acc =
        (acc.1 ++ mappedItems mapf (matchingRows GetID l rows),
          (mappingErrors mapf (matchingRows GetID l rows)).foldl
            (fun acc e => errorsJoin acc (some e)) acc.2) := by
    intro l
    induction l with
    | nil => simp [matchingRows, mappedItems, mappingErrors]
    | cons a l ih =>
      intro acc
      rw [List.foldl_cons, mapRowsOf_eq, ih]
      simp [matchingRows, mappedItems, mappingErrors, List.flatMap_cons, List.filterMap_append,
        List.foldl_append]
  rw [key]
  simp [joinAll]

theorem mapped_length {T IT : Type} (mapf : T → Except GoError IT) (visited : List T) :
    (mappedItems mapf visited).length + (mappingErrors mapf visited).length =
      visited.length := by
  induction visited with
  | nil => rfl
  | cons r l ih =>
    cases hm : mapf r <;>
      simp [mappedItems, mappingErrors, List.filterMap_cons, hm] at ih ⊢ <;> omega

theorem mappingErrors_nil {T IT : Type} (mapf : T → Except GoError IT) (visited : List T) :
    mappingErrors mapf visited = [] ↔ ∀ r ∈ visited, ∃ x, mapf r = Except.ok x := by
  induction visited with
  | nil => simp [mappingErrors]
  | cons r l ih =>
    cases hm : mapf r <;>
      simp [mappingErrors, List.filterMap_cons, hm] at ih ⊢
    exact ih

theorem foundIDs_sublist {T : Type} (GetID : T → String) (GetArchivedAt : T → Option GoTime)
    (rows : List T) (ca : Bool) :
    (foundIDs GetID GetArchivedAt rows ca).Sublist (rows.map GetID) := by
  rw [foundIDs_eq]
  exact List.Sublist.map _ (List.filter_sublist _)

/-- Rows with distinct ids whose found ids are requested and as many as the requested
ids give one item per requested id when every mapping succeeds. -/
theorem RowsToItems_full {T IT : Type} (GetID : T → String) (GetArchivedAt : T → Option GoTime)
    (ids : List String) (rows : List T) (ca : Bool) (mapf : T → Except GoError IT) (f : T → IT)
    (hnd : (rows.map GetID).Nodup)
    (hsub : ∀ id ∈ foundIDs GetID GetArchivedAt rows ca, id ∈ ids)
    (hmap : ∀ r, mapf r = .ok (f r))
    (hlen : (foundIDs GetID GetArchivedAt rows ca).length = ids.length) :
    RowsToItems GetID GetArchivedAt ids rows ca mapf = ((matchingRows GetID ids rows).map f, none) ∧
    (matchingRows GetID ids rows).map GetID = ids := by
  have hsl := foundIDs_sublist GetID GetArchivedAt rows ca
  have hfnd : (foundIDs GetID GetArchivedAt rows ca).Nodup := hnd.sublist hsl
  have hp : (foundIDs GetID GetArchivedAt rows ca).Perm ids :=
    (List.subperm_of_subset hfnd hsub).perm_of_length_le (le_of_eq hlen.symm)
  have hl : ∀ id ∈ ids, id ∈ rows.map GetID := fun id hid => hsl.subset (hp.mem_iff.mpr hid)
  obtain ⟨h1, -⟩ := select_rows GetID rows hnd ids hl
  refine ⟨?_, h1⟩
  rw [RowsToItems_ok GetID GetArchivedAt ids rows ca mapf f (fun r _ => hmap r) hlen,
    matchingRows, List.map_flatMap]

/-! ## Per-item dispatch -/

theorem appendErr_some (id : String) (err : Option GoError) (o : OpError) :
    appendErr id err (some o) = errorsJoin err (some (itemError id o)) := by
  simp only [appendErr, itemError]
  cases o.isNoRows <;> rfl

/-- The loop of `ModifyPerItem` from any point: the errors of the processed items are
joined to the error so far, in order. -/
theorem modify_fold {IIT σ : Type} (GetId : IIT → String) (GetPaths : IIT → List String)
    (IsValid : IIT → Bool) (f : IIT → σ → Option OpError × σ) (items : List IIT)
    (err : Option GoError) (tx : σ) :
    items.foldl (fun st item =>
      if (GetPaths item).length < 1 then st
      else if !IsValid item then
        (appendErr (GetId item) st.1 (some (invalidMask (GetPaths item))), st.2)
      else
        let r := f item st.2
        (appendErr (GetId item) st.1 r.1, r.2)) (err, tx) =
      ((reportedErrors GetId (modifyTrace GetPaths IsValid f items tx).1).foldl
          (fun acc e => errorsJoin acc (some e)) err,
        (modifyTrace GetPaths IsValid f items tx).2) := by
  induction items generalizing err tx with
  | nil => rfl
  | cons item rest ih =>
    rw [List.foldl_cons]
    by_cases hp : (GetPaths item).length < 1
    · simp only [hp, if_true, modifyTrace]
      exact ih err tx
    · by_cases hv : IsValid item = true
      · simp only [hp, if_false, hv, Bool.not_true, Bool.false_eq_true, modifyTrace]
        rw [ih]
        cases ho : (f item tx).1 with
        | none => simp [reportedErrors, List.filterMap_cons, ho, appendErr]
        | some o => simp [reportedErrors, List.filterMap_cons, ho, appendErr_some]
      · simp only [Bool.not_eq_true] at hv
        simp only [hp, if_false, hv, Bool.not_false, if_true, modifyTrace]
        rw [ih]
        simp [reportedErrors, List.filterMap_cons, appendErr_some]

theorem modifyTrace_items {IIT σ : Type} (GetPaths : IIT → List String) (IsValid : IIT → Bool)
    (f : IIT → σ → Option OpError × σ) (items : List IIT) (tx : σ) :
    (modifyTrace GetPaths IsValid f items tx).1.map Prod.fst =
      items.filter fun item => decide (1 ≤ (GetPaths item).length) := by
  induction items generalizing tx with
  | nil => rfl
  | cons item rest ih =>
    by_cases hp : (GetPaths item).length < 1
    · have hq : ¬ 1 ≤ (GetPaths item).length := by omega
      simp [modifyTrace, hp, List.filter_cons, hq, ih]
    · have hq : 1 ≤ (GetPaths item).length := by omega
      cases hv : IsValid item <;> simp [modifyTrace, hp, hv, List.filter_cons, hq, ih]

theorem modifyTrace_state {IIT σ : Type} (GetPaths : IIT → List String) (IsValid : IIT → Bool)
    (f : IIT → σ → Option OpError × σ) (items : List IIT) (tx : σ) :
    (modifyTrace GetPaths IsValid f items tx).2 =
      (items.filter fun item => decide (1 ≤ (GetPaths item).length) && IsValid item).foldl
        (fun s item => (f item s).2) tx := by
  induction items generalizing tx with
  | nil => rfl
  | cons item rest ih =>
    by_cases hp : (GetPaths item).length < 1
    · have hq : ¬ 1 ≤ (GetPaths item).length := by omega
      simp [modifyTrace, hp, List.filter_cons, hq, ih]
    · have hq : 1 ≤ (GetPaths item).length := by omega
      cases hv : IsValid item <;> simp [modifyTrace, hp, hv, List.filter_cons, hq, ih]

theorem reportedErrors_nil {IIT : Type} (GetId : IIT → String)
    (trace : List (IIT × Option OpError)) :
    reportedErrors GetId trace = [] ↔ ∀ p ∈ trace, p.2 = none := by
  induction trace with
  | nil => simp [reportedErrors]
  | cons p l ih =>
    cases hp : p.2 <;> simp [reportedErrors, List.filterMap_cons, hp] at ih ⊢

theorem reportedErrors_mem {IIT : Type} (GetId : IIT → String)
    (trace : List (IIT × Option OpError)) (p : IIT × Option OpError) (o : OpError)
    (hp : p ∈ trace) (ho : p.2 = some o) :
    itemError (GetId p.1) o ∈ reportedErrors GetId trace := by
  unfold reportedErrors
  rw [List.mem_filterMap]
  exact ⟨p, hp, by simp [ho]⟩

/-! ## Outcomes of the page reconciler -/

/-- With a lawful codec, `mapEncodeCursor` succeeds on a row with a string id and a
supported sort value and returns an error on every other row whose sort value is not
of Go's type int. -/
theorem mapEncodeCursor_outcome (pb : ProtoCodec) (hpb : pb.Lawful) (row : RowMap)
    (sortCol : String) (b : Bool) (hint : ∀ n, row.lookup sortCol ≠ some (GoValue.int n)) :
    (FetchedRowOk sortCol row ∧ ∃ buf, mapEncodeCursor pb row sortCol b = .ok buf) ∨
    (¬ FetchedRowOk sortCol row ∧ ∃ e, mapEncodeCursor pb row sortCol b = .err e) := by
  by_cases hok : FetchedRowOk sortCol row
  · exact Or.inl ⟨hok, mapEncodeCursor_ok pb hpb row sortCol b hok⟩
  · refine Or.inr ⟨hok, ?_⟩
    unfold mapEncodeCursor
    cases hv : row.lookup sortCol with
    | none => exact ⟨_, rfl⟩
    | some v =>
      simp only
      cases hid : getRowID row with
      | panic p => exact absurd hid (getRowID_not_panic row p)
      | err e => exact ⟨_, rfl⟩
      | ok id =>
        have hsid := (getRowID_ok row id hid).1
        have hns : v.isSupported = false := by
          cases hs : v.isSupported with
          | false => rfl
          | true => exact absurd ⟨⟨id, hsid⟩, v, hv, hs⟩ hok
        cases v with
        | int n => exact absurd hv (hint n)
        | nil => exact ⟨_, rfl⟩
        | other a t => exact ⟨_, rfl⟩
        | _ => simp [GoValue.isSupported] at hns

theorem rowIDs_ok_inv (rows : List RowMap) (ids : List String) (h : rowIDs rows = .ok ids) :
    ∀ r ∈ rows, ∃ id, r.lookup "id" = some (GoValue.str id) := by
  induction rows generalizing ids with
  | nil => simp
  | cons a l ih =>
    unfold rowIDs at h
    obtain ⟨id, h1, h2⟩ := (Res.bind_eq_ok _ _ _).mp h
    obtain ⟨ids1, h3, -⟩ := (Res.bind_eq_ok _ _ _).mp h2
    intro r hr
    rcases List.mem_cons.mp hr with rfl | hl
    · exact ⟨id, (getRowID_ok _ id ((Res.wrapErr_eq_ok _ _ _).mp h1)).1⟩
    · exact ih ids1 h3 r hl

/-- The final loop returns the ids or an error: an error exactly when some row has no
string id. -/
theorem rowIDs_outcome (rows : List RowMap) :
    ((∀ r ∈ rows, ∃ id, r.lookup "id" = some (GoValue.str id)) ∧
      rowIDs rows = .ok (rows.map rowIdOf)) ∨
    ((∃ r ∈ rows, ¬ ∃ id, r.lookup "id" = some (GoValue.str id)) ∧
      ∃ e, rowIDs rows = .err e) := by
  by_cases h : ∀ r ∈ rows, ∃ id, r.lookup "id" = some (GoValue.str id)
  · exact Or.inl ⟨h, rowIDs_ok rows h⟩
  · refine Or.inr ⟨?_, ?_⟩
    · by_contra hc
      exact h fun r hr => by_contra fun hn => hc ⟨r, hr, hn⟩
    cases hr : rowIDs rows with
    | ok ids => exact absurd (rowIDs_ok_inv rows ids hr) h
    | err e => exact ⟨e, rfl⟩
    | panic p => exact absurd hr (rowIDs_not_panic rows p)

theorem cursorRowsOf_subset (bw hc hm : Bool) (kept : List RowMap) :
    ∀ r ∈ cursorRowsOf bw hc hm kept, r ∈ kept := by
  intro r hr
  unfold cursorRowsOf at hr
  cases kept with
  | nil => simp at hr
  | cons a l =>
    have hl : ∃ x, (a :: l).getLast? = some x := by
      cases hx : (a :: l).getLast? with
      | none => simp [List.getLast?_eq_none_iff] at hx
      | some x => exact ⟨x, rfl⟩
    obtain ⟨x, hx⟩ := hl
    have hxm : x ∈ a :: l := List.mem_of_getLast?_eq_some hx
    rw [hx] at hr
    simp only [List.head?_cons] at hr
    cases bw <;> cases hm <;> cases hc <;> simp at hr <;> aesop

/-- With a lawful codec and no cursor row with a sort value of Go's type int, the
cursor part of the reconciler succeeds when every cursor row has a string id and a
supported sort value, and returns an error otherwise. -/
theorem reconcileCursors_outcome (pb : ProtoCodec) (hpb : pb.Lawful) (sortCol : String)
    (bw hc hm : Bool) (kept : List RowMap)
    (hint : ∀ r ∈ cursorRowsOf bw hc hm kept, ∀ n, r.lookup sortCol ≠ some (GoValue.int n)) :
    ((∀ r ∈ cursorRowsOf bw hc hm kept, FetchedRowOk sortCol r) ∧
      ∃ n p, reconcileCursors pb sortCol bw hc hm kept =
        .ok (n, p, if bw then kept.reverse else kept)) ∨
    ((∃ r ∈ cursorRowsOf bw hc hm kept, ¬ FetchedRowOk sortCol r) ∧
      ∃ e, reconcileCursors pb sortCol bw hc hm kept = .err e) := by
  cases kept with
  | nil =>
    left
    refine ⟨by simp [cursorRowsOf], [], [], ?_⟩
    cases bw <;> simp [reconcileCursors]
  | cons a l =>
    have hl : ∃ x, (a :: l).getLast? = some x := by
      cases hx : (a :: l).getLast? with
      | none => simp [List.getLast?_eq_none_iff] at hx
      | some x => exact ⟨x, rfl⟩
    obtain ⟨x, hx⟩ := hl
    have hrows : cursorRowsOf bw hc hm (a :: l) =
        if bw then a :: (if hm then [x] else [])
        else (if hm then [x] else []) ++ (if hc then [a] else []) := by
      simp [cursorRowsOf, hx]
    rw [hrows] at hint ⊢
    cases bw with
    | true =>
      simp only [if_true] at hint ⊢
      rcases mapEncodeCursor_outcome pb hpb a sortCol false
        (hint a (List.mem_cons_self _ _)) with ⟨ha, n, hn⟩ | ⟨ha, e, he⟩
      · cases hm with
        | false =>
          left
          refine ⟨by simpa using ha, n, [], ?_⟩
          simp [reconcileCursors, hx, hn, Res.wrapErr, Res.bind]
        | true =>
          rcases mapEncodeCursor_outcome pb hpb x sortCol true
            (hint x (by simp)) with ⟨hxo, p, hp⟩ | ⟨hxo, e, he⟩
          · left
            refine ⟨by simpa using ⟨ha, hxo⟩, n, p, ?_⟩
            simp [reconcileCursors, hx, hn, hp, Res.wrapErr, Res.bind]
          · right
            refine ⟨⟨x, by simp, hxo⟩, ?_⟩
            simp [reconcileCursors, hx, hn, he, Res.wrapErr, Res.bind]
      · right
        refine ⟨⟨a, List.mem_cons_self _ _, ha⟩, ?_⟩
        simp [reconcileCursors, hx, he, Res.wrapErr, Res.bind]
    | false =>
      simp only [Bool.false_eq_true, if_false] at hint ⊢
      cases hm with
      | true =>
        rcases mapEncodeCursor_outcome pb hpb x sortCol false
          (hint x (by simp)) with ⟨hxo, n, hn⟩ | ⟨hxo, e, he⟩
        · cases hc with
          | false =>
            left
            refine ⟨by simpa using hxo, n, [], ?_⟩
            simp [reconcileCursors, hx, hn, Res.wrapErr, Res.bind]
          | true =>
            rcases mapEncodeCursor_outcome pb hpb a sortCol true
              (hint a (by simp)) with ⟨ha, p, hp⟩ | ⟨ha, e, he⟩
            · left
              refine ⟨by simpa using ⟨hxo, ha⟩, n, p, ?_⟩
              simp [reconcileCursors, hx, hn, hp, Res.wrapErr, Res.bind]
            · right
              refine ⟨⟨a, by simp, ha⟩, ?_⟩
              simp [reconcileCursors, hx, hn, he, Res.wrapErr, Res.bind]
        · right
          refine ⟨⟨x, by simp, hxo⟩, ?_⟩
          simp [reconcileCursors, hx, he, Res.wrapErr, Res.bind]
      | false =>
        cases hc with
        | false =>
          left
          refine ⟨by simp, [], [], ?_⟩
          simp [reconcileCursors, hx, Res.bind]
        | true =>
          rcases mapEncodeCursor_outcome pb hpb a sortCol true
            (hint a (by simp)) with ⟨ha, p, hp⟩ | ⟨ha, e, he⟩
          · left
            refine ⟨by simpa using ha, [], p, ?_⟩
            simp [reconcileCursors, hx, hp, Res.wrapErr, Res.bind]
          · right
            refine ⟨⟨a, by simp, ha⟩, ?_⟩
            simp [reconcileCursors, hx, he, Res.wrapErr, Res.bind]

/-- With a lawful codec and no cursor row with a sort value of Go's type int, the
reconciler after the sentinel step returns a page when every kept row has a string id
and every cursor row a supported sort value, and an error otherwise. -/
theorem reconcileTail_outcome (pb : ProtoCodec) (hpb : pb.Lawful) (sortCol : String)
    (bw hc hm : Bool) (kept : List RowMap)
    (hint : ∀ r ∈ cursorRowsOf bw hc hm kept, ∀ n, r.lookup sortCol ≠ some (GoValue.int n)) :
    ((∀ r ∈ kept, ∃ id, r.lookup "id" = some (GoValue.str id)) ∧
      (∀ r ∈ cursorRowsOf bw hc hm kept,
        ∃ v, r.lookup sortCol = some v ∧ v.isSupported = true) ∧
      ∃ page, reconcileTail pb sortCol bw hc hm kept = .ok page) ∨
    (((∃ r ∈ kept, ¬ ∃ id, r.lookup "id" = some (GoValue.str id)) ∨
        (∃ r ∈ cursorRowsOf bw hc hm kept,
          ¬ ∃ v, r.lookup sortCol = some v ∧ v.isSupported = true)) ∧
      ∃ e, reconcileTail pb sortCol bw hc hm kept = .err e) := by
  have hkept : ∀ r, r ∈ (if bw then kept.reverse else kept) ↔ r ∈ kept := by
    intro r
    cases bw <;> simp
  rcases reconcileCursors_outcome pb hpb sortCol bw hc hm kept hint with
    ⟨hP, n, p, hcur⟩ | ⟨⟨r, hr, hn⟩, e, he⟩
  · rcases rowIDs_outcome (if bw then kept.reverse else kept) with
      ⟨hQ, hids⟩ | ⟨⟨r, hr, hn⟩, e, he⟩
    · left
      refine ⟨fun r hr => hQ r ((hkept r).mpr hr), fun r hr => (hP r hr).2, ?_⟩
      simp [reconcileTail, hcur, hids, Res.bind]
    · right
      refine ⟨Or.inl ⟨r, (hkept r).mp hr, hn⟩, ?_⟩
      simp [reconcileTail, hcur, he, Res.bind]
  · right
    constructor
    · by_cases hid : ∃ id, r.lookup "id" = some (GoValue.str id)
      · exact Or.inr ⟨r, hr, fun hv => hn ⟨hid, hv⟩⟩
      · exact Or.inl ⟨r, cursorRowsOf_subset bw hc hm kept r hr, hid⟩
    · simp [reconcileTail, he, Res.bind]

theorem demo_mixed_cursor_rows :
    cursorRows (planPageSize (demoInput 3 false)) (scanBackwards refCodec (demoInput 3 false))
      (demoInput 3 false).HasCursor demoMixedRows = [demoRow "c" 3] := by
  decide

theorem demo_mixed_no_int :
    ∀ r ∈ cursorRows (planPageSize (demoInput 3 false))
        (scanBackwards refCodec (demoInput 3 false)) (demoInput 3 false).HasCursor
        demoMixedRows,
      ∀ n, r.lookup (planSortCol (demoInput 3 false)) ≠ some (GoValue.int n) := by
  intro r hr n
  rw [demo_mixed_cursor_rows, List.mem_singleton] at hr
  subst hr
  simp [demoRow, planSortCol, demoInput, List.lookup]

theorem demo_mixed_ok :
    (∀ r ∈ stripSentinel demoMixedRows (planPageSize (demoInput 3 false)),
      ∃ id, r.lookup "id" = some (GoValue.str id)) ∧
    ∀ r ∈ cursorRows (planPageSize (demoInput 3 false))
        (scanBackwards refCodec (demoInput 3 false)) (demoInput 3 false).HasCursor
        demoMixedRows,
      ∃ v, r.lookup (planSortCol (demoInput 3 false)) = some v ∧ v.isSupported = true := by
  constructor
  · have hk : stripSentinel demoMixedRows (planPageSize (demoInput 3 false)) =
        [demoRow "a" 1, demoBareRow "b", demoRow "c" 3] := by decide
    rw [hk]
    intro r hr
    simp only [List.mem_cons, List.mem_singleton, List.not_mem_nil, or_false] at hr
    rcases hr with rfl | rfl | rfl <;> exact ⟨_, rfl⟩
  · intro r hr
    rw [demo_mixed_cursor_rows, List.mem_singleton] at hr
    subst hr
    exact ⟨_, rfl, rfl⟩

theorem Cursor.OrderValue_not_err (c : Cursor) (e : GoError) : c.OrderValue ≠ .err e := by
  intro h
  unfold Cursor.OrderValue at h
  iterate 11 (split at h <;> try simp at h)

/-- The plan builder returns an error exactly when the request carries a cursor that
the codec does not parse. -/
theorem paginate_err_iff (pb : ProtoCodec) (inp : ListInput) (t : String) :
    (∃ e, PaginateSelectMods pb inp t = .err e) ↔
      inp.HasCursor = true ∧ ∃ e, pb.Unmarshal inp.GetCursor = Except.error e := by
  unfold PaginateSelectMods
  cases hc : inp.HasCursor with
  | false => simp [Res.bind]
  | true =>
    simp only [if_true, true_and]
    cases hu : pb.Unmarshal inp.GetCursor with
    | error e => simp [decodeCursor, hu, Res.ofExcept, Res.wrapErr, Res.bind]
    | ok c =>
      simp only [decodeCursor, hu, Res.ofExcept, Res.wrapErr]
      cases hv : c.OrderValue with
      | err e => exact absurd hv (Cursor.OrderValue_not_err c e)
      | panic p => simp [Res.bind]
      | ok v => simp [Res.bind]

/-! ## The largest page size -/

/-- With the page size 2^31 - 1 the limit of the plan wraps to -2^31, no row is fetched
and the first page is empty, whatever the store. -/
theorem listPage_overflow {R : Type} [LinearOrder R] (pb : ProtoCodec) (rank : GoValue → R)
    (store : List RowMap) (t : String) (inp : ListInput) (hc : inp.HasCursor = false)
    (hp : planPageSize inp = 2 ^ 31 - 1) :
    listPage pb rank store t inp = .ok ⟨[], [], []⟩ := by
  obtain ⟨plan, hplan⟩ := paginate_no_cursor pb inp t hc
  have hrun : runQuery rank store plan.1 = [] := by
    have hl := (paginate_parts pb inp t plan hplan).2.2.1
    unfold runQuery
    rw [hl, hp]
    simp [wrapInt32]
  have hrec := paginate_reconciler pb inp t plan hplan
  unfold listPage
  rw [hplan]
  simp only [Res.bind]
  rw [hrun, hrec, hp]
  simp [reconcile, reconcileTail, reconcileCursors, rowIDs, Res.bind]

theorem walk_overflow {R : Type} [LinearOrder R] (pb : ProtoCodec) (rank : GoValue → R)
    (store : List RowMap) (t : String) (inp : ListInput) (hc : inp.HasCursor = false)
    (hp : planPageSize inp = 2 ^ 31 - 1) (fuel : Nat) :
    walkForward (listPage pb rank store t) inp (fuel + 1) [] = .ok [⟨[], [], []⟩] ∧
    walkBackward (listPage pb rank store t) inp (fuel + 1) [] = .ok [⟨[], [], []⟩] := by
  simp [walkForward, walkBackward, withCursor_nil, listPage_overflow pb rank store t inp hc hp,
    Res.bind]

theorem demoBigStore_length : demoBigStore.length = 2 ^ 31 := by
  simp [demoBigStore]

theorem demoBigStore_ok : StoreOk "created_at" demoBigStore := by
  constructor
  · intro r hr
    simp only [demoBigStore, List.mem_map, List.mem_range] at hr
    obtain ⟨i, hi, rfl⟩ := hr
    refine ⟨⟨String.mk (List.replicate i 'a'), by simp [demoRow, List.lookup]⟩,
      GoValue.int64 i, by simp [demoRow, List.lookup], rfl, ?_⟩
    simp only [GoValue.inRange, inInt64]
    constructor <;> omega
  · have hid : ∀ i : ℕ, rowIdOf (demoRow (String.mk (List.replicate i 'a')) i) =
        String.mk (List.replicate i 'a') := by
      intro i
      simp [rowIdOf, demoRow, List.lookup]
    simp only [demoBigStore, List.map_map]
    apply List.Nodup.map_on _ (List.nodup_range _)
    intro i _ j _ hij
    simp only [Function.comp, hid] at hij
    have := congrArg String.length hij
    simpa [String.length] using this

/-! ## A cursor of more than three hundred bytes -/

/-- The code of a list of at least two numbers is large: it squares with each further
element. -/
theorem encode_list_large (n : ℕ) : ∀ l : List ℕ, l.length = n + 2 →
    2 ^ 2 ^ n ≤ Encodable.encode l := by
  induction n with
  | zero =>
    intro l hl
    match l, hl with
    | [a, b], _ =>
      simp only [Encodable.encode_list_cons, Encodable.encode_list_nil]
      have := Nat.right_le_pair (Encodable.encode a) (Nat.succ (Nat.pair (Encodable.encode b) 0))
      simp only [pow_zero, pow_one]
      omega
  | succ n ih =>
    intro l hl
    match l, hl with
    | a :: rest, hl =>
      have hr : rest.length = n + 2 := by simpa using hl
      have h1 := ih rest hr
      rw [Encodable.encode_list_cons]
      have h2 := Nat.max_sq_add_min_le_pair (Encodable.encode a) (Encodable.encode rest)
      have h3 : Encodable.encode rest ^ 2 ≤
          (max (Encodable.encode a) (Encodable.encode rest)) ^ 2 :=
        Nat.pow_le_pow_left (le_max_right _ _) 2
      have h4 : (2 ^ 2 ^ n) ^ 2 ≤ Encodable.encode rest ^ 2 := Nat.pow_le_pow_left h1 2
      have h5 : (2 ^ 2 ^ n) ^ 2 = 2 ^ 2 ^ (n + 1) := by
        rw [← pow_mul, pow_succ]
      rw [← h5]
      omega

theorem encode_snd_le {α β : Type} [Encodable α] [Encodable β] (a : α) (b : β) :
    Encodable.encode b ≤ Encodable.encode (a, b) := by
  rw [Encodable.encode_prod_val]
  exact Nat.right_le_pair _ _

theorem encode_fst_le {α β : Type} [Encodable α] [Encodable β] (a : α) (b : β) :
    Encodable.encode a ≤ Encodable.encode (a, b) := by
  rw [Encodable.encode_prod_val]
  exact Nat.left_le_pair _ _

/-- Under the reference codec the cursor of a string order value of at least fourteen
characters has more than three hundred bytes. -/
theorem stringCursorBytes_length (id s : String) (b : Bool) (hs : 14 ≤ s.length) :
    300 < (stringCursorBytes id s b).length := by
  obtain ⟨m, hm⟩ : ∃ m : ℕ, m = 300 := ⟨_, rfl⟩
  rw [← hm]
  have hlen : (strCodes s).length = (s.length - 2) + 2 := by
    simp only [strCodes, List.length_map, String.length] at hs ⊢
    omega
  have h1 := encode_list_large (s.length - 2) (strCodes s) hlen
  have h2 : 8 * m ≤ 2 ^ (s.length - 2) := by
    have h12 : 2 ^ 12 ≤ 2 ^ (s.length - 2) := Nat.pow_le_pow_right (Nat.succ_pos 1) (by omega)
    omega
  have h3 : (256 : ℕ) ^ m ≤ 2 ^ 2 ^ (s.length - 2) :=
    calc (256 : ℕ) ^ m = (2 ^ 8) ^ m := by norm_num
      _ = 2 ^ (8 * m) := (pow_mul 2 8 m).symm
      _ ≤ 2 ^ 2 ^ (s.length - 2) := Nat.pow_le_pow_right (Nat.succ_pos 1) h2
  have h4 : Encodable.encode (strCodes s) ≤
      Encodable.encode (stringCursor id s b).toTuple := by
    simp only [stringCursor, Cursor.toTuple, Cursor.SetOrderString, Cursor_builder.Build,
      Option.map_some']
    refine le_trans ?_ (encode_snd_le _ _)
    refine le_trans ?_ (encode_snd_le _ _)
    refine le_trans ?_ (encode_fst_le _ _)
    rw [Encodable.encode_some]
    exact Nat.le_succ _
  have h5 := Nat.lt_base_pow_length_digits (b := 256)
    (m := Encodable.encode (stringCursor id s b).toTuple) (by norm_num)
  have h6 : (256 : ℕ) ^ m <
      256 ^ (Nat.digits 256 (Encodable.encode (stringCursor id s b).toTuple)).length :=
    lt_of_le_of_lt (le_trans h3 (le_trans h1 h4)) h5
  simp only [stringCursorBytes, List.length_cons, List.length_map]
  by_contra hc
  have hle : (Nat.digits 256 (Encodable.encode (stringCursor id s b).toTuple)).length ≤ m := by
    omega
  exact absurd (Nat.pow_le_pow_right (by norm_num : 0 < 256) hle) (not_le.mpr h6)

/-- The reference codec parses the bytes of the cursor of a string order value. -/
theorem stringCursorBytes_decode (id s : String) (b : Bool) :
    refCodec.Unmarshal (stringCursorBytes id s b) = Except.ok (stringCursor id s b) ∧
    decodeCursor refCodec (stringCursorBytes id s b) = .ok (stringCursor id s b) := by
  obtain ⟨buf, h1, -, h3⟩ := refCodec_roundtrip (stringCursor id s b)
  have : buf = stringCursorBytes id s b := by
    simp only [refCodec, Except.ok.injEq] at h1
    rw [← h1]
    rfl
  subst this
  exact ⟨h3, by simp [decodeCursor, h3, Res.wrapErr, Res.ofExcept]⟩

theorem stringCursor_new (id s : String) (b : Bool) :
    NewCursor id (GoValue.str s) b = .ok (stringCursor id s b) ∧
    (stringCursor id s b).OrderValue = .ok (GoValue.str s) :=
  ⟨rfl, rfl⟩

theorem demoLongString_length : 14 ≤ demoLongString.length := by
  show 14 ≤ (List.replicate 400 'x').length
  rw [List.length_replicate]
  norm_num

theorem demo_long_length : 300 < demoLongCursor.length :=
  stringCursorBytes_length "foo_1" demoLongString false demoLongString_length

theorem demo_long_plan :
    ∃ plan, PaginateSelectMods refCodec (demoInputWith 2 false demoLongCursor) "t" = .ok plan :=
  paginate_of_cursor refCodec (demoInputWith 2 false demoLongCursor) "t"
    (stringCursor "foo_1" demoLongString false) (GoValue.str demoLongString) rfl
    (stringCursorBytes_decode "foo_1" demoLongString false).2 rfl

/-! ## The claims -/

/-- C1: for every primary id, direction flag and well-formed order value of a supported
type, `NewCursor` succeeds with a cursor whose `OrderValue()` is that value and whose
primary id and direction are the given ones. -/
theorem C1_newCursor_roundtrip (id : String) (v : GoValue) (dir : Bool)
    (hs : v.isSupported = true) (hw : v.wf) :
    ∃ c, NewCursor id v dir = .ok c ∧ c.OrderValue = .ok v ∧
      c.GetPrimaryId = id ∧ c.GetIsBackwards = dir := by
  obtain ⟨c, h1, h2, h3, _, h5⟩ := newCursor_supported id v dir hs
  exact ⟨c, h1, h5 hw, h2, h3⟩

theorem C1_newCursor_roundtrip_witness :
    ∃ c, NewCursor "" (.duration (-2 ^ 63)) true = .ok c ∧
      c.OrderValue = .ok (.duration (-2 ^ 63)) ∧
      c.GetPrimaryId = "" ∧ c.GetIsBackwards = true :=
  C1_newCursor_roundtrip "" (.duration (-2 ^ 63)) true (by decide) (by decide)


/-- C2, as stated, fails in three places. On the empty store (N = 0, page size 1) the
walk makes one request, which is more than ceil(0/1) = 0 pages. With page size 2^31 - 1
and a store of one row the plan's limit `pageSize + 1` wraps to -2^31 and the walk ends
on an empty page, so the concatenation of the pages omits the row. On a store of three
rows with distinct ids of which one has a NULL sort value, with page size 1, the first
page needs a cursor of the row with the NULL value and the walk ends with the error of
`NewCursor`. -/
theorem C2_counterexample_empty_store_overflow_and_null :
    ceilDiv ([] : List RowMap).length 1 = 0 ∧
    walkForward (listPage refCodec refRank [] "t") (demoInput 1 false)
      (ceilDiv ([] : List RowMap).length 1) [] =
      .err (GoError.errorf "too many paging iterations") ∧
    walkForward (listPage refCodec refRank [] "t") (demoInput 1 false) 1 [] =
      .ok [⟨[], [], []⟩] ∧
    ¬ ([(⟨[], [], []⟩ : PageResult)].length ≤ ceilDiv ([] : List RowMap).length 1) ∧
    requestLimit refCodec (demoInput (2 ^ 31 - 1) false) "t" = .ok (some (-2 ^ 31)) ∧
    walkForward (listPage refCodec refRank [demoRow "a" 1] "t") (demoInput (2 ^ 31 - 1) false)
      (ceilDiv [demoRow "a" 1].length (2 ^ 31 - 1)) [] = .ok [⟨[], [], []⟩] ∧
    pageIds [(⟨[], [], []⟩ : PageResult)] ≠ [demoRow "a" 1].map rowIdOf ∧
    (demoNullStore.map rowIdOf).Nodup ∧
    walkForward (listPage refCodec refRank demoNullStore "t") (demoInput 1 false)
      (ceilDiv demoNullStore.length 1) [] =
      .err (GoError.errorf
        "encode next cursor: init cursor: unsupported order value: <nil> (<nil>)") := by
  decide

/-- C2 (amended): for a store of N rows with distinct ids (strings) and sort values of a
supported type (a time in any location), a page size p with 1 ≤ p and p + 1 within
int32, either requested direction, a lawful codec and an ordering of values that tells
distinct ids apart and ranks a time like the same instant in UTC, the forward walk from
no cursor ends within max(1, ceil(N/p)) pages (it takes exactly that many), on a page
without next cursor, and the concatenation of the pages' ids is the ids of the store in
strict order of (sort value, id) in the requested direction: a duplicate-free
rearrangement of all ids of the store. -/
theorem C2_forward_walk_covers_store {R : Type} [LinearOrder R] (pb : ProtoCodec)
    (hpb : pb.Lawful) (rank : GoValue → R)
    (hinj : ∀ a b : String, rank (GoValue.str a) = rank (GoValue.str b) → a = b)
    (hutc : ∀ v : GoValue, rank v.toUTC = rank v)
    (store : List RowMap) (t : String) (inp : ListInput)
    (hstore : StoreOk (planSortCol inp) store) (hc : inp.HasCursor = false)
    (h1 : 1 ≤ planPageSize inp) (h2 : planPageSize inp < 2 ^ 31 - 1) (fuel : Nat)
    (hfuel : pagesNeeded store.length (planPageSize inp).toNat ≤ fuel) :
    ∃ pages, walkForward (listPage pb rank store t) inp fuel [] = .ok pages ∧
      pages.length = pagesNeeded store.length (planPageSize inp).toNat ∧
      (∃ last, pages.getLast? = some last ∧ last.nextCursor = []) ∧
      pageIds pages = (sortedStore rank (planSortCol inp) inp.GetSortDesc store).map rowIdOf ∧
      (sortedStore rank (planSortCol inp) inp.GetSortDesc store).Perm store ∧
      (sortedStore rank (planSortCol inp) inp.GetSortDesc store).Pairwise
        (keyLt rank (planSortCol inp) inp.GetSortDesc) ∧
      (pageIds pages).Nodup ∧ (pageIds pages).Perm (store.map rowIdOf) := by
  have hp1 : 1 ≤ (planPageSize inp).toNat := by omega
  have hperm := sortedStore_perm rank (planSortCol inp) inp.GetSortDesc store
  have hlen : (sortedStore rank (planSortCol inp) inp.GetSortDesc store).length = store.length :=
    hperm.length_eq
  have hfuel' : pagesNeeded (sortedStore rank (planSortCol inp) inp.GetSortDesc store).length
      (planPageSize inp).toNat ≤ fuel := by rw [hlen]; exact hfuel
  have hwalk := walkForward_pages pb hpb rank hinj hutc store t inp hstore hc h1 h2 fuel []
    (sortedStore rank (planSortCol inp) inp.GetSortDesc store) true [] rfl hfuel'
    (Or.inl ⟨rfl, rfl, rfl⟩)
  have hids := fwdPages_ids pb (planSortCol inp) _ hp1 fuel true _ hfuel'
  refine ⟨_, hwalk, ?_, fwdPages_last pb (planSortCol inp) _ hp1 fuel true _ hfuel', hids, hperm,
    sortedStore_pairwise rank hinj _ store hstore _ store (fun r hr => hr)
      (storeOk_nodup _ store hstore), ?_, ?_⟩
  · rw [fwdPages_length pb (planSortCol inp) _ hp1 fuel true _ hfuel', hlen]
  · rw [hids]
    exact (hperm.map rowIdOf).nodup_iff.mpr hstore.2
  · rw [hids]
    exact hperm.map rowIdOf

theorem C2_forward_walk_covers_store_witness :
    refCodec.Lawful ∧ StoreOk (planSortCol (demoInput 2 true)) demoStore ∧
    pagesNeeded demoStore.length (planPageSize (demoInput 2 true)).toNat = 3 ∧
    ∃ pages, walkForward (listPage refCodec refRank demoStore "t") (demoInput 2 true) 3 [] =
        .ok pages ∧ pages.length = 3 ∧ pageIds pages = ["d", "c", "b", "a", "e"] :=
  have h := C2_forward_walk_covers_store refCodec refCodec_lawful refRank refRank_inj refRank_utc
    demoStore     "t" (demoInput 2 true) demoStore_ok rfl (by decide) (by decide) 3 (by decide)
  ⟨refCodec_lawful, demoStore_ok, by decide,
    h.elim fun pages hp => ⟨pages, hp.1, hp.2.1, hp.2.2.2.1.trans (by decide)⟩⟩

/-- C3, as stated, fails in two places. On a store of three rows with distinct ids of
which one has a NULL sort value, with page size 1, the forward walk does not reach a
last page: it ends with the error of `NewCursor`. With page size 2^31 - 1 and a store
of 2^31 rows the plan's limit wraps to -2^31: the forward walk is one empty page
without previous cursor, and the backward walk from there is one page without a next
cursor. -/
theorem C3_counterexample_null_value_and_overflow :
    ((planPageSize (demoInput 1 false)).toNat < demoNullStore.length ∧
      (demoNullStore.map rowIdOf).Nodup ∧
      walkForward (listPage refCodec refRank demoNullStore "t") (demoInput 1 false) 3 [] =
        .err (GoError.errorf
          "encode next cursor: init cursor: unsupported order value: <nil> (<nil>)")) ∧
    (StoreOk "created_at" demoBigStore ∧
      (planPageSize (demoInput (2 ^ 31 - 1) false)).toNat < demoBigStore.length ∧
      walkForward (listPage refCodec refRank demoBigStore "t") (demoInput (2 ^ 31 - 1) false)
        2 [] = .ok [⟨[], [], []⟩] ∧
      walkBackward (listPage refCodec refRank demoBigStore "t") (demoInput (2 ^ 31 - 1) false)
        2 (⟨[], [], []⟩ : PageResult).prevCursor = .ok [⟨[], [], []⟩] ∧
      (⟨[], [], []⟩ : PageResult).nextCursor = []) := by
  refine ⟨by decide, demoBigStore_ok, ?_, ?_, ?_, rfl⟩
  · rw [demoBigStore_length]
    decide
  · exact (walk_overflow refCodec refRank demoBigStore "t" (demoInput (2 ^ 31 - 1) false) rfl
      rfl 1).1
  · exact (walk_overflow refCodec refRank demoBigStore "t" (demoInput (2 ^ 31 - 1) false) rfl
      rfl 1).2

/-- C3 (amended): for a store that spans more than one page (same store model and page
sizes as the amended C2: string ids, sort values of a supported type, 1 ≤ p and p + 1
within int32), after the forward walk the backward walk from the last page's previous cursor returns pages
which, put in front of the last page in reverse order of the requests, give the id
sequence of the forward walk; each of them has a next cursor and at most p ids, and the
page on which the backward walk ends has no previous cursor and holds the ids of the
first page of the forward walk. -/
theorem C3_backward_walk_mirrors_forward {R : Type} [LinearOrder R] (pb : ProtoCodec)
    (hpb : pb.Lawful) (rank : GoValue → R)
    (hinj : ∀ a b : String, rank (GoValue.str a) = rank (GoValue.str b) → a = b)
    (hutc : ∀ v : GoValue, rank v.toUTC = rank v)
    (store : List RowMap) (t : String) (inp : ListInput)
    (hstore : StoreOk (planSortCol inp) store) (hc : inp.HasCursor = false)
    (h1 : 1 ≤ planPageSize inp) (h2 : planPageSize inp < 2 ^ 31 - 1)
    (hmulti : (planPageSize inp).toNat < store.length) (fuel : Nat)
    (hfuel : pagesNeeded store.length (planPageSize inp).toNat ≤ fuel) :
    ∃ pagesF lastF pagesB endB firstF,
      walkForward (listPage pb rank store t) inp fuel [] = .ok pagesF ∧
      pagesF.getLast? = some lastF ∧ lastF.prevCursor ≠ [] ∧
      walkBackward (listPage pb rank store t) inp fuel lastF.prevCursor = .ok pagesB ∧
      pageIds pagesB.reverse ++ lastF.ids = pageIds pagesF ∧
      (∀ pg ∈ pagesB, pg.nextCursor ≠ [] ∧ pg.ids.length ≤ (planPageSize inp).toNat) ∧
      pagesB.getLast? = some endB ∧ endB.prevCursor = [] ∧
      pagesF.head? = some firstF ∧ endB.ids = firstF.ids := by
  have hp1 : 1 ≤ (planPageSize inp).toNat := by omega
  have hperm := sortedStore_perm rank (planSortCol inp) inp.GetSortDesc store
  have hlen : (sortedStore rank (planSortCol inp) inp.GetSortDesc store).length = store.length :=
    hperm.length_eq
  obtain ⟨L, hL⟩ : ∃ L, L = sortedStore rank (planSortCol inp) inp.GetSortDesc store := ⟨_, rfl⟩
  rw [← hL] at hlen hperm
  have hfuel' : pagesNeeded L.length (planPageSize inp).toNat ≤ fuel := by rw [hlen]; exact hfuel
  have hwalk := walkForward_pages pb hpb rank hinj hutc store t inp hstore hc h1 h2 fuel [] L true []
    (by rw [hL]; rfl) hfuel' (Or.inl ⟨rfl, rfl, rfl⟩)
  have hids := fwdPages_ids pb (planSortCol inp) _ hp1 fuel true L hfuel'
  obtain ⟨init, pen, lastF, m, hsplit, hm1, hm2, hm3, hm4, hpen, hprev, hlast, -⟩ :=
    fwdPages_last_two pb (planSortCol inp) _ hp1 fuel true L hfuel' (by rw [hlen]; exact hmulti)
  obtain ⟨j, hj⟩ : ∃ j, fuel = j + 1 := by
    have := pagesNeeded_pos L.length (planPageSize inp).toNat
    exact ⟨fuel - 1, by omega⟩
  obtain ⟨firstF, hfirst, hfirstIds⟩ := fwdPages_head pb (planSortCol inp)
    (planPageSize inp).toNat j L
  rw [← hj] at hfirst
  -- the row at which the last page starts
  have hget : L.get? m = some L[m] := by
    rw [List.get?_eq_getElem?]
    exact List.getElem?_eq_getElem hm3
  have hmem : L[m] ∈ store := hperm.subset (List.getElem_mem _)
  have hne := (cursorOf_spec pb hpb (planSortCol inp) L[m] true (hstore.1 _ hmem)).2.1
  rw [hget] at hprev
  simp only [cursorAt] at hprev
  have hLsplit : L.take m ++ L[m] :: L.drop (m + 1) =
      sortedStore rank (planSortCol inp) inp.GetSortDesc store := by
    rw [← hL, ← List.drop_eq_getElem_cons hm3, List.take_append_drop]
  have htake : (L.take m).length = m := by
    rw [List.length_take, Nat.min_eq_left (by omega)]
  have hfuelB : pagesNeeded (L.take m).length (planPageSize inp).toNat ≤ fuel := by
    rw [htake]
    exact le_trans (pagesNeeded_mono m L.length _ (by omega)) hfuel'
  have hback := walkBackward_pages pb hpb rank hinj hutc store t inp hstore h1 h2 fuel
    (L.take m) (L.drop (m + 1)) L[m] hLsplit hfuelB
  have htakene : L.take m ≠ [] := by
    intro h0
    have := congrArg List.length h0
    rw [htake] at this
    simp only [List.length_nil] at this
    omega
  obtain ⟨endB, hend1, hend2, hend3⟩ := bwdPages_last pb (planSortCol inp) _ hp1 fuel (L.take m)
    hfuelB
  refine ⟨_, lastF, _, endB, firstF, hwalk, ?_, ?_, ?_, ?_, ?_, hend1, hend2, hfirst, ?_⟩
  · rw [hsplit]
    simp
  · rw [hprev]
    exact hne
  · rw [hprev]
    exact hback
  · rw [bwdPages_ids pb (planSortCol inp) _ hp1 fuel (L.take m) hfuelB, hlast, hids,
      ← List.map_append, List.take_append_drop]
  · apply bwdPages_each pb (planSortCol inp) _ hp1 fuel (L.take m) htakene
    intro r hr
    exact (cursorOf_spec pb hpb (planSortCol inp) r false
      (hstore.1 r (hperm.subset (List.mem_of_mem_take hr)))).2.1
  · rw [hend3 (by rw [htake]; exact hm2) htakene, hfirstIds, List.take_take,
      Nat.min_eq_left hm1]

theorem C3_backward_walk_mirrors_forward_witness :
    refCodec.Lawful ∧ StoreOk (planSortCol (demoInput 2 true)) demoStore ∧
    (planPageSize (demoInput 2 true)).toNat < demoStore.length ∧
    ∃ pagesF lastF pagesB,
      walkForward (listPage refCodec refRank demoStore "t") (demoInput 2 true) 3 [] =
        .ok pagesF ∧ pagesF.getLast? = some lastF ∧
      walkBackward (listPage refCodec refRank demoStore "t") (demoInput 2 true) 3
        lastF.prevCursor = .ok pagesB ∧
      pageIds pagesB.reverse ++ lastF.ids = pageIds pagesF :=
  have h := C3_backward_walk_mirrors_forward refCodec refCodec_lawful refRank refRank_inj
    refRank_utc demoStore "t" (demoInput 2 true) demoStore_ok rfl (by decide) (by decide) (by decide) 3
    (by decide)
  ⟨refCodec_lawful, demoStore_ok, by decide,
    h.elim fun pagesF h => h.elim fun lastF h => h.elim fun pagesB h => h.elim fun _ h =>
      h.elim fun _ h => ⟨pagesF, lastF, pagesB, h.1, h.2.1, h.2.2.2.1, h.2.2.2.2.1⟩⟩

/-- C4, as stated, fails in two places. On a store of three rows with distinct ids of
which one has a NULL sort value, with page size 1, the forward walk does not reach a
last page: it ends with the error of `NewCursor`. With page size 2^31 - 1 and a store
of 2^31 rows the forward walk is one empty page without previous cursor, and the page
requested with that cursor has no id instead of 2^31 - 1 ids. -/
theorem C4_counterexample_null_value_and_overflow :
    ((planPageSize (demoInput 1 false)).toNat < demoNullStore.length ∧
      (demoNullStore.map rowIdOf).Nodup ∧
      walkForward (listPage refCodec refRank demoNullStore "t") (demoInput 1 false) 3 [] =
        .err (GoError.errorf
          "encode next cursor: init cursor: unsupported order value: <nil> (<nil>)")) ∧
    (StoreOk "created_at" demoBigStore ∧
      (planPageSize (demoInput (2 ^ 31 - 1) false)).toNat < demoBigStore.length ∧
      walkForward (listPage refCodec refRank demoBigStore "t") (demoInput (2 ^ 31 - 1) false)
        2 [] = .ok [⟨[], [], []⟩] ∧
      listPage refCodec refRank demoBigStore "t"
        (withCursor (demoInput (2 ^ 31 - 1) false) (⟨[], [], []⟩ : PageResult).prevCursor) =
        .ok ⟨[], [], []⟩ ∧
      (⟨[], [], []⟩ : PageResult).ids.length ≠
        (planPageSize (demoInput (2 ^ 31 - 1) false)).toNat) := by
  refine ⟨by decide, demoBigStore_ok, ?_, ?_, ?_, by decide⟩
  · rw [demoBigStore_length]
    decide
  · exact (walk_overflow refCodec refRank demoBigStore "t" (demoInput (2 ^ 31 - 1) false) rfl
      rfl 1).1
  · exact listPage_overflow refCodec refRank demoBigStore "t" (demoInput (2 ^ 31 - 1) false)
      rfl rfl

/-- C4 (amended): for a store that spans more than one page (same store model and page
sizes as the amended C2: string ids, sort values of a supported type, 1 ≤ p and p + 1
within int32), one page requested backward with the previous cursor of the last forward page has exactly p ids
and a next cursor equal to the next cursor that led to the last page; one page
requested forward with that cursor has the ids of the last forward page and no next
cursor. -/
theorem C4_one_page_back_and_forth {R : Type} [LinearOrder R] (pb : ProtoCodec)
    (hpb : pb.Lawful) (rank : GoValue → R)
    (hinj : ∀ a b : String, rank (GoValue.str a) = rank (GoValue.str b) → a = b)
    (hutc : ∀ v : GoValue, rank v.toUTC = rank v)
    (store : List RowMap) (t : String) (inp : ListInput)
    (hstore : StoreOk (planSortCol inp) store) (hc : inp.HasCursor = false)
    (h1 : 1 ≤ planPageSize inp) (h2 : planPageSize inp < 2 ^ 31 - 1)
    (hmulti : (planPageSize inp).toNat < store.length) (fuel : Nat)
    (hfuel : pagesNeeded store.length (planPageSize inp).toNat ≤ fuel) :
    ∃ init pen lastF back again,
      walkForward (listPage pb rank store t) inp fuel [] = .ok (init ++ [pen, lastF]) ∧
      listPage pb rank store t (withCursor inp lastF.prevCursor) = .ok back ∧
      back.ids.length = (planPageSize inp).toNat ∧
      back.nextCursor = pen.nextCursor ∧ pen.nextCursor ≠ [] ∧
      listPage pb rank store t (withCursor inp back.nextCursor) = .ok again ∧
      again.ids = lastF.ids ∧ again.nextCursor = [] := by
  have hp1 : 1 ≤ (planPageSize inp).toNat := by omega
  have hperm := sortedStore_perm rank (planSortCol inp) inp.GetSortDesc store
  have hlen : (sortedStore rank (planSortCol inp) inp.GetSortDesc store).length = store.length :=
    hperm.length_eq
  obtain ⟨L, hL⟩ : ∃ L, L = sortedStore rank (planSortCol inp) inp.GetSortDesc store := ⟨_, rfl⟩
  rw [← hL] at hlen hperm
  have hfuel' : pagesNeeded L.length (planPageSize inp).toNat ≤ fuel := by rw [hlen]; exact hfuel
  have hwalk := walkForward_pages pb hpb rank hinj hutc store t inp hstore hc h1 h2 fuel [] L true []
    (by rw [hL]; rfl) hfuel' (Or.inl ⟨rfl, rfl, rfl⟩)
  obtain ⟨init, pen, lastF, m, hsplit, hm1, hm2, hm3, hm4, hpen, hprev, hlast, -⟩ :=
    fwdPages_last_two pb (planSortCol inp) _ hp1 fuel true L hfuel' (by rw [hlen]; exact hmulti)
  rw [hsplit] at hwalk
  -- the rows on both sides of the boundary of the last page
  have hm0 : m - 1 < L.length := by omega
  have hget : L.get? m = some L[m] := by
    rw [List.get?_eq_getElem?]
    exact List.getElem?_eq_getElem hm3
  have hget1 : L.get? (m - 1) = some L[m - 1] := by
    rw [List.get?_eq_getElem?]
    exact List.getElem?_eq_getElem hm0
  rw [hget] at hprev
  rw [hget1] at hpen
  simp only [cursorAt] at hprev hpen
  have hmem1 : L[m - 1] ∈ store := hperm.subset (List.getElem_mem _)
  have hne1 := (cursorOf_spec pb hpb (planSortCol inp) L[m - 1] false (hstore.1 _ hmem1)).2.1
  have hLsplit : L.take m ++ L[m] :: L.drop (m + 1) =
      sortedStore rank (planSortCol inp) inp.GetSortDesc store := by
    rw [← hL, ← List.drop_eq_getElem_cons hm3, List.take_append_drop]
  have hLsplit1 : L.take (m - 1) ++ L[m - 1] :: L.drop m =
      sortedStore rank (planSortCol inp) inp.GetSortDesc store := by
    have hd := List.drop_eq_getElem_cons hm0
    rw [show m - 1 + 1 = m by omega] at hd
    rw [← hL, ← hd, List.take_append_drop]
  have htake : (L.take m).length = m := by
    rw [List.length_take, Nat.min_eq_left (by omega)]
  have hlastTake : (L.take m).getLast? = some L[m - 1] := by
    rw [List.getLast?_eq_getElem?, htake, List.getElem?_take_of_lt (by omega)]
    exact List.getElem?_eq_getElem hm0
  have hback := page_backward pb hpb rank hinj hutc store t inp hstore h1 h2 (L.take m)
    (L.drop (m + 1)) L[m] hLsplit
  have hagain := page_forward pb hpb rank hinj hutc store t inp hstore h1 h2 (L.take (m - 1))
    (L.drop m) L[m - 1] hLsplit1
  rw [← hprev] at hback
  simp only [hlastTake, cursorAt] at hback
  have hids : (List.map rowIdOf (List.drop ((L.take m).length - (planPageSize inp).toNat)
      (L.take m))).length = (planPageSize inp).toNat := by
    simp only [List.length_map, List.length_drop, htake]
    omega
  have hagainIds : List.map rowIdOf ((L.drop m).take (planPageSize inp).toNat) = lastF.ids := by
    rw [hlast, List.take_of_length_le (by rw [List.length_drop]; omega)]
  have hnomore : ¬ (planPageSize inp).toNat < (L.drop m).length := by
    rw [List.length_drop]
    omega
  simp only [hnomore, if_false] at hagain
  exact ⟨init, pen, lastF, _, _, hwalk, hback, hids, hpen.symm, hpen ▸ hne1, hagain, hagainIds,
    rfl⟩

theorem C4_one_page_back_and_forth_witness :
    refCodec.Lawful ∧ StoreOk (planSortCol (demoInput 2 false)) demoStore ∧
    (planPageSize (demoInput 2 false)).toNat < demoStore.length ∧
    ∃ init pen lastF back,
      walkForward (listPage refCodec refRank demoStore "t") (demoInput 2 false) 3 [] =
        .ok (init ++ [pen, lastF]) ∧
      listPage refCodec refRank demoStore "t" (withCursor (demoInput 2 false) lastF.prevCursor) =
        .ok back ∧
      back.ids.length = 2 ∧ back.nextCursor = pen.nextCursor :=
  have h := C4_one_page_back_and_forth refCodec refCodec_lawful refRank refRank_inj
    refRank_utc demoStore "t" (demoInput 2 false) demoStore_ok rfl (by decide) (by decide) (by decide) 3
    (by decide)
  ⟨refCodec_lawful, demoStore_ok, by decide,
    h.elim fun init h => h.elim fun pen h => h.elim fun lastF h => h.elim fun back h =>
      h.elim fun _ h => ⟨init, pen, lastF, back, h.1, h.2.1, h.2.2.1, h.2.2.2.1⟩⟩
/-- C5: for a request without an incoming cursor the plan builder returns a reconciler,
and every page that reconciler returns has an empty previous cursor, whatever rows were
fetched. -/
theorem C5_first_page_has_no_previous_cursor (pb : ProtoCodec) (inp : ListInput) (t : String)
    (hc : inp.HasCursor = false) :
    (∃ plan, PaginateSelectMods pb inp t = .ok plan) ∧
    ∀ rows page, reconcileWith pb inp t rows = .ok page → page.prevCursor = [] := by
  refine ⟨paginate_no_cursor pb inp t hc, ?_⟩
  intro rows page h
  have h1 := reconcileWith_eq pb inp t rows page h
  rw [scanBackwards_no_cursor pb inp hc, hc] at h1
  obtain ⟨-, -, h3⟩ := reconcile_shape pb _ _ _ _ rows page h1
  obtain ⟨-, h5, h6⟩ := reconcileCursors_inv pb _ _ _ _ _ _ _ _ h3
  cases hk : rows.take (planPageSize inp).toNat with
  | nil => exact (h5 hk).2
  | cons a l =>
    rw [hk] at h6
    have hl : ∃ x, (a :: l).getLast? = some x := by
      cases hx : (a :: l).getLast? with
      | none => simp [List.getLast?_eq_none_iff] at hx
      | some x => exact ⟨x, rfl⟩
    obtain ⟨x, hx⟩ := hl
    exact ((h6 a x rfl hx).2 rfl).2.2.2 rfl

theorem C5_first_page_has_no_previous_cursor_witness :
    (demoInput 1 false).HasCursor = false ∧
    reconcileWith refCodec (demoInput 1 false) "t" [demoRow "a" 1, demoRow "b" 2] =
      .ok ⟨["a"], demoCursor "a" 1 false, []⟩ ∧
    (⟨["a"], demoCursor "a" 1 false, []⟩ : PageResult).prevCursor = [] :=
  ⟨rfl, rfl, (C5_first_page_has_no_previous_cursor refCodec (demoInput 1 false) "t" rfl).2
    [demoRow "a" 1, demoRow "b" 2] ⟨["a"], demoCursor "a" 1 false, []⟩ rfl⟩

/-- C6: for a page size of at least 1 (in particular 1..100) and fetched rows that all
have a string id, the reconciler continues with `has_more` set exactly when there are
more rows than the page size and with the rows beyond the page size dropped, the slice
expression is in bounds and the reconciler never panics on a slice bound, every
returned id list has length min(len(rows), page size),
and a page is returned whenever the rows also carry a supported sort value (lawful
codec). -/
theorem C6_sentinel_row_is_dropped (pb : ProtoCodec) (inp : ListInput) (t : String)
    (rows : List RowMap) (hplan : ∃ plan, PaginateSelectMods pb inp t = .ok plan)
    (h1 : 1 ≤ planPageSize inp)
    (hid : ∀ r ∈ rows, ∃ id, r.lookup "id" = some (GoValue.str id)) :
    reconcileWith pb inp t rows =
      reconcileTail pb (planSortCol inp) (scanBackwards pb inp) inp.HasCursor
        (decide ((rows.length : Int) > planPageSize inp))
        (stripSentinel rows (planPageSize inp)) ∧
    ((rows.length : Int) > planPageSize inp →
      sliceTo rows (planPageSize inp) = .ok (rows.take (planPageSize inp).toNat) ∧
      stripSentinel rows (planPageSize inp) = rows.take (planPageSize inp).toNat) ∧
    (¬ (rows.length : Int) > planPageSize inp → stripSentinel rows (planPageSize inp) = rows) ∧
    (∀ m, reconcileWith pb inp t rows ≠ .panic (GoPanic.sliceBounds m)) ∧
    (∀ page, reconcileWith pb inp t rows = .ok page →
      page.ids.length = min rows.length (planPageSize inp).toNat ∧
      page.ids.length ≤ (planPageSize inp).toNat) ∧
    (pb.Lawful → (∀ r ∈ rows, ∃ v, r.lookup (planSortCol inp) = some v ∧ v.isSupported = true) →
      ∃ page, reconcileWith pb inp t rows = .ok page) := by
  have hps : 0 ≤ planPageSize inp := by omega
  have heq := reconcileWith_of_plan pb inp t rows hplan
  refine ⟨?_, ?_, ?_, ?_, ?_, ?_⟩
  · rw [heq, reconcile_eq_tail _ _ _ _ _ _ hps, stripSentinel_eq rows _ hps]
  · intro hm
    refine ⟨?_, stripSentinel_eq rows _ hps⟩
    simp [sliceTo, not_lt.mpr hps]
  · intro hm
    simp [stripSentinel, hm]
  · intro m
    rw [heq]
    exact reconcile_no_slice_panic pb _ hps _ _ _ rows m
  · intro page hpage
    obtain ⟨-, hids, -⟩ := reconcile_shape pb _ _ _ _ rows page
      (reconcileWith_eq pb inp t rows page hpage)
    have hlen : page.ids.length = min (planPageSize inp).toNat rows.length := by
      rw [hids]
      split <;> simp [List.length_take]
    rw [hlen]
    constructor
    · exact Nat.min_comm _ _
    · exact Nat.min_le_left _ _
  · intro hpb hsort
    rw [heq, reconcile_eq_tail _ _ _ _ _ _ hps]
    apply reconcileTail_ok pb hpb
    intro r hr
    have hmem := List.mem_of_mem_take hr
    exact ⟨hid r hmem, hsort r hmem⟩

theorem C6_sentinel_row_is_dropped_witness :
    reconcileWith refCodec (demoInput 1 false) "t" [demoRow "a" 1, demoRow "b" 2] =
      reconcileTail refCodec "created_at" false false true [demoRow "a" 1] ∧
    reconcileWith refCodec (demoInput 1 false) "t" [demoRow "a" 1, demoRow "b" 2] =
      .ok ⟨["a"], demoCursor "a" 1 false, []⟩ ∧
    (⟨["a"], demoCursor "a" 1 false, []⟩ : PageResult).ids.length = min 2 1 :=
  have h := C6_sentinel_row_is_dropped refCodec (demoInput 1 false) "t"
    [demoRow "a" 1, demoRow "b" 2] ⟨_, rfl⟩ (by decide)
    (by intro r hr; exact (demo_rows_ok [("a", 1), ("b", 2)] r hr).1)
  ⟨h.1, rfl, (h.2.2.2.2.1 _ rfl).1⟩

/-- C7, as stated, fails in two places. With page size 0 and one fetched row, has_more
holds and the page has no next cursor. With a last retained row whose sort value is a
time outside UTC, the next cursor decodes to the same instant in UTC, which differs
from the row's value. -/
theorem C7_counterexample_page_size_zero_and_local_time :
    (scanBackwards refCodec (demoInput 0 false) = false ∧
      (([demoRow "a" 1].length : Nat) : Int) > planPageSize (demoInput 0 false) ∧
      reconcileWith refCodec (demoInput 0 false) "t" [demoRow "a" 1] = .ok ⟨[], [], []⟩ ∧
      (⟨[], [], []⟩ : PageResult).nextCursor = []) ∧
    ∃ page c, scanBackwards refCodec (demoInput 1 false) = false ∧
      reconcileWith refCodec (demoInput 1 false) "t" [demoLocalRow, demoRow "b" 2] =
        .ok page ∧
      page.nextCursor ≠ [] ∧ decodeCursor refCodec page.nextCursor = .ok c ∧
      c.OrderValue = .ok (GoValue.time ⟨0, 63888868800, true⟩) ∧
      c.OrderValue ≠ .ok (cell demoLocalRow "created_at") := by
  refine ⟨by decide, ?_⟩
  obtain ⟨-, hne, c, hd, -, -, hv, -, -⟩ := cursorOf_spec refCodec refCodec_lawful "created_at"
    demoLocalRow false ⟨⟨"a", rfl⟩, _, rfl, rfl, by decide⟩
  refine ⟨⟨["a"], cursorOf refCodec "created_at" demoLocalRow false, []⟩, c, rfl, rfl, hne, hd,
    hv, ?_⟩
  rw [hv]
  decide

/-- C7 (amended): on a forward scan with a page size of at least 1 and a lawful codec,
every page the reconciler returns has a next cursor if and only if more rows than the
page size were fetched; that cursor is built from the last retained row (the
page-size-th fetched row) and decodes to that row's id, a forward direction and that
row's sort value moved to UTC: the value itself unless it is a time outside UTC, the
same instant in UTC if it is. A page is returned whenever the rows carry a string id
and a supported sort value. -/
theorem C7_forward_next_cursor (pb : ProtoCodec) (hpb : pb.Lawful) (inp : ListInput)
    (t : String) (rows : List RowMap) (hfwd : scanBackwards pb inp = false)
    (hps : 1 ≤ planPageSize inp) :
    (∀ page, reconcileWith pb inp t rows = .ok page →
      (page.nextCursor ≠ [] ↔ (rows.length : Int) > planPageSize inp) ∧
      ((rows.length : Int) > planPageSize inp →
        ∃ last c, rows.get? ((planPageSize inp).toNat - 1) = some last ∧
          (stripSentinel rows (planPageSize inp)).getLast? = some last ∧
          mapEncodeCursor pb last (planSortCol inp) false = .ok page.nextCursor ∧
          decodeCursor pb page.nextCursor = .ok c ∧
          c.GetPrimaryId = rowIdOf last ∧ c.GetIsBackwards = false ∧
          ((cell last (planSortCol inp)).inRange →
            c.OrderValue = .ok (cell last (planSortCol inp)).toUTC) ∧
          ((cell last (planSortCol inp)).inRange →
            (∀ tm, cell last (planSortCol inp) = GoValue.time tm → tm.utc = true) →
            c.OrderValue = .ok (cell last (planSortCol inp))))) ∧
    ((∃ plan, PaginateSelectMods pb inp t = .ok plan) →
      (∀ r ∈ rows, FetchedRowOk (planSortCol inp) r) →
      ∃ page, reconcileWith pb inp t rows = .ok page) := by
  have hps0 : 0 ≤ planPageSize inp := by omega
  constructor
  · intro page hpage
    have h1 := reconcileWith_eq pb inp t rows page hpage
    rw [hfwd] at h1
    obtain ⟨-, -, h3⟩ := reconcile_shape pb _ _ _ _ rows page h1
    obtain ⟨-, h5, h6⟩ := reconcileCursors_inv pb _ _ _ _ _ _ _ _ h3
    by_cases hm : (rows.length : Int) > planPageSize inp
    · have hlen : (planPageSize inp).toNat ≤ rows.length := by omega
      have hpos : 1 ≤ (planPageSize inp).toNat := by omega
      have hlast := take_getLast? rows _ hpos hlen
      have hex : ∃ last, rows.get? ((planPageSize inp).toNat - 1) = some last := by
        rw [List.get?_eq_getElem?]
        exact ⟨rows[(planPageSize inp).toNat - 1], List.getElem?_eq_getElem (by omega)⟩
      obtain ⟨last, hl⟩ := hex
      have hhead : ∃ first, (rows.take (planPageSize inp).toNat).head? = some first := by
        cases hk : rows.take (planPageSize inp).toNat with
        | nil =>
          have := congrArg List.length hk
          simp only [List.length_take, List.length_nil] at this
          omega
        | cons a l => exact ⟨a, rfl⟩
      obtain ⟨first, hf⟩ := hhead
      have henc := ((h6 first last hf (hlast.trans hl)).2 rfl).1 (by simp [hm])
      obtain ⟨hne, c, hc1, hc2, hc3, hc5, hc6⟩ :=
        mapEncodeCursor_ok_decode_utc pb hpb last _ false _ henc
      refine ⟨⟨fun _ => hm, fun _ => hne⟩,
        fun _ => ⟨last, c, hl, ?_, henc, hc1, hc2, hc3, hc5, hc6⟩⟩
      rw [stripSentinel_eq rows _ hps0]
      exact hlast.trans hl
    · refine ⟨⟨fun hne => ?_, fun h => absurd h hm⟩, fun h => absurd h hm⟩
      exfalso
      apply hne
      cases hk : rows.take (planPageSize inp).toNat with
      | nil => exact (h5 hk).1
      | cons a l =>
        rw [hk] at h6
        have hl : ∃ x, (a :: l).getLast? = some x := by
          cases hx : (a :: l).getLast? with
          | none => simp [List.getLast?_eq_none_iff] at hx
          | some x => exact ⟨x, rfl⟩
        obtain ⟨x, hx⟩ := hl
        exact ((h6 a x rfl hx).2 rfl).2.1 (by simp [hm])
  · intro hplan hrows
    rw [reconcileWith_of_plan pb inp t rows hplan, reconcile_eq_tail _ _ _ _ _ _ hps0]
    exact reconcileTail_ok pb hpb _ _ _ _ _ (fun r hr => hrows r (List.mem_of_mem_take hr))

theorem C7_forward_next_cursor_witness :
    refCodec.Lawful ∧ scanBackwards refCodec (demoInput 1 false) = false ∧
    reconcileWith refCodec (demoInput 1 false) "t" [demoRow "a" 1, demoRow "b" 2] =
      .ok ⟨["a"], demoCursor "a" 1 false, []⟩ ∧
    ((⟨["a"], demoCursor "a" 1 false, []⟩ : PageResult).nextCursor ≠ [] ↔
      (([demoRow "a" 1, demoRow "b" 2].length : Nat) : Int) > planPageSize (demoInput 1 false)) :=
  ⟨refCodec_lawful, rfl, rfl,
    (((C7_forward_next_cursor refCodec refCodec_lawful (demoInput 1 false) "t"
      [demoRow "a" 1, demoRow "b" 2] rfl (by decide)).1) _ rfl).1⟩

/-- C8, as stated, fails in two places: a forward request that carries a cursor returns
no previous cursor when it fetches no row, and none when the page size is 0 and a row
was fetched (no row is retained). -/
theorem C8_counterexample_empty_page_and_page_size_zero :
    ((demoInputAt 2 false "a" 1 false).HasCursor = true ∧
      scanBackwards refCodec (demoInputAt 2 false "a" 1 false) = false ∧
      reconcileWith refCodec (demoInputAt 2 false "a" 1 false) "t" [] = .ok ⟨[], [], []⟩ ∧
      (⟨[], [], []⟩ : PageResult).prevCursor = []) ∧
    ((demoInputAt 0 false "a" 1 false).HasCursor = true ∧
      scanBackwards refCodec (demoInputAt 0 false "a" 1 false) = false ∧
      [demoRow "b" 2] ≠ [] ∧
      reconcileWith refCodec (demoInputAt 0 false "a" 1 false) "t" [demoRow "b" 2] =
        .ok ⟨[], [], []⟩) := by
  refine ⟨⟨rfl, demo_scan 2 false "a" 1 false, ?_, rfl⟩,
    rfl, demo_scan 0 false "a" 1 false, by simp, ?_⟩
  · rw [reconcileWith_of_plan _ _ _ _ (demo_plan 2 false "a" 1 false)]
    rfl
  · rw [reconcileWith_of_plan _ _ _ _ (demo_plan 0 false "a" 1 false)]
    rfl

/-- C8 (amended): on a forward scan for which an incoming cursor was supplied, with a
page size of at least 1 and a lawful codec, every page the reconciler returns has a
previous cursor if and only if at least one row was fetched; it is built from the first
row with `is_backwards = true` and decodes to that row's id and its sort value moved to
UTC. A page is returned whenever the rows carry a string id and a supported sort
value. -/
theorem C8_forward_previous_cursor (pb : ProtoCodec) (hpb : pb.Lawful) (inp : ListInput)
    (t : String) (rows : List RowMap) (hc : inp.HasCursor = true)
    (hfwd : scanBackwards pb inp = false) (hps : 1 ≤ planPageSize inp) :
    (∀ page, reconcileWith pb inp t rows = .ok page →
      (page.prevCursor ≠ [] ↔ rows ≠ []) ∧
      (∀ first, rows.head? = some first →
        page.ids.head? = some (rowIdOf first) ∧
        mapEncodeCursor pb first (planSortCol inp) true = .ok page.prevCursor ∧
        ∃ c, decodeCursor pb page.prevCursor = .ok c ∧
          c.GetPrimaryId = rowIdOf first ∧ c.GetIsBackwards = true ∧
          ((cell first (planSortCol inp)).inRange →
            c.OrderValue = .ok (cell first (planSortCol inp)).toUTC) ∧
          ((cell first (planSortCol inp)).inRange →
            (∀ tm, cell first (planSortCol inp) = GoValue.time tm → tm.utc = true) →
            c.OrderValue = .ok (cell first (planSortCol inp))))) ∧
    ((∃ plan, PaginateSelectMods pb inp t = .ok plan) →
      (∀ r ∈ rows, FetchedRowOk (planSortCol inp) r) →
      ∃ page, reconcileWith pb inp t rows = .ok page) := by
  have hps0 : 0 ≤ planPageSize inp := by omega
  constructor
  · intro page hpage
    have h1 := reconcileWith_eq pb inp t rows page hpage
    rw [hfwd, hc] at h1
    obtain ⟨-, hids, h3⟩ := reconcile_shape pb _ _ _ _ rows page h1
    obtain ⟨-, h5, h6⟩ := reconcileCursors_inv pb _ _ _ _ _ _ _ _ h3
    cases rows with
    | nil =>
      have hk : ([] : List RowMap).take (planPageSize inp).toNat = [] := by simp
      exact ⟨⟨fun hne => absurd (h5 hk).2 hne, fun h => absurd rfl h⟩, by simp⟩
    | cons a l =>
      have hk : (a :: l).take (planPageSize inp).toNat
          = a :: l.take ((planPageSize inp).toNat - 1) := by
        obtain ⟨n, hn⟩ : ∃ n, (planPageSize inp).toNat = n + 1 := ⟨(planPageSize inp).toNat - 1, by omega⟩
        rw [hn]
        simp
      rw [hk] at h6 hids
      have hl : ∃ x, (a :: l.take ((planPageSize inp).toNat - 1)).getLast? = some x := by
        cases hx : (a :: l.take ((planPageSize inp).toNat - 1)).getLast? with
        | none => simp [List.getLast?_eq_none_iff] at hx
        | some x => exact ⟨x, rfl⟩
      obtain ⟨x, hx⟩ := hl
      have henc := ((h6 a x rfl hx).2 rfl).2.2.1 rfl
      obtain ⟨hne, c, hc1, hc2, hc3, hc5, hc6⟩ :=
        mapEncodeCursor_ok_decode_utc pb hpb a _ true _ henc
      refine ⟨⟨fun _ => by simp, fun _ => hne⟩, ?_⟩
      intro first hf
      simp only [List.head?_cons, Option.some.injEq] at hf
      subst hf
      refine ⟨?_, henc, c, hc1, hc2, hc3, hc5, hc6⟩
      rw [hids]
      simp
  · intro hplan hrows
    rw [reconcileWith_of_plan pb inp t rows hplan, reconcile_eq_tail _ _ _ _ _ _ hps0]
    exact reconcileTail_ok pb hpb _ _ _ _ _ (fun r hr => hrows r (List.mem_of_mem_take hr))

theorem C8_forward_previous_cursor_witness :
    refCodec.Lawful ∧ (demoInputAt 2 false "a" 1 false).HasCursor = true ∧
    scanBackwards refCodec (demoInputAt 2 false "a" 1 false) = false ∧
    1 ≤ planPageSize (demoInputAt 2 false "a" 1 false) ∧
    ∃ page, reconcileWith refCodec (demoInputAt 2 false "a" 1 false) "t"
        [demoRow "b" 2, demoRow "c" 3] = .ok page ∧
      (page.prevCursor ≠ [] ↔ [demoRow "b" 2, demoRow "c" 3] ≠ []) :=
  have h := C8_forward_previous_cursor refCodec refCodec_lawful (demoInputAt 2 false "a" 1 false)
    "t" [demoRow "b" 2, demoRow "c" 3] rfl (demo_scan 2 false "a" 1 false) (by decide)
  have hp := h.2 (demo_plan 2 false "a" 1 false) (demo_rows_ok [("b", 2), ("c", 3)])
  ⟨refCodec_lawful, rfl, demo_scan 2 false "a" 1 false, by decide,
    hp.elim fun page hpage => ⟨page, hpage, (h.1 page hpage).1⟩⟩

/-- C9, as stated, fails for the page size 0: a backward scan that fetched one row
retains no row and returns a page without next cursor, and without previous cursor
although has_more holds. -/
theorem C9_counterexample_page_size_zero :
    scanBackwards refCodec (demoInputAt 0 false "c" 3 true) = true ∧
    [demoRow "b" 2] ≠ [] ∧
    (([demoRow "b" 2].length : Nat) : Int) > planPageSize (demoInputAt 0 false "c" 3 true) ∧
    reconcileWith refCodec (demoInputAt 0 false "c" 3 true) "t" [demoRow "b" 2] =
      .ok ⟨[], [], []⟩ ∧
    (⟨[], [], []⟩ : PageResult).nextCursor = [] ∧
    (⟨[], [], []⟩ : PageResult).prevCursor = [] := by
  refine ⟨demo_scan 0 false "c" 3 true, by simp, by decide, ?_, rfl, rfl⟩
  rw [reconcileWith_of_plan _ _ _ _ (demo_plan 0 false "c" 3 true)]
  rfl

/-- C9 (amended): on a backward scan that fetched at least one row, with a page size of
at least 1 and a lawful codec, every page the reconciler returns has a next cursor built from the
row that is first in native fetch order with `is_backwards = false`, and has a previous
cursor if and only if more rows than the page size were fetched, built with
`is_backwards = true` from the row that is last in native fetch order once the sentinel
is dropped. A page is returned whenever the rows carry a string id and a supported sort
value. -/
theorem C9_backward_cursors (pb : ProtoCodec) (hpb : pb.Lawful) (inp : ListInput)
    (t : String) (rows : List RowMap) (hbwd : scanBackwards pb inp = true)
    (hne : rows ≠ []) (hps : 1 ≤ planPageSize inp) :
    (∀ page, reconcileWith pb inp t rows = .ok page →
      (∃ first c, rows.head? = some first ∧
        mapEncodeCursor pb first (planSortCol inp) false = .ok page.nextCursor ∧
        page.nextCursor ≠ [] ∧ decodeCursor pb page.nextCursor = .ok c ∧
        c.GetPrimaryId = rowIdOf first ∧ c.GetIsBackwards = false ∧
        ((cell first (planSortCol inp)).inRange →
          c.OrderValue = .ok (cell first (planSortCol inp)).toUTC) ∧
        ((cell first (planSortCol inp)).inRange →
          (∀ tm, cell first (planSortCol inp) = GoValue.time tm → tm.utc = true) →
          c.OrderValue = .ok (cell first (planSortCol inp)))) ∧
      (page.prevCursor ≠ [] ↔ (rows.length : Int) > planPageSize inp) ∧
      ((rows.length : Int) > planPageSize inp →
        ∃ last c, (stripSentinel rows (planPageSize inp)).getLast? = some last ∧
          rows.get? ((planPageSize inp).toNat - 1) = some last ∧
          mapEncodeCursor pb last (planSortCol inp) true = .ok page.prevCursor ∧
          decodeCursor pb page.prevCursor = .ok c ∧
          c.GetPrimaryId = rowIdOf last ∧ c.GetIsBackwards = true ∧
          ((cell last (planSortCol inp)).inRange →
            c.OrderValue = .ok (cell last (planSortCol inp)).toUTC) ∧
          ((cell last (planSortCol inp)).inRange →
            (∀ tm, cell last (planSortCol inp) = GoValue.time tm → tm.utc = true) →
            c.OrderValue = .ok (cell last (planSortCol inp))))) ∧
    ((∃ plan, PaginateSelectMods pb inp t = .ok plan) →
      (∀ r ∈ rows, FetchedRowOk (planSortCol inp) r) →
      ∃ page, reconcileWith pb inp t rows = .ok page) := by
  have hps0 : 0 ≤ planPageSize inp := by omega
  constructor
  · intro page hpage
    have h1 := reconcileWith_eq pb inp t rows page hpage
    rw [hbwd] at h1
    obtain ⟨-, -, h3⟩ := reconcile_shape pb _ _ _ _ rows page h1
    obtain ⟨-, -, h6⟩ := reconcileCursors_inv pb _ _ _ _ _ _ _ _ h3
    cases rows with
    | nil => exact absurd rfl hne
    | cons a l =>
      have hk : (a :: l).take (planPageSize inp).toNat
          = a :: l.take ((planPageSize inp).toNat - 1) := by
        obtain ⟨n, hn⟩ : ∃ n, (planPageSize inp).toNat = n + 1 := ⟨(planPageSize inp).toNat - 1, by omega⟩
        rw [hn]
        simp
      have hl : ∃ x, ((a :: l).take (planPageSize inp).toNat).getLast? = some x := by
        rw [hk]
        cases hx : (a :: l.take ((planPageSize inp).toNat - 1)).getLast? with
        | none => simp [List.getLast?_eq_none_iff] at hx
        | some x => exact ⟨x, rfl⟩
      obtain ⟨x, hx⟩ := hl
      have hhead : ((a :: l).take (planPageSize inp).toNat).head? = some a := by rw [hk]; rfl
      obtain ⟨hn1, hn2, hn3⟩ := (h6 a x hhead hx).1 rfl
      obtain ⟨hne1, c, hc1, hc2, hc3, hc5, hc6⟩ :=
        mapEncodeCursor_ok_decode_utc pb hpb a _ false _ hn1
      refine ⟨⟨a, c, rfl, hn1, hne1, hc1, hc2, hc3, hc5, hc6⟩, ?_, ?_⟩
      · by_cases hm : ((a :: l).length : Int) > planPageSize inp
        · have henc := hn2 (decide_eq_true hm)
          exact ⟨fun _ => hm, fun _ => (mapEncodeCursor_ok_decode pb hpb x _ true _ henc).1⟩
        · have := hn3 (decide_eq_false hm)
          exact ⟨fun h => absurd this h, fun h => absurd h hm⟩
      · intro hm
        have henc := hn2 (decide_eq_true hm)
        obtain ⟨-, c2, hd1, hd2, hd3, hd5, hd6⟩ :=
          mapEncodeCursor_ok_decode_utc pb hpb x _ true _ henc
        have hlen : (planPageSize inp).toNat ≤ (a :: l).length := by omega
        have hlast := take_getLast? (a :: l) _ (by omega) hlen
        refine ⟨x, c2, ?_, ?_, henc, hd1, hd2, hd3, hd5, hd6⟩
        · rw [stripSentinel_eq _ _ hps0]
          exact hx
        · rw [← hlast]
          exact hx
  · intro hplan hrows
    rw [reconcileWith_of_plan pb inp t rows hplan, reconcile_eq_tail _ _ _ _ _ _ hps0]
    exact reconcileTail_ok pb hpb _ _ _ _ _ (fun r hr => hrows r (List.mem_of_mem_take hr))

theorem C9_backward_cursors_witness :
    refCodec.Lawful ∧ scanBackwards refCodec (demoInputAt 1 false "c" 3 true) = true ∧
    [demoRow "b" 2, demoRow "a" 1] ≠ [] ∧ 1 ≤ planPageSize (demoInputAt 1 false "c" 3 true) ∧
    ∃ page, reconcileWith refCodec (demoInputAt 1 false "c" 3 true) "t"
        [demoRow "b" 2, demoRow "a" 1] = .ok page ∧
      (page.prevCursor ≠ [] ↔
        (([demoRow "b" 2, demoRow "a" 1].length : Nat) : Int) >
          planPageSize (demoInputAt 1 false "c" 3 true)) :=
  have h := C9_backward_cursors refCodec refCodec_lawful (demoInputAt 1 false "c" 3 true)
    "t" [demoRow "b" 2, demoRow "a" 1] (demo_scan 1 false "c" 3 true) (by simp) (by decide)
  have hp := h.2 (demo_plan 1 false "c" 3 true) (demo_rows_ok [("b", 2), ("a", 1)])
  ⟨refCodec_lawful, demo_scan 1 false "c" 3 true, by simp, by decide,
    hp.elim fun page hpage => ⟨page, hpage, (h.1 page hpage).2.1⟩⟩

/-- C10: the id list of every page the reconciler returns is the ids of the rows left
after the sentinel step, in native fetch order on a forward scan and in the reverse of
native fetch order on a backward scan. A page is returned whenever the page size is not
negative and the rows carry a string id and a supported sort value (lawful codec). -/
theorem C10_ids_in_client_order (pb : ProtoCodec) (inp : ListInput) (t : String)
    (rows : List RowMap) (hid : ∀ r ∈ rows, ∃ id, r.lookup "id" = some (GoValue.str id)) :
    (∀ page, reconcileWith pb inp t rows = .ok page →
      page.ids = (if scanBackwards pb inp then (stripSentinel rows (planPageSize inp)).reverse
        else stripSentinel rows (planPageSize inp)).map rowIdOf ∧
      rowIDs (if scanBackwards pb inp then (stripSentinel rows (planPageSize inp)).reverse
        else stripSentinel rows (planPageSize inp)) = .ok page.ids) ∧
    (pb.Lawful → (∃ plan, PaginateSelectMods pb inp t = .ok plan) → 0 ≤ planPageSize inp →
      (∀ r ∈ rows, ∃ v, r.lookup (planSortCol inp) = some v ∧ v.isSupported = true) →
      ∃ page, reconcileWith pb inp t rows = .ok page) := by
  constructor
  · intro page hpage
    obtain ⟨hps0, hids, -⟩ := reconcile_shape pb _ _ _ _ rows page
      (reconcileWith_eq pb inp t rows page hpage)
    rw [stripSentinel_eq rows _ hps0]
    refine ⟨hids, ?_⟩
    rw [hids]
    apply rowIDs_ok
    intro r hr
    apply hid
    split at hr
    · exact List.mem_of_mem_take (List.mem_reverse.mp hr)
    · exact List.mem_of_mem_take hr
  · intro hpb hplan hps0 hsort
    rw [reconcileWith_of_plan pb inp t rows hplan, reconcile_eq_tail _ _ _ _ _ _ hps0]
    apply reconcileTail_ok pb hpb
    intro r hr
    have hmem := List.mem_of_mem_take hr
    exact ⟨hid r hmem, hsort r hmem⟩

theorem C10_ids_in_client_order_witness :
    ∃ page, reconcileWith refCodec (demoInputAt 2 false "d" 4 true) "t"
        [demoRow "c" 3, demoRow "b" 2, demoRow "a" 1] = .ok page ∧
      page.ids = ["b", "c"] :=
  have hid : ∀ r ∈ [demoRow "c" 3, demoRow "b" 2, demoRow "a" 1],
      ∃ id, r.lookup "id" = some (GoValue.str id) :=
    fun r hr => (demo_rows_ok [("c", 3), ("b", 2), ("a", 1)] r hr).1
  have h := C10_ids_in_client_order refCodec (demoInputAt 2 false "d" 4 true) "t"
    [demoRow "c" 3, demoRow "b" 2, demoRow "a" 1] hid
  have hp := h.2 refCodec_lawful (demo_plan 2 false "d" 4 true) (by decide)
    (fun r hr => (demo_rows_ok [("c", 3), ("b", 2), ("a", 1)] r hr).2)
  hp.elim fun page hpage => ⟨page, hpage, by
    rw [(h.1 page hpage).1, demo_scan]
    rfl⟩


/-- C11: the plan built by PaginateSelectMods orders first by the sort column and second
by the id column, both in one direction; that direction is descending exactly when
sort_desc XOR (a cursor is supplied and its is_backwards is true), and without a cursor
it is the request's sort_desc. -/
theorem C11_plan_order (pb : ProtoCodec) (inp : ListInput) (t : String)
    (plan : List Mod × (List RowMap → Res PageResult))
    (h : PaginateSelectMods pb inp t = .ok plan) :
    orderSpecs plan.1 =
      [(planSortCol inp, xor inp.GetSortDesc (scanBackwards pb inp)),
        ("id", xor inp.GetSortDesc (scanBackwards pb inp))] ∧
    (scanBackwards pb inp = true ↔
      inp.HasCursor = true ∧ ∃ c, decodeCursor pb inp.GetCursor = .ok c ∧
        c.GetIsBackwards = true) ∧
    (inp.HasCursor = false →
      orderSpecs plan.1 = [(planSortCol inp, inp.GetSortDesc), ("id", inp.GetSortDesc)]) := by
  rcases paginate_mods pb inp t plan h with ⟨hc, hm⟩ | ⟨hc, c, v, hd, -, hm⟩
  · have hs : scanBackwards pb inp = false := by simp [scanBackwards, hc]
    refine ⟨?_, ?_, ?_⟩
    · rw [hm, hs]
      simp [orderSpecs]
    · simp [hs, hc]
    · intro _
      rw [hm]
      simp [orderSpecs]
  · have hs : scanBackwards pb inp = c.GetIsBackwards := by simp [scanBackwards, hc, hd]
    refine ⟨?_, ?_, ?_⟩
    · rw [hm, hs]
      cases xor inp.GetSortDesc c.GetIsBackwards <;> simp [orderSpecs]
    · simp [hs, hc, hd]
    · intro hf
      rw [hc] at hf
      cases hf

theorem C11_plan_order_witness :
    ∃ plan, PaginateSelectMods refCodec (demoInputAt 2 false "b" 2 true) "t" = .ok plan ∧
      orderSpecs plan.1 = [("created_at", true), ("id", true)] :=
  (demo_plan 2 false "b" 2 true).elim fun plan hplan =>
    ⟨plan, hplan, by
      rw [(C11_plan_order refCodec (demoInputAt 2 false "b" 2 true) "t" plan hplan).1, demo_scan]
      rfl⟩

/-- C12: the plan built by PaginateSelectMods contains a keyset filter if and only if the
request carries a cursor; with a cursor there is exactly one filter, over the columns
(sort column, id) against (cursor order value, cursor primary id), a less-than filter
when the effective direction (that of the plan's ordering) is descending and a
greater-than filter when it is ascending; either filter keeps a row exactly when the
strict lexicographic comparison of the two pairs holds. -/
theorem C12_keyset_filter {R : Type} [LinearOrder R] (rank : GoValue → R) (pb : ProtoCodec)
    (inp : ListInput) (t : String) (plan : List Mod × (List RowMap → Res PageResult))
    (h : PaginateSelectMods pb inp t = .ok plan) :
    (keysetFilters plan.1 ≠ [] ↔ inp.HasCursor = true) ∧
    (inp.HasCursor = true →
      ∃ c v e, decodeCursor pb inp.GetCursor = .ok c ∧ c.OrderValue = .ok v ∧
        orderSpecs plan.1 = [(planSortCol inp, e), ("id", e)] ∧
        keysetFilters plan.1 =
          [if e then Mod.whereLT (planSortCol inp, "id") (v, c.GetPrimaryId)
            else Mod.whereGT (planSortCol inp, "id") (v, c.GetPrimaryId)]) ∧
    (∀ (lhs : String × String) (rhs : GoValue × String) (row : RowMap),
      ((Mod.whereGT lhs rhs).keeps rank row = true ↔
        (rank rhs.1 < rank (cell row lhs.1) ∨
          (rank rhs.1 = rank (cell row lhs.1) ∧
            rank (GoValue.str rhs.2) < rank (cell row lhs.2)))) ∧
      ((Mod.whereLT lhs rhs).keeps rank row = true ↔
        (rank (cell row lhs.1) < rank rhs.1 ∨
          (rank (cell row lhs.1) = rank rhs.1 ∧
            rank (cell row lhs.2) < rank (GoValue.str rhs.2))))) := by
  refine ⟨?_, ?_, fun lhs rhs row => keeps_where rank lhs rhs row⟩
  · rcases paginate_mods pb inp t plan h with ⟨hc, hm⟩ | ⟨hc, c, v, -, -, hm⟩
    · rw [hm, hc]
      simp [keysetFilters]
    · rw [hm, hc]
      cases xor inp.GetSortDesc c.GetIsBackwards <;> simp [keysetFilters]
  · intro hc
    rcases paginate_mods pb inp t plan h with ⟨hc1, -⟩ | ⟨-, c, v, hd, hv, hm⟩
    · rw [hc] at hc1
      cases hc1
    · refine ⟨c, v, xor inp.GetSortDesc c.GetIsBackwards, hd, hv, ?_, ?_⟩
      · rw [hm]
        cases xor inp.GetSortDesc c.GetIsBackwards <;> simp [orderSpecs]
      · rw [hm]
        cases xor inp.GetSortDesc c.GetIsBackwards <;> simp [keysetFilters]

theorem C12_keyset_filter_witness :
    ∃ plan, PaginateSelectMods refCodec (demoInputAt 2 false "b" 2 false) "t" = .ok plan ∧
      keysetFilters plan.1 ≠ [] ∧
      ∃ c v e, decodeCursor refCodec (demoInputAt 2 false "b" 2 false).GetCursor = .ok c ∧
        c.OrderValue = .ok v ∧
        orderSpecs plan.1 = [(planSortCol (demoInputAt 2 false "b" 2 false), e), ("id", e)] ∧
        keysetFilters plan.1 =
          [if e then Mod.whereLT (planSortCol (demoInputAt 2 false "b" 2 false), "id")
              (v, c.GetPrimaryId)
            else Mod.whereGT (planSortCol (demoInputAt 2 false "b" 2 false), "id")
              (v, c.GetPrimaryId)] :=
  (demo_plan 2 false "b" 2 false).elim fun plan hplan =>
    have h := C12_keyset_filter refRank refCodec (demoInputAt 2 false "b" 2 false) "t" plan hplan
    ⟨plan, hplan, h.1.mpr rfl, h.2.1 rfl⟩

/-- C13: for every request whose cursor bytes do not parse as a cursor record,
PaginateSelectMods returns an error (so neither query modifiers nor a reconciler) with
status code invalid-argument whose message wraps the decode error as
"decode cursor: unmarshal cursor: ...". -/
theorem C13_malformed_cursor_is_invalid_argument (pb : ProtoCodec) (inp : ListInput)
    (t : String) (e : GoError) (hc : inp.HasCursor = true)
    (hd : pb.Unmarshal inp.GetCursor = Except.error e) :
    PaginateSelectMods pb inp t =
      .err ⟨some ConnectCode.invalidArgument,
        "decode cursor: " ++ ("unmarshal cursor: " ++ e.msg)⟩ ∧
    ¬ ∃ plan, PaginateSelectMods pb inp t = .ok plan := by
  have h : PaginateSelectMods pb inp t =
      .err ⟨some ConnectCode.invalidArgument,
        "decode cursor: " ++ ("unmarshal cursor: " ++ e.msg)⟩ := by
    unfold PaginateSelectMods
    simp [hc, decodeCursor, hd, Res.ofExcept, Res.wrapErr, Res.bind, GoError.connect,
      GoError.wrap]
  refine ⟨h, ?_⟩
  rintro ⟨plan, hp⟩
  rw [h] at hp
  cases hp

theorem C13_malformed_cursor_is_invalid_argument_witness :
    PaginateSelectMods refCodec (demoInputWith 2 false demoGarbage) "t" =
      .err ⟨some ConnectCode.invalidArgument,
        "decode cursor: unmarshal cursor: proto: cannot parse invalid wire-format data"⟩ :=
  (C13_malformed_cursor_is_invalid_argument refCodec (demoInputWith 2 false demoGarbage) "t"
    (GoError.errorf "proto: cannot parse invalid wire-format data") rfl refCodec_garbage).1.trans
    (congrArg (fun m => Res.err ⟨some ConnectCode.invalidArgument, m⟩) (by decide))

/-- C14: a request whose cursor bytes parse to a cursor none of whose order-value
variants is populated makes PaginateSelectMods panic with the message of
Cursor.OrderValue, instead of returning a plan or an invalid-argument error. -/
theorem C14_cursor_without_order_value_panics (pb : ProtoCodec) (inp : ListInput) (t : String)
    (c : Cursor) (hc : inp.HasCursor = true) (hd : decodeCursor pb inp.GetCursor = .ok c)
    (hv : c.hasOrderValue = false) :
    PaginateSelectMods pb inp t =
      .panic (.explicit ("unsupported or unset order_value in cursor: " ++ c.fmtNoOrder)) ∧
    (¬ ∃ plan, PaginateSelectMods pb inp t = .ok plan) ∧
    ¬ ∃ e, PaginateSelectMods pb inp t = .err e := by
  have h := paginate_panic pb inp t c hc hd hv
  refine ⟨h, ?_, ?_⟩
  · rintro ⟨plan, hp⟩
    rw [h] at hp
    cases hp
  · rintro ⟨e, hp⟩
    rw [h] at hp
    cases hp

theorem C14_cursor_without_order_value_panics_witness :
    PaginateSelectMods refCodec (demoInputWith 2 false []) "t" =
      .panic (.explicit "unsupported or unset order_value in cursor: ") ∧
    PaginateSelectMods refCodec (demoInputWith 2 false (demoBareCursor "foo_1")) "t" =
      .panic (.explicit "unsupported or unset order_value in cursor: primary_id:\"foo_1\"") :=
  ⟨(C14_cursor_without_order_value_panics refCodec (demoInputWith 2 false []) "t" {} rfl rfl
      rfl).1.trans (congrArg (fun m => Res.panic (GoPanic.explicit m)) (by decide)),
    (C14_cursor_without_order_value_panics refCodec
      (demoInputWith 2 false (demoBareCursor "foo_1")) "t"
      (Cursor_builder.Build { PrimaryId := some "foo_1" }) rfl (demo_bare_decode "foo_1")
      rfl).1.trans (congrArg (fun m => Res.panic (GoPanic.explicit m)) (by decide))⟩

/-- C15 (counterexample): a value of Go's type int is outside the eleven supported
types, yet NewCursor does not return an error for it: the type assertion to int64
panics. -/
theorem C15_counterexample_int_panics :
    (GoValue.int 5).isSupported = false ∧
    NewCursor "foo_1" (GoValue.int 5) true =
      .panic (.typeAssertion "interface conversion: interface \x7b\x7d is int, not int64") ∧
    ¬ ∃ e, NewCursor "foo_1" (GoValue.int 5) true = .err e := by
  refine ⟨rfl, rfl, ?_⟩
  rintro ⟨e, h⟩
  cases h

/-- C15: for every order value whose runtime type is outside the supported set and is
not Go's type int, NewCursor returns no cursor but an error whose message is
"unsupported order value: <value> (<type>)", where <value> and <type> are the renderings
of the value with the verbs v and T (both "<nil>" for a nil value). -/
theorem C15_unsupported_value_error (id : String) (b : Bool) (v : GoValue)
    (hs : v.isSupported = false) (hi : ∀ n, v ≠ GoValue.int n) :
    ∃ fv, NewCursor id v b =
        .err (GoError.errorf ("unsupported order value: " ++ fv ++ " (" ++ v.fmtType ++ ")")) ∧
      (v = GoValue.nil → fv = "<nil>") ∧
      (∀ a t, v = GoValue.other a t → fv = a) ∧
      ¬ ∃ c, NewCursor id v b = .ok c := by
  cases v with
  | int n => exact absurd rfl (hi n)
  | nil => exact ⟨"<nil>", rfl, fun _ => rfl, by simp, by simp [NewCursor]⟩
  | other a t => exact ⟨a, rfl, by simp, by simp, by simp [NewCursor]⟩
  | _ => simp [GoValue.isSupported] at hs

theorem C15_unsupported_value_error_witness :
    ∃ fv, NewCursor "foo_1" (GoValue.other "\x7b\x7d" "struct \x7b\x7d") true =
        .err (GoError.errorf ("unsupported order value: " ++ fv ++ " (" ++ "struct \x7b\x7d" ++ ")")) ∧
      fv = "\x7b\x7d" :=
  (C15_unsupported_value_error "foo_1" true (GoValue.other "\x7b\x7d" "struct \x7b\x7d") rfl
    (by simp)).elim fun fv h => ⟨fv, h.1, h.2.2.1 _ _ rfl⟩

/-- C16: for every cursor in which none of the eleven order-value variants is populated,
OrderValue panics with the message "unsupported or unset order_value in cursor: "
followed by the rendering of the cursor; for every cursor with a populated variant it
returns a value. -/
theorem C16_order_value_panics_when_unset (x : Cursor) :
    (x.hasOrderValue = false →
      x.OrderValue =
        .panic (.explicit ("unsupported or unset order_value in cursor: " ++ x.fmtNoOrder))) ∧
    (x.hasOrderValue = true → ∃ v, x.OrderValue = .ok v) := by
  obtain ⟨p, bw, o1, o2, o3, o4, o5, o6, o7, o8, o9, o10, o11⟩ := x
  constructor
  · intro h
    have e : ∀ {α : Type} (o : Option α), o.isSome = false → o = none := by
      intro α o h
      cases o <;> simp_all
    simp only [Cursor.hasOrderValue, Bool.or_eq_false_iff] at h
    obtain ⟨⟨⟨⟨⟨⟨⟨⟨⟨⟨h1, h2⟩, h3⟩, h4⟩, h5⟩, h6⟩, h7⟩, h8⟩, h9⟩, h10⟩, h11⟩ := h
    simp [Cursor.OrderValue, e _ h1, e _ h2, e _ h3, e _ h4, e _ h5, e _ h6, e _ h7, e _ h8,
      e _ h9, e _ h10, e _ h11]
  · intro h
    unfold Cursor.OrderValue
    simp only
    iterate 11 (split; · exact ⟨_, rfl⟩)
    simp_all [Cursor.hasOrderValue]

theorem C16_order_value_panics_when_unset_witness :
    (Cursor_builder.Build { PrimaryId := some "foo_1" }).OrderValue =
      .panic (.explicit "unsupported or unset order_value in cursor: primary_id:\"foo_1\"") ∧
    ∃ v, ((Cursor_builder.Build { PrimaryId := some "foo_1" }).SetOrderInt64 7).OrderValue =
      .ok v :=
  ⟨((C16_order_value_panics_when_unset (Cursor_builder.Build { PrimaryId := some "foo_1" })).1
      rfl).trans (by decide),
    (C16_order_value_panics_when_unset
      ((Cursor_builder.Build { PrimaryId := some "foo_1" }).SetOrderInt64 7)).2 rfl⟩

/-- C17 (counterexample): a row whose sort value is a time outside the location UTC
gives a cursor whose order value is the same instant in UTC, which differs from the
row's value. -/
theorem C17_counterexample_time_outside_utc :
    demoLocalRow.lookup "id" = some (GoValue.str "a") ∧
    (cell demoLocalRow "created_at").isSupported = true ∧
    ∃ buf c, mapEncodeCursor refCodec demoLocalRow "created_at" false = .ok buf ∧
      decodeCursor refCodec buf = .ok c ∧
      c.OrderValue = .ok (GoValue.time ⟨0, 63888868800, true⟩) ∧
      c.OrderValue ≠ .ok (cell demoLocalRow "created_at") := by
  refine ⟨rfl, rfl, ?_⟩
  obtain ⟨buf, c, h1, h2, -, -, h3⟩ := mapEncodeCursor_decode_toUTC refCodec refCodec_lawful
    demoLocalRow "created_at" false "a" (GoValue.time ⟨0, 63888868800, false⟩) rfl rfl rfl
    (by decide)
  refine ⟨buf, c, h1, h2, h3, ?_⟩
  rw [h3]
  decide

/-- C17: for every row map with a string id and a sort-column value of a supported
type, every direction flag b and a lawful codec, decodeCursor(mapEncodeCursor(row,
sortCol, b)) succeeds and yields a cursor whose primary id is the row's id, whose
is_backwards is b, and whose OrderValue is the row's sort value moved to UTC: the
row's value itself unless it is a time outside UTC. -/
theorem C17_cursor_of_row_decodes (pb : ProtoCodec) (hpb : pb.Lawful) (row : RowMap)
    (sortCol : String) (b : Bool) (id : String) (v : GoValue)
    (hid : row.lookup "id" = some (GoValue.str id)) (hv : row.lookup sortCol = some v)
    (hs : v.isSupported = true) (hr : v.inRange) :
    ∃ buf c, mapEncodeCursor pb row sortCol b = .ok buf ∧ decodeCursor pb buf = .ok c ∧
      c.GetPrimaryId = id ∧ c.GetIsBackwards = b ∧ c.OrderValue = .ok v.toUTC ∧
      ((∀ t, v = GoValue.time t → t.utc = true) → c.OrderValue = .ok v) := by
  obtain ⟨buf, c, h1, h2, h3, h4, h5⟩ :=
    mapEncodeCursor_decode_toUTC pb hpb row sortCol b id v hid hv hs hr
  refine ⟨buf, c, h1, h2, h3, h4, h5, ?_⟩
  intro hu
  rw [h5]
  cases v with
  | time t =>
    have := hu t rfl
    simp [GoValue.toUTC, GoTime.UTC, ← this]
  | _ => rfl

theorem C17_cursor_of_row_decodes_witness :
    ∃ buf c, mapEncodeCursor refCodec (demoRow "b" 2) "created_at" true = .ok buf ∧
      decodeCursor refCodec buf = .ok c ∧ c.GetPrimaryId = "b" ∧ c.GetIsBackwards = true ∧
      c.OrderValue = .ok (GoValue.int64 2) :=
  (C17_cursor_of_row_decodes refCodec refCodec_lawful (demoRow "b" 2) "created_at" true "b"
    (GoValue.int64 2) rfl rfl rfl (by decide)).elim fun buf h => h.elim fun c hc =>
      ⟨buf, c, hc.1, hc.2.1, hc.2.2.1, hc.2.2.2.1, hc.2.2.2.2.1⟩

/-- C18 (counterexample): with requested ids [A, B], a second found row with an id that
was not requested (Z), or with the id of the first row (A), makes the number of found
rows equal the number of requested ids: RowsToItems returns without error and without
an item for B, although B is absent from the found set. -/
theorem C18_counterexample_equal_counts :
    "B" ∈ ["A", "B"] ∧
    "B" ∉ foundIDs DemoItemRow.id DemoItemRow.archivedAt
      [⟨"A", none, "a"⟩, ⟨"Z", none, "z"⟩] false ∧
    RowsToItems DemoItemRow.id DemoItemRow.archivedAt ["A", "B"]
      [⟨"A", none, "a"⟩, ⟨"Z", none, "z"⟩] false demoMap = (["item a"], none) ∧
    "B" ∉ foundIDs DemoItemRow.id DemoItemRow.archivedAt
      [⟨"A", none, "a"⟩, ⟨"A", none, "a2"⟩] false ∧
    RowsToItems DemoItemRow.id DemoItemRow.archivedAt ["A", "B"]
      [⟨"A", none, "a"⟩, ⟨"A", none, "a2"⟩] false demoMap = (["item a", "item a2"], none) := by
  decide

/-- C18: for every list of requested ids, fetched rows and consider-archived flag such
that the found rows have pairwise distinct ids, each of them requested: if some
requested id is absent from the found set, RowsToItems fails, returning no item, with a
not-found error whose message is "could not find id(s): " followed by exactly the
requested ids absent from the found set, in request order, comma-separated. -/
theorem C18_missing_ids_fail {T IT : Type} (GetID : T → String)
    (GetArchivedAt : T → Option GoTime) (ids : List String) (rows : List T) (ca : Bool)
    (mapf : T → Except GoError IT)
    (hnd : (foundIDs GetID GetArchivedAt rows ca).Nodup)
    (hsub : ∀ id ∈ foundIDs GetID GetArchivedAt rows ca, id ∈ ids)
    (hmiss : ∃ id ∈ ids, id ∉ foundIDs GetID GetArchivedAt rows ca) :
    RowsToItems GetID GetArchivedAt ids rows ca mapf =
      ([], some ⟨some ConnectCode.notFound, "could not find id(s): " ++
        ",".intercalate
          (ids.filter fun id => decide (id ∉ foundIDs GetID GetArchivedAt rows ca))⟩) := by
  rw [RowsToItems_not_found GetID GetArchivedAt ids rows ca mapf
    (length_ne_of_missing _ ids hnd hsub hmiss)]
  simp

theorem C18_missing_ids_fail_witness :
    RowsToItems DemoItemRow.id DemoItemRow.archivedAt ["A", "B", "C"]
      [⟨"A", none, "a"⟩, ⟨"C", none, "c"⟩] false demoMap =
      ([], some ⟨some ConnectCode.notFound, "could not find id(s): B"⟩) :=
  (C18_missing_ids_fail DemoItemRow.id DemoItemRow.archivedAt ["A", "B", "C"]
    [⟨"A", none, "a"⟩, ⟨"C", none, "c"⟩] false demoMap (by decide) (by decide)
    (by decide)).trans (by decide)

/-- C19: in RowsToItems a fetched row counts as found if and only if its archived-at is
unset or considerArchived is true. With rows for the ids A, B, C of which the one of B
is archived, requesting [A, B, C] fails with a not-found error naming exactly B when
considerArchived is false, and returns the items of A, B, C in this order (the one of B
in position 2) without error when considerArchived is true and the mapping succeeds. -/
theorem C19_archived_rows_count_as_found {T IT : Type} (GetID : T → String)
    (GetArchivedAt : T → Option GoTime) (mapf : T → Except GoError IT) (f : T → IT)
    (ra rb rc : T) (ts : GoTime) (hab : GetID ra ≠ GetID rb) (hbc : GetID rb ≠ GetID rc)
    (hac : GetID ra ≠ GetID rc) (ha : GetArchivedAt ra = none)
    (hb : GetArchivedAt rb = some ts) (hc : GetArchivedAt rc = none)
    (hmap : ∀ r, mapf r = .ok (f r)) :
    (∀ (rows : List T) (ca : Bool), foundIDs GetID GetArchivedAt rows ca =
      (rows.filter fun r => (GetArchivedAt r).isNone || ca).map GetID) ∧
    RowsToItems GetID GetArchivedAt [GetID ra, GetID rb, GetID rc] [ra, rb, rc] false mapf =
      ([], some ⟨some ConnectCode.notFound, "could not find id(s): " ++ GetID rb⟩) ∧
    RowsToItems GetID GetArchivedAt [GetID ra, GetID rb, GetID rc] [ra, rb, rc] true mapf =
      ([f ra, f rb, f rc], none) := by
  refine ⟨fun rows ca => foundIDs_eq GetID GetArchivedAt rows ca, ?_, ?_⟩
  · have hf : foundIDs GetID GetArchivedAt [ra, rb, rc] false = [GetID ra, GetID rc] := by
      simp [foundIDs_eq, List.filter_cons, ha, hb, hc]
    rw [RowsToItems_not_found GetID GetArchivedAt _ _ false mapf (by simp [hf]), hf]
    have hl : ([GetID ra, GetID rb, GetID rc].filter fun id =>
        !([GetID ra, GetID rc].contains id)) = [GetID rb] := by
      simp [List.filter_cons, hab.symm, hbc]
    rw [hl, intercalate_singleton]
  · rw [RowsToItems_ok GetID GetArchivedAt _ _ true mapf f (fun r _ => hmap r)
      (by simp [foundIDs_eq])]
    simp [List.flatMap_cons, List.filter_cons, hab, hab.symm, hbc, hbc.symm, hac, hac.symm]

theorem C19_archived_rows_count_as_found_witness :
    RowsToItems DemoItemRow.id DemoItemRow.archivedAt ["A", "B", "C"]
      [⟨"A", none, "a"⟩, ⟨"B", some ⟨0, 63888868800, true⟩, "b"⟩, ⟨"C", none, "c"⟩] false
      demoMap = ([], some ⟨some ConnectCode.notFound, "could not find id(s): B"⟩) ∧
    RowsToItems DemoItemRow.id DemoItemRow.archivedAt ["A", "B", "C"]
      [⟨"A", none, "a"⟩, ⟨"B", some ⟨0, 63888868800, true⟩, "b"⟩, ⟨"C", none, "c"⟩] true
      demoMap = (["item a", "item b", "item c"], none) :=
  have h := C19_archived_rows_count_as_found DemoItemRow.id DemoItemRow.archivedAt demoMap
    (fun r => "item " ++ r.name) ⟨"A", none, "a"⟩ ⟨"B", some ⟨0, 63888868800, true⟩, "b"⟩
    ⟨"C", none, "c"⟩ ⟨0, 63888868800, true⟩ (by decide) (by decide) (by decide) rfl rfl rfl
    (fun _ => rfl)
  ⟨h.2.1.trans (by decide), h.2.2.trans (by decide)⟩

/-- C20: for every list of distinct requested ids and fetched rows that are, in any
order, exactly one found row per requested id, with a mapping function that succeeds,
RowsToItems returns no error and as many items as requested ids, the i-th item being
the mapping of the row whose id is the i-th requested id; every reordering of the
fetched rows gives the same result. -/
theorem C20_items_in_request_order {T IT : Type} (GetID : T → String)
    (GetArchivedAt : T → Option GoTime) (ids : List String) (rows : List T) (ca : Bool)
    (mapf : T → Except GoError IT) (f : T → IT) (hnd : ids.Nodup)
    (hperm : (rows.map GetID).Perm ids)
    (hfound : ∀ r ∈ rows, GetArchivedAt r = none ∨ ca = true)
    (hmap : ∀ r, mapf r = .ok (f r)) :
    ∃ sel : List T, sel.map GetID = ids ∧ (∀ r ∈ sel, r ∈ rows) ∧
      RowsToItems GetID GetArchivedAt ids rows ca mapf = (sel.map f, none) ∧
      ∀ rows2 : List T, rows2.Perm rows →
        RowsToItems GetID GetArchivedAt ids rows2 ca mapf = (sel.map f, none) := by
  have hnd1 : (rows.map GetID).Nodup := hperm.nodup_iff.mpr hnd
  have hl : ∀ id ∈ ids, id ∈ rows.map GetID := fun id hid => hperm.mem_iff.mpr hid
  obtain ⟨h1, h2⟩ := select_rows GetID rows hnd1 ids hl
  have hrun : ∀ rows2 : List T, rows2.Perm rows →
      RowsToItems GetID GetArchivedAt ids rows2 ca mapf =
        ((ids.flatMap fun id => rows.filter fun r => GetID r = id).map f, none) := by
    intro rows2 hp
    have hf2 : ∀ r ∈ rows2, GetArchivedAt r = none ∨ ca = true :=
      fun r hr => hfound r (hp.mem_iff.mp hr)
    have hlen : (foundIDs GetID GetArchivedAt rows2 ca).length = ids.length := by
      rw [foundIDs_all GetID GetArchivedAt rows2 ca hf2, List.length_map, hp.length_eq,
        ← hperm.length_eq, List.length_map]
    rw [RowsToItems_ok GetID GetArchivedAt ids rows2 ca mapf f (fun r _ => hmap r) hlen,
      ← select_rows_perm GetID rows rows2 hnd1 hp ids hl, List.map_flatMap]
  exact ⟨_, h1, h2, hrun rows (List.Perm.refl _), hrun⟩

theorem C20_items_in_request_order_witness :
    ∃ sel : List DemoItemRow, sel.map DemoItemRow.id = ["C", "A", "B"] ∧
      RowsToItems DemoItemRow.id DemoItemRow.archivedAt ["C", "A", "B"] demoItems false
        demoMap = (sel.map fun r => "item " ++ r.name, none) ∧
      RowsToItems DemoItemRow.id DemoItemRow.archivedAt ["C", "A", "B"] demoItems false
        demoMap = (["item c", "item a", "item b"], none) :=
  (C20_items_in_request_order DemoItemRow.id DemoItemRow.archivedAt ["C", "A", "B"] demoItems
    false demoMap (fun r => "item " ++ r.name) (by decide) (by decide) (by decide)
    (fun _ => rfl)).elim fun sel h => ⟨sel, h.1, h.2.2.1, by decide⟩

/-- C21 (counterexample): with requested ids [A, B], a found row with an id that was not
requested (Z) gives one item and no error; an archived second row with the id B next to
the live one gives three items and no error. -/
theorem C21_counterexample_item_count :
    RowsToItems DemoItemRow.id DemoItemRow.archivedAt ["A", "B"]
      [⟨"A", none, "a"⟩, ⟨"Z", none, "z"⟩] false demoMap = (["item a"], none) ∧
    RowsToItems DemoItemRow.id DemoItemRow.archivedAt ["A", "B"]
      [⟨"A", none, "a"⟩, ⟨"B", none, "b"⟩, ⟨"B", some ⟨0, 63888868800, true⟩, "b2"⟩] false
      demoMap = (["item a", "item b", "item b2"], none) := by
  decide

/-- C21: for every list of requested ids, fetched rows with pairwise distinct ids such
that the id of every found row is requested, and consider-archived flag, with a mapping
function that succeeds: RowsToItems returns either no error and exactly one item per
requested id, or no item and a not-found error; so an output shorter than the request
only occurs together with a not-found error. -/
theorem C21_item_count_matches_request {T IT : Type} (GetID : T → String)
    (GetArchivedAt : T → Option GoTime) (ids : List String) (rows : List T) (ca : Bool)
    (mapf : T → Except GoError IT) (f : T → IT) (hnd : (rows.map GetID).Nodup)
    (hsub : ∀ id ∈ foundIDs GetID GetArchivedAt rows ca, id ∈ ids)
    (hmap : ∀ r, mapf r = .ok (f r)) :
    ((RowsToItems GetID GetArchivedAt ids rows ca mapf).2 = none →
      (RowsToItems GetID GetArchivedAt ids rows ca mapf).1.length = ids.length) ∧
    ((RowsToItems GetID GetArchivedAt ids rows ca mapf).1.length < ids.length →
      ∃ msg, RowsToItems GetID GetArchivedAt ids rows ca mapf =
        ([], some ⟨some ConnectCode.notFound, msg⟩)) := by
  by_cases hlen : (foundIDs GetID GetArchivedAt rows ca).length = ids.length
  · obtain ⟨h1, h2⟩ := RowsToItems_full GetID GetArchivedAt ids rows ca mapf f hnd hsub hmap hlen
    have hl : (RowsToItems GetID GetArchivedAt ids rows ca mapf).1.length = ids.length := by
      rw [h1, List.length_map, ← List.length_map (matchingRows GetID ids rows) GetID, h2]
    exact ⟨fun _ => hl, fun hlt => absurd hl (Nat.ne_of_lt hlt)⟩
  · have h1 := RowsToItems_not_found GetID GetArchivedAt ids rows ca mapf hlen
    constructor
    · intro hn
      rw [h1] at hn
      cases hn
    · intro _
      exact ⟨_, h1⟩

theorem C21_item_count_matches_request_witness :
    (RowsToItems DemoItemRow.id DemoItemRow.archivedAt ["C", "A", "B"] demoItems false
      demoMap).1.length = 3 ∧
    ∃ msg, RowsToItems DemoItemRow.id DemoItemRow.archivedAt ["C", "A", "B", "D"] demoItems false
      demoMap = ([], some ⟨some ConnectCode.notFound, msg⟩) :=
  ⟨(C21_item_count_matches_request DemoItemRow.id DemoItemRow.archivedAt ["C", "A", "B"]
      demoItems false demoMap (fun r => "item " ++ r.name) (by decide) (by decide)
      (fun _ => rfl)).1 (by decide),
    (C21_item_count_matches_request DemoItemRow.id DemoItemRow.archivedAt ["C", "A", "B", "D"]
      demoItems false demoMap (fun r => "item " ++ r.name) (by decide) (by decide)
      (fun _ => rfl)).2 (by decide)⟩

/-- C22: when the not-found check passes, RowsToItems applies the mapping function to
every matching row of every requested id, in request order, whether or not an earlier
mapping failed: it returns the items of the rows whose mapping succeeds, in that order,
together with the join of the errors of the rows whose mapping fails, in that order;
every matching row gives an item or an error, and the error is nil if and only if no
mapping failed. -/
theorem C22_mapping_errors_are_joined {T IT : Type} (GetID : T → String)
    (GetArchivedAt : T → Option GoTime) (ids : List String) (rows : List T) (ca : Bool)
    (mapf : T → Except GoError IT)
    (h : IsOneNotFound (foundIDs GetID GetArchivedAt rows ca) ids = none) :
    RowsToItems GetID GetArchivedAt ids rows ca mapf =
      (mappedItems mapf (matchingRows GetID ids rows),
        joinAll (mappingErrors mapf (matchingRows GetID ids rows))) ∧
    (mappedItems mapf (matchingRows GetID ids rows)).length +
        (mappingErrors mapf (matchingRows GetID ids rows)).length =
      (matchingRows GetID ids rows).length ∧
    ((RowsToItems GetID GetArchivedAt ids rows ca mapf).2 = none ↔
      ∀ r ∈ matchingRows GetID ids rows, ∃ x, mapf r = Except.ok x) := by
  have h1 := RowsToItems_pass GetID GetArchivedAt ids rows ca mapf h
  refine ⟨h1, mapped_length mapf _, ?_⟩
  rw [h1]
  simp only
  rw [joinAll_eq_none, mappingErrors_nil]

theorem C22_mapping_errors_are_joined_witness :
    RowsToItems DemoItemRow.id DemoItemRow.archivedAt ["C", "B", "A"] demoItems false
      demoMapFailing = (["item a"], some ⟨none, "bad row c\nbad row b"⟩) :=
  (C22_mapping_errors_are_joined DemoItemRow.id DemoItemRow.archivedAt ["C", "B", "A"] demoItems
    false demoMapFailing (by decide)).1.trans (by decide)

/-- C23 (counterexample): a request whose sort_by is present and is the empty string is
planned on the empty column name, in the selected columns and in the ORDER BY, not on
"created_at". -/
theorem C23_counterexample_empty_sort_by :
    (demoInputSortBy "").GetSortBy = "" ∧
    ∃ plan, PaginateSelectMods refCodec (demoInputSortBy "") "t" = .ok plan ∧
      selectedColumns plan.1 = ["id", ""] ∧
      orderSpecs plan.1 = [("", false), ("id", false)] := by
  refine ⟨rfl, ?_⟩
  obtain ⟨plan, hplan⟩ := paginate_no_cursor refCodec (demoInputSortBy "") "t" rfl
  refine ⟨plan, hplan, ?_, ?_⟩
  · exact (paginate_parts refCodec _ "t" plan hplan).1
  · rcases paginate_mods refCodec _ "t" plan hplan with ⟨-, hm⟩ | ⟨hc, -⟩
    · rw [hm]
      rfl
    · cases hc

/-- C23: the effective sort column of the plan is the request's sort_by when one is
present and "created_at" otherwise; it is the second selected column and the first
ORDER BY column, and the reconciler builds cursors from that same column. In particular
a request without sort_by is planned on "created_at". -/
theorem C23_effective_sort_column (pb : ProtoCodec) (inp : ListInput) (t : String)
    (plan : List Mod × (List RowMap → Res PageResult))
    (h : PaginateSelectMods pb inp t = .ok plan) :
    planSortCol inp = (if inp.HasSortBy then inp.GetSortBy else "created_at") ∧
    selectedColumns plan.1 = ["id", planSortCol inp] ∧
    (orderSpecs plan.1).map Prod.fst = [planSortCol inp, "id"] ∧
    plan.2 = reconcile pb (planPageSize inp) (planSortCol inp) (scanBackwards pb inp)
      inp.HasCursor ∧
    (inp.HasSortBy = false → selectedColumns plan.1 = ["id", "created_at"] ∧
      (orderSpecs plan.1).map Prod.fst = ["created_at", "id"] ∧
      plan.2 = reconcile pb (planPageSize inp) "created_at" (scanBackwards pb inp)
        inp.HasCursor) := by
  obtain ⟨h1, h2, -, -⟩ := paginate_parts pb inp t plan h
  have h3 := paginate_reconciler pb inp t plan h
  refine ⟨rfl, h1, h2, h3, ?_⟩
  intro hs
  have hcol : planSortCol inp = "created_at" := by simp [planSortCol, hs]
  rw [hcol] at h1 h2 h3
  exact ⟨h1, h2, h3⟩

theorem C23_effective_sort_column_witness :
    ∃ plan, PaginateSelectMods refCodec (demoInput 2 false) "t" = .ok plan ∧
      selectedColumns plan.1 = ["id", "created_at"] ∧
      (orderSpecs plan.1).map Prod.fst = ["created_at", "id"] :=
  (paginate_no_cursor refCodec (demoInput 2 false) "t" rfl).elim fun plan hplan =>
    have h := (C23_effective_sort_column refCodec (demoInput 2 false) "t" plan hplan).2.2.2.2 rfl
    ⟨plan, hplan, h.1, h.2.1⟩

/-- C24: the plan's row limit is page_size + 1 in 32-bit arithmetic, where page_size is
the request's per_page when set and 100 otherwise; for every page size from 1 to 100 the
limit is page_size + 1 without overflow (101 without per_page), and the reconciler uses
the same page_size: a page it returns has the ids of the first page_size fetched rows
when more than page_size rows were fetched, and of all fetched rows otherwise. -/
theorem C24_limit_is_page_size_plus_one (pb : ProtoCodec) (inp : ListInput) (t : String)
    (plan : List Mod × (List RowMap → Res PageResult))
    (h : PaginateSelectMods pb inp t = .ok plan) :
    planPageSize inp = (if inp.HasPerPage then inp.GetPerPage else 100) ∧
    planLimit plan.1 = some (wrapInt32 (planPageSize inp + 1)) ∧
    (1 ≤ planPageSize inp → planPageSize inp ≤ 100 →
      planLimit plan.1 = some (planPageSize inp + 1)) ∧
    (inp.HasPerPage = false → planLimit plan.1 = some 101) ∧
    plan.2 = reconcile pb (planPageSize inp) (planSortCol inp) (scanBackwards pb inp)
      inp.HasCursor ∧
    (∀ rows page, plan.2 rows = .ok page →
      page.ids.length = (stripSentinel rows (planPageSize inp)).length ∧
      (stripSentinel rows (planPageSize inp)).length =
        min rows.length (planPageSize inp).toNat) := by
  obtain ⟨-, -, h1, -⟩ := paginate_parts pb inp t plan h
  have h3 := paginate_reconciler pb inp t plan h
  refine ⟨rfl, h1, ?_, ?_, h3, ?_⟩
  · intro h1le h100
    rw [h1, wrapInt32_small _ (by omega) (by omega)]
  · intro hp
    have hps : planPageSize inp = 100 := by simp [planPageSize, hp]
    rw [h1, hps]
    rfl
  · intro rows page hpage
    rw [h3] at hpage
    obtain ⟨hps0, hids, -⟩ := reconcile_shape pb _ _ _ _ rows page hpage
    rw [stripSentinel_eq rows _ hps0, hids]
    constructor
    · split <;> simp
    · rw [List.length_take, Nat.min_comm]

theorem C24_limit_is_page_size_plus_one_witness :
    ∃ plan, PaginateSelectMods refCodec (demoInput 2 false) "t" = .ok plan ∧
      planLimit plan.1 = some 3 :=
  (paginate_no_cursor refCodec (demoInput 2 false) "t" rfl).elim fun plan hplan =>
    ⟨plan, hplan,
      (C24_limit_is_page_size_plus_one refCodec (demoInput 2 false) "t" plan hplan).2.2.1
        (by decide) (by decide)⟩

/-- C25: the plan selects from exactly one row-set, baseTableName followed by "_archived"
when the request's show_archived is true and by "_live" otherwise, whatever the cursor,
the direction and the page size. -/
theorem C25_one_row_set (pb : ProtoCodec) (inp : ListInput) (t : String)
    (plan : List Mod × (List RowMap → Res PageResult))
    (h : PaginateSelectMods pb inp t = .ok plan) :
    fromTables plan.1 = [t ++ if inp.GetShowArchived then "_archived" else "_live"] ∧
    (inp.GetShowArchived = true → fromTables plan.1 = [t ++ "_archived"]) ∧
    (inp.GetShowArchived = false → fromTables plan.1 = [t ++ "_live"]) := by
  obtain ⟨-, -, -, h1⟩ := paginate_parts pb inp t plan h
  refine ⟨h1, ?_, ?_⟩ <;>
  · intro hs
    rw [h1, hs]
    simp

theorem C25_one_row_set_witness :
    ∃ plan, PaginateSelectMods refCodec (demoInputAt 2 true "b" 2 true) "items" = .ok plan ∧
      fromTables plan.1 = ["items_live"] :=
  (paginate_of_cursor refCodec (demoInputAt 2 true "b" 2 true) "items" _ (GoValue.int64 2) rfl
    (demo_decode "b" 2 true) rfl).elim fun plan hplan =>
    ⟨plan, hplan,
      ((C25_one_row_set refCodec (demoInputAt 2 true "b" 2 true) "items" plan hplan).2.2
        rfl).trans (by decide)⟩

/-- C26 (counterexample): the cursor that NewCursor builds for an order value of four
hundred letters marshals to more than 300 bytes; decodeCursor accepts these bytes and
PaginateSelectMods returns a plan for a request that carries them. -/
theorem C26_counterexample_long_cursor_accepted :
    NewCursor "foo_1" (GoValue.str demoLongString) false =
      .ok (stringCursor "foo_1" demoLongString false) ∧
    refCodec.Marshal (stringCursor "foo_1" demoLongString false) = Except.ok demoLongCursor ∧
    300 < demoLongCursor.length ∧
    decodeCursor refCodec demoLongCursor = .ok (stringCursor "foo_1" demoLongString false) ∧
    ∃ plan, PaginateSelectMods refCodec (demoInputWith 2 false demoLongCursor) "t" = .ok plan :=
  ⟨rfl, rfl, demo_long_length, (stringCursorBytes_decode "foo_1" demoLongString false).2,
    demo_long_plan⟩

/-- C26 (amended): for every cursor byte string longer than 300 bytes, decodeCursor
rejects it exactly when the wire codec does not parse it, with the codec's error wrapped
as "unmarshal cursor: ..."; it accepts it when it parses, and never panics.
PaginateSelectMods returns an error for a request with these cursor bytes exactly in
the same case, and a plan when the bytes parse to a cursor with an order value. -/
theorem C26_long_cursor_rejected_only_if_unparsable (pb : ProtoCodec) (buf : Bytes)
    (_hlen : 300 < buf.length) :
    (∀ c, decodeCursor pb buf = .ok c ↔ pb.Unmarshal buf = Except.ok c) ∧
    (∀ e, pb.Unmarshal buf = Except.error e →
      decodeCursor pb buf = .err (GoError.wrap "unmarshal cursor: " e)) ∧
    ((∃ e, decodeCursor pb buf = .err e) ↔ ∃ e, pb.Unmarshal buf = Except.error e) ∧
    (∀ p, decodeCursor pb buf ≠ .panic p) ∧
    (∀ (inp : ListInput) (t : String), inp.HasCursor = true → inp.GetCursor = buf →
      ((∃ e, PaginateSelectMods pb inp t = .err e) ↔
        ∃ e, pb.Unmarshal buf = Except.error e)) ∧
    ∀ (inp : ListInput) (t : String) (c : Cursor) (v : GoValue), inp.HasCursor = true →
      inp.GetCursor = buf → pb.Unmarshal buf = Except.ok c → c.OrderValue = .ok v →
      ∃ plan, PaginateSelectMods pb inp t = .ok plan := by
  refine ⟨?_, ?_, ?_, ?_, ?_, ?_⟩
  · unfold decodeCursor
    cases h : pb.Unmarshal buf <;> simp [Res.ofExcept, Res.wrapErr]
  · unfold decodeCursor
    cases h : pb.Unmarshal buf <;> simp [Res.ofExcept, Res.wrapErr]
  · unfold decodeCursor
    cases h : pb.Unmarshal buf <;> simp [Res.ofExcept, Res.wrapErr]
  · unfold decodeCursor
    cases h : pb.Unmarshal buf <;> simp [Res.ofExcept, Res.wrapErr]
  · intro inp t hc hb
    rw [paginate_err_iff, hc, hb]
    simp
  · intro inp t c v hc hb hu hv
    apply paginate_of_cursor pb inp t c v hc _ hv
    rw [hb]
    simp [decodeCursor, hu, Res.ofExcept, Res.wrapErr]

theorem C26_long_cursor_rejected_only_if_unparsable_witness :
    300 < demoLongCursor.length ∧
    decodeCursor refCodec demoLongCursor = .ok (stringCursor "foo_1" demoLongString false) :=
  ⟨demo_long_length,
    ((C26_long_cursor_rejected_only_if_unparsable refCodec demoLongCursor
      demo_long_length).1 _).mpr (stringCursorBytes_decode "foo_1" demoLongString false).1⟩

/-- C27: with a wire codec that round-trips cursors, every non-empty next or previous
cursor of a page the reconciler returns decodes to a cursor with exactly one order-value
variant populated, on which OrderValue returns a value, and whose primary id is the id
of one of the rows of the page. -/
theorem C27_returned_cursors_are_tagged (pb : ProtoCodec) (hpb : pb.Lawful) (inp : ListInput)
    (t : String) (rows : List RowMap) (page : PageResult)
    (h : reconcileWith pb inp t rows = .ok page) :
    (page.nextCursor ≠ [] →
      ∃ c, decodeCursor pb page.nextCursor = .ok c ∧ c.orderCount = 1 ∧
        c.hasOrderValue = true ∧ (∃ v, c.OrderValue = .ok v) ∧ c.GetPrimaryId ∈ page.ids) ∧
    (page.prevCursor ≠ [] →
      ∃ c, decodeCursor pb page.prevCursor = .ok c ∧ c.orderCount = 1 ∧
        c.hasOrderValue = true ∧ (∃ v, c.OrderValue = .ok v) ∧ c.GetPrimaryId ∈ page.ids) := by
  obtain ⟨-, hids, hcur⟩ := reconcile_shape pb _ _ _ _ rows page
    (reconcileWith_eq pb inp t rows page h)
  obtain ⟨hn, hp⟩ := reconcileCursors_source pb _ _ _ _ _ _ _ _ hcur
  have hmem : ∀ row ∈ rows.take (planPageSize inp).toNat, rowIdOf row ∈ page.ids := by
    intro row hrow
    rw [hids]
    split
    · exact List.mem_map.mpr ⟨row, List.mem_reverse.mpr hrow, rfl⟩
    · exact List.mem_map.mpr ⟨row, hrow, rfl⟩
  constructor
  · intro hne
    obtain ⟨row, hrow, henc⟩ := hn hne
    obtain ⟨-, c, hd, h1, h2, h3, h4⟩ :=
      mapEncodeCursor_decode_count pb hpb row _ false _ henc
    exact ⟨c, hd, h1, h2, h3, h4 ▸ hmem row hrow⟩
  · intro hne
    obtain ⟨row, hrow, henc⟩ := hp hne
    obtain ⟨-, c, hd, h1, h2, h3, h4⟩ :=
      mapEncodeCursor_decode_count pb hpb row _ true _ henc
    exact ⟨c, hd, h1, h2, h3, h4 ▸ hmem row hrow⟩

theorem C27_returned_cursors_are_tagged_witness :
    reconcileWith refCodec (demoInput 1 false) "t" [demoRow "a" 1, demoRow "b" 2] =
      .ok ⟨["a"], demoCursor "a" 1 false, []⟩ ∧
    demoCursor "a" 1 false ≠ [] ∧
    ∃ c, decodeCursor refCodec (demoCursor "a" 1 false) = .ok c ∧ c.orderCount = 1 ∧
      c.hasOrderValue = true ∧ (∃ v, c.OrderValue = .ok v) ∧ c.GetPrimaryId ∈ ["a"] :=
  ⟨rfl, List.cons_ne_nil _ _,
    (C27_returned_cursors_are_tagged refCodec refCodec_lawful (demoInput 1 false) "t"
      [demoRow "a" 1, demoRow "b" 2] ⟨["a"], demoCursor "a" 1 false, []⟩ rfl).1
      (List.cons_ne_nil _ _)⟩

/-- C28: for every batch passed to ModifyPerItem, the processed items are the items with
a non-empty update mask, in order; the row-level function is called on exactly those of
them whose mask is valid, one after the other, and on no other item; the returned error
is the join, in order, of one error per processed item that failed: the not-found error
"item '<id>' does not exist" when the row-level function reports that there are no rows,
the error itself otherwise (the invalid-mask error included); it is nil if and only if
no processed item failed. -/
theorem C28_modify_per_item {IIT σ : Type} (GetId : IIT → String)
    (GetPaths : IIT → List String) (IsValid : IIT → Bool) (f : IIT → σ → Option OpError × σ)
    (items : List IIT) (tx : σ) :
    ModifyPerItem GetId GetPaths IsValid f items tx =
      (joinAll (reportedErrors GetId (modifyTrace GetPaths IsValid f items tx).1),
        (modifyTrace GetPaths IsValid f items tx).2) ∧
    (modifyTrace GetPaths IsValid f items tx).1.map Prod.fst =
      items.filter (fun item => decide (1 ≤ (GetPaths item).length)) ∧
    (ModifyPerItem GetId GetPaths IsValid f items tx).2 =
      (items.filter fun item => decide (1 ≤ (GetPaths item).length) && IsValid item).foldl
        (fun s item => (f item s).2) tx ∧
    (∀ p ∈ (modifyTrace GetPaths IsValid f items tx).1, ∀ o, p.2 = some o →
      (o.isNoRows = true →
        GoError.connect .notFound (GoError.errorf ("item '" ++ GetId p.1 ++ "' does not exist")) ∈
          reportedErrors GetId (modifyTrace GetPaths IsValid f items tx).1) ∧
      (o.isNoRows = false →
        o.err ∈ reportedErrors GetId (modifyTrace GetPaths IsValid f items tx).1)) ∧
    ((ModifyPerItem GetId GetPaths IsValid f items tx).1 = none ↔
      ∀ p ∈ (modifyTrace GetPaths IsValid f items tx).1, p.2 = none) := by
  have h : ModifyPerItem GetId GetPaths IsValid f items tx =
      (joinAll (reportedErrors GetId (modifyTrace GetPaths IsValid f items tx).1),
        (modifyTrace GetPaths IsValid f items tx).2) := by
    unfold ModifyPerItem joinAll
    exact modify_fold GetId GetPaths IsValid f items none tx
  refine ⟨h, modifyTrace_items GetPaths IsValid f items tx, ?_, ?_, ?_⟩
  · rw [h]
    exact modifyTrace_state GetPaths IsValid f items tx
  · intro p hp o ho
    have hm := reportedErrors_mem GetId _ p o hp ho
    constructor
    · intro hn
      simpa [itemError, hn] using hm
    · intro hn
      simpa [itemError, hn] using hm
  · rw [h]
    simp only
    rw [joinAll_eq_none, reportedErrors_nil]

theorem C28_modify_per_item_witness :
    ModifyPerItem DemoModifyItem.id DemoModifyItem.paths DemoModifyItem.valid demoModify
      demoBatch [] =
      (some ⟨some ConnectCode.notFound,
        "item 'gone' does not exist\nconstraint violated\ninvalid update mask: [nope x]"⟩,
        ["gone", "bad", "d"]) :=
  (C28_modify_per_item DemoModifyItem.id DemoModifyItem.paths DemoModifyItem.valid demoModify
    demoBatch []).1.trans (by decide)

/-- C29: for every primary id, direction flag and order value of Go's type int,
NewCursor panics in the type assertion to int64; it returns neither a cursor nor an
error. -/
theorem C29_int_order_value_panics (id : String) (n : Int) (dir : Bool) :
    NewCursor id (GoValue.int n) dir =
      .panic (.typeAssertion "interface conversion: interface \x7b\x7d is int, not int64") ∧
    (¬ ∃ c, NewCursor id (GoValue.int n) dir = .ok c) ∧
    ¬ ∃ e, NewCursor id (GoValue.int n) dir = .err e := by
  refine ⟨rfl, ?_, ?_⟩
  · rintro ⟨c, h⟩
    cases h
  · rintro ⟨e, h⟩
    cases h

/-- C30 (counterexample): the reconciler panics, instead of returning a page or an
error, when the page size is negative (slice bounds) and when a row needed for a cursor
holds a sort value of Go's type int (type assertion in NewCursor). -/
theorem C30_counterexample_reconciler_panics :
    reconcileWith refCodec (demoInput (-1) false) "t" [demoRow "a" 1] =
      .panic (.sliceBounds "slice bounds out of range") ∧
    (GoValue.int 1).isSupported = false ∧
    reconcileWith refCodec (demoInput 1 false) "t" [demoIntRow "a" 1, demoIntRow "b" 2] =
      .panic (.typeAssertion "interface conversion: interface \x7b\x7d is int, not int64") := by
  decide

/-- C30: for every request with a page size that is not negative and every list of
fetched rows in which no row needed for a cursor holds a sort value of Go's type int
(wire codec that round-trips cursors), the reconciler either returns a page or returns
an error, which carries neither ids nor cursors. It returns an error exactly when a
retained row has no string value under "id" or a row needed for a cursor lacks the sort
column or holds a sort value of an unsupported type (a nil value included); so a row
without the sort column that is not needed for a cursor does not make it fail. -/
theorem C30_reconciler_outcomes (pb : ProtoCodec) (hpb : pb.Lawful) (inp : ListInput)
    (t : String) (plan : List Mod × (List RowMap → Res PageResult))
    (h : PaginateSelectMods pb inp t = .ok plan) (rows : List RowMap)
    (hps : 0 ≤ planPageSize inp)
    (hint : ∀ r ∈ cursorRows (planPageSize inp) (scanBackwards pb inp) inp.HasCursor rows,
      ∀ n, r.lookup (planSortCol inp) ≠ some (GoValue.int n)) :
    ((∃ page, plan.2 rows = .ok page) ∨ ∃ e, plan.2 rows = .err e) ∧
    ((∃ e, plan.2 rows = .err e) ↔
      ((∃ r ∈ stripSentinel rows (planPageSize inp),
          ¬ ∃ id, r.lookup "id" = some (GoValue.str id)) ∨
        ∃ r ∈ cursorRows (planPageSize inp) (scanBackwards pb inp) inp.HasCursor rows,
          ¬ ∃ v, r.lookup (planSortCol inp) = some v ∧ v.isSupported = true)) ∧
    ((∃ page, plan.2 rows = .ok page) ↔
      ((∀ r ∈ stripSentinel rows (planPageSize inp),
          ∃ id, r.lookup "id" = some (GoValue.str id)) ∧
        ∀ r ∈ cursorRows (planPageSize inp) (scanBackwards pb inp) inp.HasCursor rows,
          ∃ v, r.lookup (planSortCol inp) = some v ∧ v.isSupported = true)) := by
  rw [paginate_reconciler pb inp t plan h, reconcile_eq_tail _ _ _ _ _ _ hps]
  unfold cursorRows at hint ⊢
  rw [stripSentinel_eq rows _ hps] at hint ⊢
  rcases reconcileTail_outcome pb hpb (planSortCol inp) (scanBackwards pb inp) inp.HasCursor
    (decide ((rows.length : Int) > planPageSize inp)) (rows.take (planPageSize inp).toNat)
    hint with ⟨hQ, hP, page, hpage⟩ | ⟨hbad, e, he⟩
  · refine ⟨Or.inl ⟨page, hpage⟩, ?_, ?_⟩
    · constructor
      · rintro ⟨e, he⟩
        rw [hpage] at he
        cases he
      · rintro (⟨r, hr, hn⟩ | ⟨r, hr, hn⟩)
        · exact absurd (hQ r hr) hn
        · exact absurd (hP r hr) hn
    · exact ⟨fun _ => ⟨hQ, hP⟩, fun _ => ⟨page, hpage⟩⟩
  · refine ⟨Or.inr ⟨e, he⟩, ⟨fun _ => hbad, fun _ => ⟨e, he⟩⟩, ?_⟩
    constructor
    · rintro ⟨page, hpage⟩
      rw [he] at hpage
      cases hpage
    · rintro ⟨hQ, hP⟩
      rcases hbad with ⟨r, hr, hn⟩ | ⟨r, hr, hn⟩
      · exact absurd (hQ r hr) hn
      · exact absurd (hP r hr) hn

theorem C30_reconciler_outcomes_witness :
    ∃ plan, PaginateSelectMods refCodec (demoInput 3 false) "t" = .ok plan ∧
      ∃ page, plan.2 demoMixedRows = .ok page :=
  (paginate_no_cursor refCodec (demoInput 3 false) "t" rfl).elim fun plan hplan =>
    ⟨plan, hplan,
      (C30_reconciler_outcomes refCodec refCodec_lawful (demoInput 3 false) "t" plan hplan
        demoMixedRows (by decide) demo_mixed_no_int).2.2.mpr demo_mixed_ok⟩
end Scrud
